import Mathlib

/-!
The cown runtime core of `src/rt/sched/cown.h`.

A shallow embedding of `verona::rt::Cown`: message send, reference counting,
the backpressure state word and its transitions, token processing, the
backpressure scan, the posting of a multi-message, the fast path, the
execution of a message (`run_step`), the batch loop of a cown (`run`) and the
collection of a cown during a sweep (`try_collect`).

Conventions of the embedding.

* The production build is embedded: `USE_SYSTEMATIC_TESTING` and
  `USE_SYSTEMATIC_TESTING_WEAK_NOTICEBOARDS` are undefined, so `yield()` does
  nothing, no coin is flipped and `Systematic::cout()` prints nothing.
  Assertions are not compiled in.
* One thread runs at a time: between an atomic load and the compare-exchange
  that follows it no other thread writes the word, so the exchange succeeds on
  its first attempt.
* Pointers are addresses (`Nat`), the null pointer is `none`.  The memory is the
  record `World`; every routine takes the world and returns the new one.
* Calls into the scheduler (`schedule_fifo`, `schedule_lifo`), into the queue
  (`wake`), into the region heap (`Region::release`, `Immutable::release`,
  `dealloc` of a cown) and of the finaliser and the destructor of a cown are
  recorded, in order, in `World.trace`.
* The data of a cown is declared outside this file.  What `collect` needs of it
  is the list of objects that `trace` pushes, `World.payloads`; a cown among
  them is released by `Cown::release`, as in the source.
* `release`, `queue_collect` and `collect` call each other.  The calls of
  `collect` that `queue_collect` makes run with its thread-local work list in
  place, where a nested `queue_collect` pushes and returns; this is where the
  definitions cut the recursion (`release_nested`, `collect_nested`), and
  `release_nested_eq` and `collect_nested_eq` show that there they are
  `release` and `collect`.
* Only the deallocation of a cown is recorded.  The memory of queue nodes,
  message bodies, behaviour objects and participant arrays is never reused, so
  `alloc->dealloc` of these leaves the world as it is.
* The one place where another thread is let in is the window of `run` between
  a dequeue that found nothing and `mark_sleeping`: the nodes that producers
  enqueue there are the parameter `arrivals` of `run`.
* A walk along blocker pointers need not end when the pointers form a cycle.
  Routines that contain such a walk take a bound on its number of steps and
  return an `Outcome`: the world reached, and whether the routine returned.
-/

namespace Verona

/-- Address of a cown. -/
abbrev CownPtr := Nat

/-- Address of a `MultiMessage::MultiMessageBody`. -/
abbrev BodyPtr := Nat

/-- Modelled from the spec: the `Priority` enumeration, declared in a header
that is not in this file.  The four priorities of the backpressure word. -/
inductive Priority where
  | Normal
  | Low
  | High
  | MaybeHigh
deriving DecidableEq, Repr

/-- Modelled from the spec: the `EpochMark` enumeration of the object header,
declared outside this file. -/
inductive EpochMark where
  | EPOCH_A
  | EPOCH_B
  | EPOCH_NONE
  | SCHEDULED_FOR_SCAN
deriving DecidableEq, Repr

/-- Modelled from the spec: the enumeration `TransferOwnership`, declared
outside this file; the template argument `transfer` of `send` and of the static
`schedule`. -/
inductive TransferOwnership where
  | NoTransfer
  | YesTransfer
deriving DecidableEq, Repr

/-- The enumeration `Cown::TryFastSend`. -/
inductive TryFastSend where
  | NoTryFast
  | YesTryFast
deriving DecidableEq, Repr

/-- Modelled from the spec: a queue node (`MultiMessage`, declared in
`multimessage.h`).  `addr` is the address of the node, `body` the shared body
(`none` for the body-less stub and token nodes) and `epoch` its epoch mark. -/
structure MultiMessage where
  addr : Nat
  body : Option BodyPtr
  epoch : EpochMark
deriving DecidableEq, Repr

/-- Modelled from the spec: `MultiMessage::MultiMessageBody`.  The pair
`(count, cowns)` of the source is the list `cowns`; `count` is its length. -/
structure MultiMessageBody where
  index : Nat
  cowns : List CownPtr
  behaviour : Nat
deriving DecidableEq, Repr

/-- The field `count` of a body: the number of participants. -/
def MultiMessageBody.count (b : MultiMessageBody) : Nat := b.cowns.length

/-- Modelled from the spec: the multi-producer single-consumer queue `MPSCQ`
of `ds/mpscq.h`, with its encoded sleeping state.  `msgs` are the nodes behind
the stub, oldest first; `notified` is the pending notification flag. -/
structure MPSCQ where
  msgs : List MultiMessage
  sleeping : Bool
  notified : Bool
deriving DecidableEq, Repr

/-- Modelled from the spec: `enqueue(m)` appends the node and reports whether
the producer observed the queue sleeping; the queue is awake afterwards. -/
def MPSCQ.enqueue (q : MPSCQ) (m : MultiMessage) : MPSCQ × Bool :=
  ({ q with msgs := q.msgs ++ [m], sleeping := false }, q.sleeping)

/-- Modelled from the spec: `dequeue` removes and returns the oldest node, or
returns null when the queue is empty. -/
def MPSCQ.dequeue (q : MPSCQ) : MPSCQ × Option MultiMessage :=
  match q.msgs with
  | [] => (q, none)
  | m :: rest => ({ q with msgs := rest }, some m)

/-- Modelled from the spec: `wake()` leaves the queue awake and reports whether
it was sleeping. -/
def MPSCQ.wake (q : MPSCQ) : MPSCQ × Bool :=
  ({ q with sleeping := false }, q.sleeping)

/-- Modelled from the spec: `is_sleeping()`. -/
def MPSCQ.is_sleeping (q : MPSCQ) : Bool := q.sleeping

/-- Modelled from the spec: `dequeue(alloc, notify)`, the consumer's dequeue of
the run loop: the oldest node (or null), and in `notify` the notification flag,
which is consumed. -/
def MPSCQ.dequeue_notify (q : MPSCQ) : MPSCQ × Option MultiMessage × Bool :=
  ({ q.dequeue.1 with notified := false }, q.dequeue.2, q.notified)

/-- Modelled from the spec: `mark_sleeping(notify)`.  A pending notification
is handed over in `notify` and the queue stays awake; a queue that holds a node
stays awake; an empty queue goes to sleep.  The result is the queue, whether it
went to sleep, and `notify`. -/
def MPSCQ.mark_sleeping (q : MPSCQ) : MPSCQ × Bool × Bool :=
  if q.notified then ({ q with notified := false }, false, true)
  else if q.msgs ≠ [] then (q, false, false)
  else ({ q with sleeping := true }, true, false)

/-- Modelled from the spec: `peek_back()`, the address of the newest node, or
`none` when only the stub is in the queue. -/
def MPSCQ.peek_back (q : MPSCQ) : Option Nat := q.msgs.getLast?.map MultiMessage.addr

/-- Modelled from the spec: the status word `Status` of `status.h`: an 8-bit
load counter saturating at `0xff`, the has-token flag and the overloaded
flag. -/
structure Status where
  load : Nat
  token : Bool
  overload : Bool
deriving DecidableEq, Repr

/-- Modelled from the spec: `has_token()`. -/
def Status.has_token (s : Status) : Bool := s.token

/-- Modelled from the spec: `set_has_token(b)` writes the has-token flag
only. -/
def Status.set_has_token (s : Status) (b : Bool) : Status := { s with token := b }

/-- Modelled from the spec: `overloaded()`. -/
def Status.overloaded (s : Status) : Bool := s.overload

/-- Modelled from the spec: `current_load()`, the 8-bit load counter. -/
def Status.current_load (s : Status) : Nat := s.load

/-- Modelled from the spec: `reset_load()` sets the load counter to zero. -/
def Status.reset_load (s : Status) : Status := { s with load := 0 }

/-- Modelled from the spec: `inc_load()` adds one to the load counter,
saturating at `0xff`. -/
def Status.inc_load (s : Status) : Status := { s with load := min (s.load + 1) 0xff }

/-- The word `bp_state`: a blocker pointer in the upper bits and a priority in
the low bits (`blocker | priority`). -/
structure BpState where
  blocker : Option CownPtr
  priority : Priority
deriving DecidableEq, Repr

/-- The fields of a `Cown` object.  `rc` is the strong count of the object
header, `collected` the bottom bit of `thread_status` and `owning_thread` its
remaining bits, `epoch_mark` the epoch mark of the object header.  Counts are
natural numbers: they stay far below the word size. -/
structure Cown where
  queue : MPSCQ
  rc : Nat
  weak_count : Nat
  status : Status
  bp_state : BpState
  collected : Bool
  owning_thread : Option Nat
  epoch_mark : EpochMark
deriving DecidableEq, Repr

/-- Modelled from the spec: the fields of the current `SchedulerThread` that
this file reads and writes (`schedulerthread.h` is not in this file). -/
structure SchedulerThread where
  mutor : Option CownPtr
  message_body : Option BodyPtr
  sweep : Bool
  send_epoch : EpochMark
deriving DecidableEq, Repr

/-- Modelled from the spec: an object that `trace` pushes for the data of a
cown, by the kind that `get_class()` reports for it: the root of a region
(`RegionMD::ISO`), an immutable (`RegionMD::RC`, `RegionMD::SCC_PTR`) or a cown
(`RegionMD::COWN`).  For any other kind `collect` aborts the process. -/
inductive TracedObject where
  | iso (o : Nat)
  | rc (o : Nat)
  | scc_ptr (o : Nat)
  | cown (c : CownPtr)
deriving DecidableEq, Repr

/-- The cown that a traced object is, if it is one. -/
def TracedObject.cown? : TracedObject → Option CownPtr
  | TracedObject.cown c => some c
  | _ => none

/-- Calls that leave this file, in the order they are made.  `collect c` is
the call of the finaliser that opens the teardown of the data of cown `c` and
`destructor c` the calls `destructor()` and `queue.destroy()` that close it;
`region_release o` is `Region::release` and `immutable_release o` is
`Immutable::release` on object `o`. -/
inductive Event where
  | wake (c : CownPtr)
  | schedule_fifo (c : CownPtr)
  | schedule_lifo (c : CownPtr)
  | collect (c : CownPtr)
  | destructor (c : CownPtr)
  | region_release (o : Nat)
  | immutable_release (o : Nat)
  | dealloc (c : CownPtr)
  | add_pressure
  | scan (c : CownPtr) (epoch : EpochMark)
  | scan_closure (be : Nat) (epoch : EpochMark)
  | notified (c : CownPtr)
  | mute (senders : List CownPtr)
deriving DecidableEq, Repr

/-- The memory and the scheduler state seen by the running thread.
`sched` is `Scheduler::local()` (`none` on an external thread), `teardown` is
`Scheduler::is_teardown_in_progress()`, `epoch` is `Scheduler::epoch()`,
`should_scan` is `Scheduler::should_scan()`,
`inflight` counts `record_inflight_message`, `free_cowns t` is the counter of
worker `t`, `work_list` is the thread-local list of `queue_collect`,
`payloads` lists, cown by cown, the objects that `trace` pushes for the data
of the cown (in the order in which `collect` pops them; a cown without an entry
holds nothing), and
`next_addr` the address at which the next body or queue node is allocated
(behaviour objects and array copies are values and take no address). -/
structure World where
  cowns : CownPtr → Cown
  bodies : BodyPtr → MultiMessageBody
  sched : Option SchedulerThread
  teardown : Bool
  epoch : EpochMark
  should_scan : Bool
  inflight : Nat
  free_cowns : Nat → Nat
  work_list : Option (List CownPtr)
  payloads : List (CownPtr × List TracedObject)
  next_addr : Nat
  trace : List Event

/-- The world reached by a routine that contains a blocker walk, and whether
the routine returned within the bound on the walk. -/
structure Outcome where
  world : World
  returned : Bool

/-- Write the fields of cown `c`. -/
def World.set_cown (w : World) (c : CownPtr) (k : Cown) : World :=
  { w with cowns := Function.update w.cowns c k }

/-- Record a call that leaves this file. -/
def World.log (w : World) (e : Event) : World :=
  { w with trace := w.trace ++ [e] }

/-- Whether an event puts cown `c` on a worker's run queue. -/
def Event.schedules (c : CownPtr) : Event → Bool
  | Event.schedule_fifo d => decide (d = c)
  | Event.schedule_lifo d => decide (d = c)
  | _ => false

/-- Whether an event is a `wake()` of the queue of cown `c`. -/
def Event.wakes (c : CownPtr) : Event → Bool
  | Event.wake d => decide (d = c)
  | _ => false

/-- Number of times cown `c` has been put on a run queue. -/
def schedule_count (w : World) (c : CownPtr) : Nat :=
  (w.trace.filter (Event.schedules c)).length

/-- Number of times the queue of cown `c` has been woken through `wake()`. -/
def wake_count (w : World) (c : CownPtr) : Nat :=
  (w.trace.filter (Event.wakes c)).length

/-- `Cown::priority()`: the low bits of `bp_state`. -/
def priority (w : World) (c : CownPtr) : Priority := (w.cowns c).bp_state.priority

/-- `Cown::blocker()`: the pointer bits of `bp_state`. -/
def blocker (w : World) (c : CownPtr) : Option CownPtr := (w.cowns c).bp_state.blocker

/-- The protected method `Cown::schedule()`: on a worker thread the cown goes
to that worker's queue in FIFO order, on an external thread to the queue of
`Scheduler::round_robin()` in LIFO order. -/
def schedule (w : World) (c : CownPtr) : World :=
  match w.sched with
  | some _ => w.log (Event.schedule_fifo c)
  | none => w.log (Event.schedule_lifo c)

/-- `queue.enqueue(m)` on cown `c`. -/
def queue_enqueue (w : World) (c : CownPtr) (m : MultiMessage) : World × Bool :=
  let r := (w.cowns c).queue.enqueue m
  (w.set_cown c { w.cowns c with queue := r.1 }, r.2)

/-- `queue.dequeue(alloc)` on cown `c`. -/
def queue_dequeue (w : World) (c : CownPtr) : World × Option MultiMessage :=
  let r := (w.cowns c).queue.dequeue
  (w.set_cown c { w.cowns c with queue := r.1 }, r.2)

/-- `queue.wake()` on cown `c`. -/
def queue_wake (w : World) (c : CownPtr) : World × Bool :=
  let r := (w.cowns c).queue.wake
  ((w.set_cown c { w.cowns c with queue := r.1 }).log (Event.wake c), r.2)

/-- `Cown::acquire`: `incref` on the object header. -/
def acquire (w : World) (c : CownPtr) : World :=
  w.set_cown c { w.cowns c with rc := (w.cowns c).rc + 1 }

/-- Modelled from the spec: `Object::decref_cown`, which decrements the strong
count and reports whether the result is zero. -/
def decref_cown (w : World) (c : CownPtr) : World × Bool :=
  (w.set_cown c { w.cowns c with rc := (w.cowns c).rc - 1 }, decide ((w.cowns c).rc - 1 = 0))

/-- Modelled from the spec: `Object::in_epoch`, the comparison of the epoch
mark of the object header with the given epoch. -/
def in_epoch (w : World) (c : CownPtr) (e : EpochMark) : Bool :=
  decide ((w.cowns c).epoch_mark = e)

/-- `Cown::is_live`. -/
def is_live (w : World) (c : CownPtr) (send_epoch : EpochMark) : Bool :=
  in_epoch w c EpochMark.SCHEDULED_FOR_SCAN || in_epoch w c send_epoch

/-- `Cown::is_collected`. -/
def is_collected (w : World) (c : CownPtr) : Bool := (w.cowns c).collected

/-- `weak_count.fetch_sub(1)`: the new world and the previous value. -/
def weak_fetch_sub (w : World) (c : CownPtr) : World × Nat :=
  (w.set_cown c { w.cowns c with weak_count := (w.cowns c).weak_count - 1 }, (w.cowns c).weak_count)

/-- `Cown::weak_release`. -/
def weak_release (w : World) (c : CownPtr) : World :=
  let r := weak_fetch_sub w c
  if r.2 = 1 then
    match (r.1.cowns c).owning_thread with
    | none => r.1.log (Event.dealloc c)
    | some t =>
      let w1 := r.1.log Event.add_pressure
      { w1 with free_cowns := Function.update w1.free_cowns t (w1.free_cowns t + 1) }
  else r.1

/-- `Cown::weak_acquire`. -/
def weak_acquire (w : World) (c : CownPtr) : World :=
  w.set_cown c { w.cowns c with weak_count := (w.cowns c).weak_count + 1 }

/-- Modelled from the spec: what `trace(f)` pushes for the data of cown `c`
(`trace` is declared outside this file). -/
def World.payload (w : World) (c : CownPtr) : List TracedObject :=
  (w.payloads.filter (fun e => decide (e.1 = c))).flatMap Prod.snd

/-- The body of `Cown::release`.  The parameter `queue_collect` is the call
`a->queue_collect(alloc)`: see `release` and `release_nested`. -/
def release_with (queue_collect : World → CownPtr → World) (w : World) (c : CownPtr) :
    World :=
  let r := decref_cown w c
  if !r.2 then r.1
  else if r.1.teardown then (weak_fetch_sub r.1 c).1
  else if (match r.1.sched with
      | some t => t.sweep && !is_live r.1 c r.1.epoch
      | none => false) then (weak_fetch_sub r.1 c).1
  else if !is_collected r.1 c then queue_collect r.1 c
  else weak_release r.1 c

/-- One turn of the loop `while (!f.empty())` of `Cown::collect`: the object
popped is released by its kind.  The parameter `release` is the call
`Cown::release`. -/
def collect_object (release : World → CownPtr → World) (w : World) : TracedObject → World
  | TracedObject.iso o => w.log (Event.region_release o)
  | TracedObject.rc o => w.log (Event.immutable_release o)
  | TracedObject.scc_ptr o => w.log (Event.immutable_release o)
  | TracedObject.cown c => release w c

/-- The body of `Cown::collect`.  A collected cown is left alone; otherwise the
collected bit is set, the finaliser runs, every object that the data of the
cown reaches is released by its kind (a cown by `Cown::release`, the parameter
`release`), and the destructor runs and the queue is destroyed. -/
def collect_with (release : World → CownPtr → World) (w : World) (c : CownPtr) : World :=
  if is_collected w c then w
  else
    ((w.payload c).foldl (collect_object release)
      ((w.set_cown c { w.cowns c with collected := true }).log (Event.collect c))).log
      (Event.destructor c)

/-- `Cown::queue_collect` when it finds a work list in place: the cown is
pushed on it. -/
def queue_collect_push (w : World) (c : CownPtr) : World :=
  { w with work_list := some (c :: w.work_list.getD []) }

/-- `Cown::release` as it runs under a running `queue_collect`, which has put a
work list in place: its call of `queue_collect` pushes the cown and returns
(`release_nested_eq`). -/
def release_nested (w : World) (c : CownPtr) : World :=
  release_with queue_collect_push w c

/-- `Cown::collect` as it runs under a running `queue_collect`
(`collect_nested_eq`). -/
def collect_nested (w : World) (c : CownPtr) : World :=
  collect_with release_nested w c

/-- A bound on the number of turns of the loop of `queue_collect`: the number
of objects held by cowns that are not collected yet, plus the number of cowns
on the work list.  Every turn makes it smaller, so that the loop ends within
it with the work list empty (`queue_collect_drain_done`). -/
def queue_collect_bound (w : World) : Nat :=
  ((w.payloads.filter (fun e => !(w.cowns e.1).collected)).map (fun e => e.2.length)).sum +
    (w.work_list.getD []).length

/-- The loop `while (!current.empty())` of `queue_collect`, for at most the
given number of turns: the cown on top of the work list is popped, collected
and weak-released. -/
def queue_collect_drain : Nat → World → World
  | 0, w => w
  | n + 1, w =>
    match w.work_list with
    | some (a :: rest) =>
      queue_collect_drain n (weak_release (collect_nested { w with work_list := some rest } a) a)
    | _ => w

/-- `Cown::queue_collect`: with a work list in place the cown is pushed on it;
otherwise a work list is installed, the cown is collected and weak-released,
the work list is drained and taken away again.  The calls of `collect` run
with the work list in place, where `collect` is `collect_nested`
(`collect_nested_eq`, `queue_collect_drain_step`); the loop is given
`queue_collect_bound` turns, within which it ends with the work list empty
(`queue_collect_drain_done`). -/
def queue_collect (w : World) (c : CownPtr) : World :=
  match w.work_list with
  | some l => { w with work_list := some (c :: l) }
  | none =>
    let w1 := { w with work_list := some [] }
    let w2 := weak_release (collect_nested w1 c) c
    let w3 := queue_collect_drain (queue_collect_bound w2) w2
    { w3 with work_list := none }

/-- `Cown::release`. -/
def release (w : World) (c : CownPtr) : World :=
  release_with queue_collect w c

/-- `Cown::collect`. -/
def collect (w : World) (c : CownPtr) : World :=
  collect_with release w c

/-- `Cown::send<transfer, try_fast>(m)`. -/
def send (transfer : TransferOwnership) (try_fast : TryFastSend)
    (w : World) (c : CownPtr) (m : MultiMessage) : World × Bool :=
  let r := queue_enqueue w c m
  let needs_scheduling := r.2
  if needs_scheduling then
    let w1 := if transfer = TransferOwnership.NoTransfer then acquire r.1 c else r.1
    let w2 := if try_fast = TryFastSend.NoTryFast then schedule w1 c else w1
    (w2, needs_scheduling)
  else if transfer = TransferOwnership.YesTransfer then (release r.1 c, needs_scheduling)
  else (r.1, needs_scheduling)

/-- `Cown::backpressure_transition(state, exact)`: the new world and the
previous priority. -/
def backpressure_transition (w : World) (c : CownPtr) (state : Priority) (exact : Bool) :
    World × Priority :=
  let bp := (w.cowns c).bp_state
  let blocker := bp.blocker
  let prev := bp.priority
  if state = Priority.Normal ∧ prev ≠ Priority.Low ∧ exact = false then (w, prev)
  else if prev = state then (w, prev)
  else
    let w1 := w.set_cown c { w.cowns c with bp_state := ⟨blocker, state⟩ }
    if prev = Priority.Low then
      let w2 := (queue_wake w1 c).1
      (schedule w2 c, prev)
    else (w1, prev)

/-- `Cown::backpressure_unblock(cown)`: the walk `cown, cown->blocker(), ...`
raising every cown to `High`, cut off after `fuel` cowns. -/
def backpressure_unblock : Nat → World → Option CownPtr → Outcome
  | _, w, none => ⟨w, true⟩
  | 0, w, some _ => ⟨w, false⟩
  | fuel + 1, w, some c =>
    let w1 := (backpressure_transition w c Priority.High false).1
    backpressure_unblock fuel w1 (blocker w1 c)

/-- `Cown::set_blocker(b)`.  `high` tells which priorities have the bit
`PriorityMask::High` set; the mask is declared outside this file. -/
def set_blocker (high : Priority → Bool) (w : World) (c : CownPtr) (b : Option CownPtr) :
    World × Bool :=
  let bp := (w.cowns c).bp_state
  let p := bp.priority
  (w.set_cown c { w.cowns c with bp_state := ⟨b, p⟩ }, high p)

/-- `Cown::triggers_muting`. -/
def triggers_muting (w : World) (c : CownPtr) : Bool :=
  let p := priority w c
  let sleeping := (w.cowns c).queue.is_sleeping
  decide (p ≠ Priority.Normal) && !sleeping

/-- Modelled from the spec: `MultiMessage::make_message(alloc, body, epoch)`
allocates a node for the body. -/
def make_message (w : World) (body : Option BodyPtr) (epoch : EpochMark) :
    World × MultiMessage :=
  ({ w with next_addr := w.next_addr + 1 }, ⟨w.next_addr, body, epoch⟩)

/-- `Cown::stub_msg`. -/
def stub_msg (w : World) : World × MultiMessage :=
  make_message w none EpochMark.EPOCH_NONE

/-- Modelled from the spec: `MultiMessage::make_body(alloc, count, cowns, be)`
allocates a body with `index = 0`. -/
def make_body (w : World) (cowns : List CownPtr) (be : Nat) : World × BodyPtr :=
  ({ w with next_addr := w.next_addr + 1,
            bodies := Function.update w.bodies w.next_addr ⟨0, cowns, be⟩ }, w.next_addr)

/-- The inner loop of `backpressure_scan`: is sender `s` one of the
receivers. -/
def backpressure_scan_inner (s : CownPtr) : List CownPtr → Bool
  | [] => false
  | r :: rest => if s = r then true else backpressure_scan_inner s rest

/-- The first loop nest of `backpressure_scan`: is some sender one of the
receivers. -/
def backpressure_scan_senders (receivers : List CownPtr) : List CownPtr → Bool
  | [] => false
  | s :: rest =>
    if backpressure_scan_inner s receivers then true
    else backpressure_scan_senders receivers rest

/-- The second loop of `backpressure_scan`: the first receiver that triggers
muting becomes the mutor of thread `t` and gains a weak reference. -/
def backpressure_scan_receivers (t : SchedulerThread) : List CownPtr → World → World
  | [], w => w
  | receiver :: rest, w =>
    if triggers_muting w receiver then
      weak_acquire { w with sched := some { t with mutor := some receiver } } receiver
    else backpressure_scan_receivers t rest w

/-- `Cown::backpressure_scan(senders, receivers)`.  The routine reads
`Scheduler::local()->mutor` unguarded: on an external thread there is no
result. -/
def backpressure_scan (w : World) (senders receivers : MultiMessageBody) : Option World :=
  match w.sched with
  | none => none
  | some t =>
    if t.mutor ≠ none then some w
    else if backpressure_scan_senders receivers.cowns senders.cowns then some w
    else some (backpressure_scan_receivers t receivers.cowns w)

/-- `Cown::check_message_token(alloc, curr)`: the outcome and the value
returned (is the message a token). -/
def check_message_token (fuel : Nat) (w : World) (c : CownPtr) (curr : Option BodyPtr) :
    Outcome × Bool :=
  let stat := (w.cowns c).status
  match curr with
  | none =>
    let stat1 := stat.set_has_token false
    let w1 := w.set_cown c { w.cowns c with status := stat1 }
    let p := priority w1 c
    if stat1.overloaded then (backpressure_unblock fuel w1 (some c), true)
    else if p = Priority.High then
      (⟨(backpressure_transition w1 c Priority.MaybeHigh false).1, true⟩, true)
    else if p = Priority.MaybeHigh then
      (⟨(backpressure_transition w1 c Priority.Normal false).1, true⟩, true)
    else (⟨w1, true⟩, true)
  | some body =>
    let stat1 :=
      if (!stat.has_token && decide ((w.bodies body).index = 0)) ||
          decide (stat.current_load = 0xff) then stat.reset_load
      else stat
    let w1 :=
      if !stat1.has_token then
        let r := stub_msg w
        (queue_enqueue r.1 c r.2).1
      else w
    let stat2 := (stat1.inc_load).set_has_token true
    let w2 := w1.set_cown c { w1.cowns c with status := stat2 }
    if stat2.overloaded then (backpressure_unblock fuel w2 (some c), false)
    else (⟨w2, true⟩, false)

/-- The loop of `fast_send`, run for at most `n` iterations.  `last` is
`body->count - 1`, computed before the loop. -/
def fast_send_loop (high : Priority → Bool) (fuel : Nat) (body : BodyPtr) (epoch : EpochMark)
    (last : Nat) : Nat → World → Bool → Outcome
  | 0, w, _ => ⟨w, decide (¬ (w.bodies body).index < (w.bodies body).count)⟩
  | n + 1, w, high_priority =>
    let b := w.bodies body
    if h : b.index < b.cowns.length then
      let r := make_message w (some body) epoch
      let m := r.2
      let next := b.cowns[b.index]
      let r1 : World × Bool :=
        if b.index > 0 then
          let cur := b.cowns[b.index - 1]
          let hp := high_priority || high (priority r.1 cur)
          if !hp then set_blocker high r.1 cur (some next) else (r.1, hp)
        else (r.1, high_priority)
      let high_priority1 := r1.2
      let r2 := send TransferOwnership.YesTransfer TryFastSend.YesTryFast r1.1 next m
      if !r2.2 then
        if !high_priority1 then ⟨r2.1, true⟩
        else backpressure_unblock fuel r2.1 (some next)
      else if b.index = last then ⟨schedule r2.1 next, true⟩
      else
        let w3 := (queue_dequeue r2.1 next).1
        let b3 := w3.bodies body
        let w4 := { w3 with bodies := Function.update w3.bodies body { b3 with index := b3.index + 1 } }
        fast_send_loop high fuel body epoch last n w4 high_priority1
    else ⟨w, true⟩

/-- `Cown::fast_send(body, epoch)`.  `last` is a `size_t`: for an empty body it
wraps around, and it is read only inside the loop, which is then not
entered. -/
def fast_send (high : Priority → Bool) (fuel : Nat) (w : World) (body : BodyPtr)
    (epoch : EpochMark) : Outcome :=
  let b := w.bodies body
  let last := (b.count + 2 ^ 64 - 1) % 2 ^ 64
  let high_priority :=
    if b.index = 0 then b.cowns.any (fun c => high (priority w c)) else false
  fast_send_loop high fuel body epoch last (b.count - b.index) w high_priority

/-- Modelled from the spec: `Scheduler::record_inflight_message`. -/
def record_inflight_message (w : World) : World := { w with inflight := w.inflight + 1 }

/-- The static `Cown::schedule<Be, transfer>(count, cowns, args...)`.  The
caller's array `cowns` is copied (`memcpy`) and only the copy is sorted, by
address (`std::sort` on pointers); `be` is the behaviour object. -/
def schedule_behaviour (high : Priority → Bool) (fuel : Nat) (transfer : TransferOwnership)
    (w : World) (cowns : List CownPtr) (be : Nat) : Outcome :=
  let sort := cowns
  let sort := sort.insertionSort (fun a b => a ≤ b)
  let w1 :=
    if transfer = TransferOwnership.NoTransfer then sort.foldl acquire w else w
  let r := make_body w1 sort be
  let body := r.2
  let epoch :=
    match r.1.sched with
    | none => EpochMark.EPOCH_A
    | some _ => r.1.epoch
  let w2 := if epoch = EpochMark.EPOCH_NONE then record_inflight_message r.1 else r.1
  let w3 :=
    match w2.sched with
    | some t =>
      match t.message_body with
      | some mb => (backpressure_scan w2 (w2.bodies mb) (w2.bodies body)).getD w2
      | none => w2
    | none => w2
  fast_send high fuel w3 body epoch

/-- What the routines below take from outside this file: `high` tells which
priorities have the bit `PriorityMask::High` set, `total_load` is
`Status::total_load()`, `scanned` is the epoch mark that
`Object::cown_mark_scanned` writes, and `behaviour be` is what the closure
`f()` of behaviour object `be` does to the world. -/
structure Externals where
  high : Priority → Bool
  total_load : Status → Nat
  scanned : EpochMark
  behaviour : Nat → World → World

/-- `set_epoch_mark(e)` on the object header of cown `c`. -/
def set_epoch_mark (w : World) (c : CownPtr) (e : EpochMark) : World :=
  w.set_cown c { w.cowns c with epoch_mark := e }

/-- `Cown::scan(alloc, epoch)`.  `cown_scanned` is modelled from the spec as
the comparison of the epoch mark; the tracing of the payload
(`trace`, `scan_stack`) is the event `Event.scan`. -/
def scan (ext : Externals) (w : World) (c : CownPtr) (epoch : EpochMark) : World :=
  if !in_epoch w c epoch then
    (w.set_cown c { w.cowns c with epoch_mark := ext.scanned }).log (Event.scan c epoch)
  else w

/-- Modelled from the spec: `Scheduler::recv_inflight_message`. -/
def recv_inflight_message (w : World) : World := { w with inflight := w.inflight - 1 }

/-- `Cown::try_collect(alloc, epoch)`: the new world and the value returned. -/
def try_collect (w : World) (c : CownPtr) (epoch : EpochMark) : World × Bool :=
  if in_epoch w c EpochMark.SCHEDULED_FOR_SCAN then (set_epoch_mark w c epoch, false)
  else if in_epoch w c epoch then (w, false)
  else if !is_collected w c then (collect w c, true)
  else (w, true)

/-- The loop of `run_step` that scans every participant. -/
def run_step_scan (ext : Externals) (epoch : EpochMark) : List CownPtr → World → World
  | [], w => w
  | c :: rest, w => run_step_scan ext epoch rest (scan ext w c epoch)

/-- The loop of `run_step` that clears the blocker of every participant. -/
def run_step_clear (high : Priority → Bool) : List CownPtr → World → World
  | [], w => w
  | c :: rest, w => run_step_clear high rest (set_blocker high w c none).1

/-- The statement `body->index++`. -/
def advance_index (w : World) (body : BodyPtr) : World :=
  { w with bodies :=
      Function.update w.bodies body { w.bodies body with index := (w.bodies body).index + 1 } }

/-- First block of `run_step`: when the leak detector wants a scan and the
message is of the send epoch `se`, a cown whose mark is not `se` is scanned and
marked. -/
def run_step_prescan (ext : Externals) (w : World) (cown : CownPtr) (e se : EpochMark) :
    World :=
  if w.should_scan && decide (e = se) then
    if (w.cowns cown).epoch_mark ≠ se then set_epoch_mark (scan ext w cown se) cown se
    else w
  else w

/-- The epoch reconciliation of `run_step` for a message that has more cowns
to acquire: the world and the new value of `e`. -/
def run_step_inflight (w : World) (cown : CownPtr) (e se : EpochMark) : World × EpochMark :=
  if e ≠ se then
    if e ≠ EpochMark.EPOCH_NONE then (record_inflight_message w, EpochMark.EPOCH_NONE)
    else (w, e)
  else if w.should_scan then
    if (w.cowns cown).epoch_mark ≠ se then (record_inflight_message w, EpochMark.EPOCH_NONE)
    else (w, e)
  else (w, e)

/-- The block of `run_step` for the last participant up to the write of
`message_body`: the inflight credit is consumed for an `EPOCH_NONE` message,
and when scanning a message of another epoch every participant and the closure
(the event `Event.scan_closure`) are scanned. -/
def run_step_trace (ext : Externals) (w : World) (e se : EpochMark) (b : MultiMessageBody) :
    World :=
  let w2 := if e = EpochMark.EPOCH_NONE then recv_inflight_message w else w
  if w2.should_scan then
    if e ≠ se then (run_step_scan ext se b.cowns w2).log (Event.scan_closure b.behaviour se)
    else w2
  else w2

/-- The statement `Scheduler::local()->message_body = &body`. -/
def set_message_body (w : World) (body : BodyPtr) : World :=
  { w with sched := w.sched.map (fun t => { t with message_body := some body }) }

/-- `Cown::run_step(m)`: the outcome and the value returned.  There is no
result when the node has no body, when the thread is not a worker
(`Scheduler::local()` is read unguarded) or when `index` is outside the
participant array. -/
def run_step (ext : Externals) (fuel : Nat) (w : World) (m : MultiMessage) :
    Option (Outcome × Bool) :=
  match m.body, w.sched with
  | some body, some t =>
    let b := w.bodies body
    let last := (b.count + 2 ^ 64 - 1) % 2 ^ 64
    if h : b.index < b.cowns.length then
      let cown := b.cowns[b.index]
      let e := m.epoch
      let w1 := run_step_prescan ext w cown e t.send_epoch
      if b.index < last then
        let r := run_step_inflight w1 cown e t.send_epoch
        some (fast_send ext.high fuel (advance_index r.1 body) body r.2, false)
      else
        let w3 := run_step_trace ext w1 e t.send_epoch b
        let w4 := set_message_body w3 body
        let w5 := run_step_clear ext.high b.cowns w4
        some (⟨ext.behaviour b.behaviour w5, true⟩, true)
    else none
  | _, _ => none

/-- `Cown::cown_notified()`: the worker's `message_body` slot is cleared and
the virtual `notified()` of the cown is called.  No result on a thread that is
not a worker. -/
def cown_notified (w : World) (c : CownPtr) : Option World :=
  match w.sched with
  | none => none
  | some t => some (({ w with sched := some { t with message_body := none } }).log (Event.notified c))

/-- `Cown::apply_backpressure(senders, count)`: with a mutor set the senders
are handed to `mute` of the worker (the event `Event.mute`) and the mutor slot
is cleared.  No result on a thread that is not a worker. -/
def apply_backpressure (w : World) (senders : List CownPtr) : Option (World × Bool) :=
  match w.sched with
  | none => none
  | some t =>
    if t.mutor = none then some (w, false)
    else some (({ w with sched := some { t with mutor := none } }).log (Event.mute senders), true)

/-- `queue.dequeue(alloc, notify)` on cown `c`. -/
def queue_dequeue_notify (w : World) (c : CownPtr) : World × Option MultiMessage × Bool :=
  let r := (w.cowns c).queue.dequeue_notify
  (w.set_cown c { w.cowns c with queue := r.1 }, r.2)

/-- `queue.mark_sleeping(notify)` on cown `c`: the world, whether the queue
went to sleep, and `notify`. -/
def queue_mark_sleeping (w : World) (c : CownPtr) : World × Bool × Bool :=
  let r := (w.cowns c).queue.mark_sleeping
  (w.set_cown c { w.cowns c with queue := r.1 }, r.2)

/-- The batch limit of `run`: `(size_t)100 | ((size_t)total_load >> 3)`. -/
def batch_limit (total_load : Nat) : Nat := 100 ||| (total_load >>> 3)

/-- The `do ... while` loop of `Cown::run`, for at most `n` iterations.
`arrivals` are the nodes that other producers enqueue on this cown after its
dequeue found the queue empty and before it calls `mark_sleeping` (the race
that `mark_sleeping` decides); `notified_called` and `batch_size` are the
local variables of the source, `notify` is written by every call that takes
it; `until_node` is the local `until`. -/
def run_loop (ext : Externals) (fuel : Nat) (arrivals : List MultiMessage) (c : CownPtr)
    (until_node : Option Nat) (limit : Nat) : Nat → World → Bool → Nat → Option (Outcome × Bool)
  | 0, w, _, _ => some (⟨w, false⟩, true)
  | n + 1, w, notified_called, batch_size =>
    let r := queue_dequeue_notify w c
    let curr := r.2.1
    let notify := r.2.2
    let called := !notified_called && notify
    match (if called then cown_notified r.1 c else some r.1) with
    | none => none
    | some w1 =>
      let notified_called1 := notified_called || called
      match curr with
      | none =>
        match (if w1.should_scan then
            w1.sched.map (fun t => set_epoch_mark (scan ext w1 c t.send_epoch) c t.send_epoch)
          else some w1) with
        | none => none
        | some w2 =>
          if batch_size ≠ 0 then some (⟨w2, true⟩, true)
          else
            let w3 := (backpressure_transition w2 c Priority.Normal true).1
            let w4 := arrivals.foldl (fun v m => (queue_enqueue v c m).1) w3
            let ms := queue_mark_sleeping w4 c
            if !ms.2.1 then
              match (if ms.2.2 then cown_notified ms.1 c else some ms.1) with
              | none => none
              | some w5 => some (⟨w5, true⟩, true)
            else some (⟨release ms.1 c, true⟩, false)
      | some m =>
        let ct := check_message_token fuel w1 c m.body
        if !ct.1.returned then some (ct.1, true)
        else if ct.2 then some (ct.1, true)
        else
          let batch_size1 := batch_size + 1
          match m.body with
          | none => none
          | some body =>
            let senders := (ct.1.world.bodies body).cowns
            let senders_count := (ct.1.world.bodies body).count
            match run_step ext fuel ct.1.world m with
            | none => none
            | some rs =>
              if !rs.1.returned then some (rs.1, false)
              else if !rs.2 then some (rs.1, false)
              else
                match apply_backpressure rs.1.world senders with
                | none => none
                | some ab =>
                  if ab.2 then some (⟨ab.1, true⟩, false)
                  else
                    let w6 := (senders.take (senders_count - 1)).foldl schedule ab.1
                    if (some m.addr ≠ until_node) ∧ batch_size1 < limit then
                      run_loop ext fuel arrivals c until_node limit n w6 notified_called1 batch_size1
                    else some (⟨w6, true⟩, true)

/-- `Cown::run(alloc, state, epoch)`: the outcome and the value returned
(true: reschedule the cown). -/
def run (ext : Externals) (fuel : Nat) (arrivals : List MultiMessage) (w : World)
    (c : CownPtr) : Option (Outcome × Bool) :=
  let until_node := (w.cowns c).queue.peek_back
  let stat := (w.cowns c).status
  let limit := batch_limit (ext.total_load stat)
  run_loop ext fuel arrivals c until_node limit limit w false 0

/-- The cowns `c, c->blocker(), c->blocker()->blocker(), ...` up to the null
pointer: `BlockerChain w p l` says that the walk from pointer `p` visits
exactly the cowns `l`, in this order, and then reaches null. -/
inductive BlockerChain (w : World) : Option CownPtr → List CownPtr → Prop where
  | null : BlockerChain w none []
  | step (c : CownPtr) (l : List CownPtr) :
      BlockerChain w (blocker w c) l → BlockerChain w (some c) (c :: l)

/-- The call that `Cown::schedule()` makes for cown `c` in world `w`. -/
def schedule_event (w : World) (c : CownPtr) : Event :=
  if w.sched.isSome then Event.schedule_fifo c else Event.schedule_lifo c

/-- The calls recorded by one raise of cown `c` in world `w`: a wake and a
schedule when the cown was muted (`Low`), nothing otherwise. -/
def raise_events (w : World) (c : CownPtr) : List Event :=
  if priority w c = Priority.Low then [Event.wake c, schedule_event w c] else []

/-- Example reading of `PriorityMask::High` for the closed statements: the bit
is set in `High` and in `MaybeHigh`. -/
def high_bit : Priority → Bool
  | Priority.High => true
  | Priority.MaybeHigh => true
  | _ => false

/-- Example cown, unscheduled: strong and weak count one, an empty sleeping
queue, a zero status word, priority `Normal` with a null blocker. -/
def Cown.fresh : Cown :=
  { queue := ⟨[], true, false⟩, rc := 1, weak_count := 1, status := ⟨0, false, false⟩,
    bp_state := ⟨none, Priority.Normal⟩, collected := false, owning_thread := none,
    epoch_mark := EpochMark.EPOCH_A }

/-- A world of fresh cowns seen from a worker thread that runs no behaviour. -/
def World.fresh : World :=
  { cowns := fun _ => Cown.fresh, bodies := fun _ => ⟨0, [], 0⟩,
    sched := some ⟨none, none, false, EpochMark.EPOCH_A⟩, teardown := false,
    epoch := EpochMark.EPOCH_A, should_scan := false, inflight := 0, free_cowns := fun _ => 0, work_list := none,
    payloads := [], next_addr := 0, trace := [] }

/-- Example cown: running (queue awake) with two strong references. -/
def Cown.running : Cown := { Cown.fresh with queue := ⟨[], false, false⟩, rc := 2 }

/-- Example cown: running, token in flight, not overloaded, with the given
priority and blocker. -/
def Cown.with_token (p : Priority) (b : Option CownPtr) : Cown :=
  { Cown.running with status := ⟨3, true, false⟩, bp_state := ⟨b, p⟩ }

/-- Example cown: muted (priority `Low`, queue awake) with the given blocker. -/
def Cown.muted (b : Option CownPtr) : Cown :=
  { Cown.running with bp_state := ⟨b, Priority.Low⟩ }

/-- Example world: cown 1 is `High` and blocked on cown 2, cown 2 is muted
with a null blocker, cown 3 is muted; all other cowns are fresh. -/
def World.blocked : World :=
  ((World.fresh.set_cown 1 (Cown.with_token Priority.High (some 2))).set_cown 2
    (Cown.muted none)).set_cown 3 (Cown.muted none)

/-- Cown `a` occurs before cown `b` in the participant array `l`: at some
position `i` stands `a` and at some later position `j` stands `b`. -/
def occurs_before (l : List CownPtr) (a b : CownPtr) : Prop :=
  ∃ i j : Nat, i < j ∧ l[i]? = some a ∧ l[j]? = some b

/-- The test `local != nullptr && local->in_sweep_state()` together with
`!o->is_live(Scheduler::epoch())` that `release` makes once the strong count
has reached zero. -/
def sweep_not_live (w : World) (c : CownPtr) : Bool :=
  match w.sched with
  | some t => t.sweep && !is_live w c w.epoch
  | none => false

/-- Number of token nodes (nodes without a body) in a queue. -/
def token_count (q : MPSCQ) : Nat :=
  (q.msgs.filter (fun m => decide (m.body = none))).length

/-- What happens to the queue of one cown: another producer sends it a node
(`arrive`), or its run loop dequeues the oldest node and hands the body of
that node to `check_message_token` (`process`). -/
inductive QueueOp where
  | arrive (transfer : TransferOwnership) (try_fast : TryFastSend) (m : MultiMessage)
  | process

/-- Nodes that arrive from producers carry a body: they are not tokens. -/
def QueueOp.carries_body : QueueOp → Bool
  | QueueOp.arrive _ _ m => m.body.isSome
  | QueueOp.process => true

/-- One queue operation on cown `c`.  There is no result when the assertion
`assert(stat.has_token())` of `check_message_token` fails, that is when a
token is dequeued while the has-token flag is clear. -/
def queue_op (fuel : Nat) (c : CownPtr) (w : World) : QueueOp → Option World
  | QueueOp.arrive transfer try_fast m => some (send transfer try_fast w c m).1
  | QueueOp.process =>
    let r := queue_dequeue_notify w c
    match r.2.1 with
    | none => some r.1
    | some m =>
      if m.body = none ∧ (r.1.cowns c).status.has_token = false then none
      else some (check_message_token fuel r.1 c m.body).1.world

/-- A sequence of queue operations on cown `c`. -/
def queue_ops (fuel : Nat) (c : CownPtr) : List QueueOp → World → Option World
  | [], w => some w
  | op :: rest, w => (queue_op fuel c w op).bind (queue_ops fuel c rest)

/-- The token invariant of cown `c`: its queue holds one token when the
has-token flag is set and none when it is clear. -/
def token_invariant (w : World) (c : CownPtr) : Prop :=
  token_count (w.cowns c).queue = if (w.cowns c).status.has_token = true then 1 else 0

/-- The world in which `run` on cown `c` calls `mark_sleeping` when its first
dequeue found no node, no notification and no scan pending: the consumed
dequeue, the transition to `Normal` with `exact` set, and the nodes `arrivals`
that other producers enqueued in the meantime. -/
def run_at_mark_sleeping (arrivals : List MultiMessage) (w : World) (c : CownPtr) : World :=
  arrivals.foldl (fun v m => (queue_enqueue v c m).1)
    (backpressure_transition (queue_dequeue_notify w c).1 c Priority.Normal true).1

/-- One iteration of the loop of `fast_send` up to the send: the node is
allocated and, past the first participant, the priority of the most recently
acquired cown is double-checked and its blocker set.  The result is the world
and the new value of `high_priority`. -/
def fast_send_hop (high : Priority → Bool) (w : World) (body : BodyPtr) (epoch : EpochMark)
    (high_priority : Bool) (h : (w.bodies body).index < (w.bodies body).cowns.length) :
    World × Bool :=
  if (w.bodies body).index > 0 then
    if !(high_priority || high (priority (make_message w (some body) epoch).1
        ((w.bodies body).cowns[(w.bodies body).index - 1]))) then
      set_blocker high (make_message w (some body) epoch).1
        ((w.bodies body).cowns[(w.bodies body).index - 1])
        (some ((w.bodies body).cowns[(w.bodies body).index]))
    else ((make_message w (some body) epoch).1,
      high_priority || high (priority (make_message w (some body) epoch).1
        ((w.bodies body).cowns[(w.bodies body).index - 1])))
  else ((make_message w (some body) epoch).1, high_priority)

/-- The participant `body->cowns[body->index]` that the current iteration of
the loop of `fast_send` sends to. -/
def fast_send_next (w : World) (body : BodyPtr)
    (h : (w.bodies body).index < (w.bodies body).cowns.length) : CownPtr :=
  (w.bodies body).cowns[(w.bodies body).index]

/-- One iteration of the loop of `fast_send` up to and including the send of
the freshly allocated node: the world and `needs_scheduling`. -/
def fast_send_sent (high : Priority → Bool) (w : World) (body : BodyPtr) (epoch : EpochMark)
    (high_priority : Bool) (h : (w.bodies body).index < (w.bodies body).cowns.length) :
    World × Bool :=
  send TransferOwnership.YesTransfer TryFastSend.YesTryFast
    (fast_send_hop high w body epoch high_priority h).1 (fast_send_next w body h)
    ⟨w.next_addr, some body, epoch⟩

/-- Between `w` and `v` no backpressure word, no body and no scheduler slot has
changed. -/
structure BpFrame (w v : World) : Prop where
  bp_state : ∀ x, (v.cowns x).bp_state = (w.cowns x).bp_state
  bodies : v.bodies = w.bodies
  sched : v.sched = w.sched
  should_scan : v.should_scan = w.should_scan

/-- Every non-null blocker names a cown of greater address. -/
def BlockersAscend (w : World) : Prop :=
  ∀ c b, blocker w c = some b → c < b

/-- Example world for the fast path: the body at address 0 has the
participants 1 and 2 and `index = 0`; cown 1 is muted (priority `Low`, queue
awake) and cown 2 has priority `High`. -/
def World.posting : World :=
  { (World.fresh.set_cown 1 (Cown.muted none)).set_cown 2
      (Cown.with_token Priority.High none) with bodies := fun _ => ⟨0, [1, 2], 0⟩ }

/-- Example world for the fast path: the body at address 0 has the
participants 1 and 2 and `index = 0`, and every cown is fresh (asleep). -/
def World.asleep : World := { World.fresh with bodies := fun _ => ⟨0, [1, 2], 0⟩ }

/-- Example externals for the closed statements: the mask `high_bit`, the load
counter as total load, `EPOCH_NONE` as the mark of a scanned cown, and
behaviours that do nothing. -/
def Externals.sample : Externals :=
  { high := high_bit, total_load := fun s => s.load, scanned := EpochMark.EPOCH_NONE,
    behaviour := fun _ w => w }

/-- Whether a queue operation is a dequeue by the run loop. -/
def QueueOp.dequeues : QueueOp → Bool
  | QueueOp.arrive _ _ _ => false
  | QueueOp.process => true

/-- What the run loop of cown `c` sees at one queue operation: nothing when a
producer enqueues or when the dequeue finds no node, and otherwise the value
that `check_message_token` returns for the dequeued node (true: the node is
the token, false: a message has surfaced). -/
def queue_op_surfaced (fuel : Nat) (c : CownPtr) (w : World) : QueueOp → List Bool
  | QueueOp.arrive _ _ _ => []
  | QueueOp.process =>
    let r := queue_dequeue_notify w c
    match r.2.1 with
    | none => []
    | some m => [(check_message_token fuel r.1 c m.body).2]

/-- The values that `check_message_token` returns, in order, over a sequence
of queue operations on cown `c`.  No result when the assertion of
`check_message_token` fails on the way. -/
def surfaced (fuel : Nat) (c : CownPtr) : List QueueOp → World → Option (List Bool)
  | [], _ => some []
  | op :: rest, w =>
    match queue_op fuel c w op with
    | none => none
    | some v => (surfaced fuel c rest v).map (fun l => queue_op_surfaced fuel c w op ++ l)

/-- Counting the messages between token observations in a sequence of
observations (true: token).  The state is `none` before the first token and
`some n` when `n` messages have surfaced since the last token; every further
token closes a gap and puts its length in the result. -/
def token_gaps_from : Option Nat → List Bool → List Nat
  | _, [] => []
  | none, true :: rest => token_gaps_from (some 0) rest
  | some n, true :: rest => n :: token_gaps_from (some 0) rest
  | s, false :: rest => token_gaps_from (s.map (fun n => n + 1)) rest

/-- For a sequence of observations, the numbers of messages that surfaced
between each two consecutive token observations. -/
def token_gaps (l : List Bool) : List Nat := token_gaps_from none l

/-- The producers' part of `QueueOp.burst`: `n` nodes with body 0 arrive, at
addresses `a`, `a + 1`, ... -/
def QueueOp.arrivals : Nat → Nat → List QueueOp
  | 0, _ => []
  | n + 1, a =>
    QueueOp.arrive TransferOwnership.NoTransfer TryFastSend.NoTryFast
        ⟨a, some 0, EpochMark.EPOCH_A⟩ :: QueueOp.arrivals n (a + 1)

/-- A burst of `n` messages: one message arrives and is processed, its token
is processed, then `n` messages arrive while the cown does not run, and the
cown dequeues `n + 1` times. -/
def QueueOp.burst (n : Nat) : List QueueOp :=
  [QueueOp.arrive TransferOwnership.NoTransfer TryFastSend.NoTryFast
      ⟨1000, some 0, EpochMark.EPOCH_A⟩, QueueOp.process, QueueOp.process] ++
    (QueueOp.arrivals n 1001 ++ List.replicate (n + 1) QueueOp.process)

/-- Example world for token circulation: cown 1 is awake, its has-token flag
is clear and two messages with body 0 are in its queue. -/
def World.queued : World :=
  World.fresh.set_cown 1
    { Cown.fresh with
      queue := ⟨[⟨10, some 0, EpochMark.EPOCH_A⟩, ⟨11, some 0, EpochMark.EPOCH_A⟩], false, false⟩ }

/-- The double check `cur->priority() & PriorityMask::High` that an iteration
of the loop of `fast_send` makes on the most recently acquired cown
`cowns[index - 1]`; there is no such cown at `index = 0`. -/
def fast_send_cur_high (high : Priority → Bool) (w : World) (body : BodyPtr) : Bool :=
  decide (0 < (w.bodies body).index) &&
    match (w.bodies body).cowns[(w.bodies body).index - 1]? with
    | some cur => high (priority w cur)
    | none => false

/-- The value of `high_priority` when `fast_send`, entered in world `w`, sends
to the participant that follows the participants `pre`, all of which it found
sleeping: the initial value (some participant has the `High` bit, computed at
`index = 0` only), or the double check on the cown acquired before the call,
or the double check on a cown of `pre`. -/
def fast_send_mode (high : Priority → Bool) (w : World) (body : BodyPtr)
    (pre : List CownPtr) : Bool :=
  (if (w.bodies body).index = 0 then
      (w.bodies body).cowns.any (fun c => high (priority w c)) else false) ||
    fast_send_cur_high high w body || pre.any (fun x => high (priority w x))

/-- The cowns among the objects `objs`. -/
def traced_cowns (objs : List TracedObject) : List CownPtr :=
  objs.filterMap TracedObject.cown?

/-- The references to cowns that the data of the cowns not collected yet
holds, with repetitions. -/
def World.held (w : World) : List CownPtr :=
  (w.payloads.filter (fun e => !(w.cowns e.1).collected)).flatMap (fun e => traced_cowns e.2)

/-- Every reference to a cown that the data of a cown not collected yet holds
is counted in the strong count of that cown. -/
def StrongCounted (w : World) : Prop :=
  ∀ x, w.held.count x ≤ (w.cowns x).rc

/-- The strong count owns one weak count: the weak count is at least 1 wherever
the strong count is at least 1. -/
def WeakOwned (w : World) : Prop :=
  ∀ x, 1 ≤ (w.cowns x).rc → 1 ≤ (w.cowns x).weak_count

/-- The state of a `release` that started in world `w0`, at world `u`: `cur` is
the cown being collected (or nothing), `rest` the objects of its data that
are not released yet, `outside x` the number of references to `x` held outside
the data of cowns.  Every strong count is the number of references that remain;
the cowns on the work list and `cur` have lost their last strong reference and
still hold the weak count that it owned; every other cown that lost its last
strong reference has had that weak count released, once. -/
structure Collecting (w0 : World) (outside : CownPtr → Nat) (u : World) (cur : List CownPtr)
    (rest : List TracedObject) : Prop where
  counted : ∀ x, (u.cowns x).rc = outside x + u.held.count x + (traced_cowns rest).count x
  rc_le : ∀ x, (u.cowns x).rc ≤ (w0.cowns x).rc
  nodup : (cur ++ u.work_list.getD []).Nodup
  pending : ∀ y ∈ cur ++ u.work_list.getD [], (u.cowns y).rc = 0 ∧ 1 ≤ (w0.cowns y).rc
  weak : ∀ x, (u.cowns x).weak_count +
      (if 1 ≤ (w0.cowns x).rc ∧ (u.cowns x).rc = 0 ∧ x ∉ cur ++ u.work_list.getD [] then 1
        else 0) = (w0.cowns x).weak_count

/-- Example world: fresh cowns, where the data of cown 1 holds the only
reference to cown 2 and the root of a region. -/
def World.owning : World :=
  { World.fresh with payloads := [(1, [TracedObject.cown 2, TracedObject.iso 7])] }

/-- The part of the world that reference-count teardown leaves alone: between
`w` and `v` only strong counts (which do not go up), weak counts, collected
bits (which stay set), the free-cown counters and the work list may differ,
and the calls recorded in between neither schedule nor wake a cown. -/
structure GcFrame (w v : World) : Prop where
  queue : ∀ x, (v.cowns x).queue = (w.cowns x).queue
  rc : ∀ x, (v.cowns x).rc ≤ (w.cowns x).rc
  status : ∀ x, (v.cowns x).status = (w.cowns x).status
  bp_state : ∀ x, (v.cowns x).bp_state = (w.cowns x).bp_state
  collected : ∀ x, (w.cowns x).collected = true → (v.cowns x).collected = true
  bodies : v.bodies = w.bodies
  sched : v.sched = w.sched
  next_addr : v.next_addr = w.next_addr
  payloads : v.payloads = w.payloads
  teardown : v.teardown = w.teardown
  trace : ∃ evs, v.trace = w.trace ++ evs ∧
    ∀ e ∈ evs, ∀ d, Event.schedules d e = false ∧ Event.wakes d e = false

/-! ## Frame lemmas for the reference-count teardown -/

theorem GcFrame.refl (w : World) : GcFrame w w :=
  ⟨fun _ => rfl, fun _ => le_refl _, fun _ => rfl, fun _ => rfl, fun _ h => h, rfl, rfl, rfl,
    rfl, rfl, ⟨[], by simp, by simp⟩⟩

theorem GcFrame.trans {w v u : World} (h1 : GcFrame w v) (h2 : GcFrame v u) : GcFrame w u := by
  obtain ⟨e1, he1, hn1⟩ := h1.trace
  obtain ⟨e2, he2, hn2⟩ := h2.trace
  refine ⟨fun x => (h2.queue x).trans (h1.queue x), fun x => le_trans (h2.rc x) (h1.rc x),
    fun x => (h2.status x).trans (h1.status x), fun x => (h2.bp_state x).trans (h1.bp_state x),
    fun x h => h2.collected x (h1.collected x h),
    h2.bodies.trans h1.bodies, h2.sched.trans h1.sched, h2.next_addr.trans h1.next_addr,
    h2.payloads.trans h1.payloads, h2.teardown.trans h1.teardown,
    ⟨e1 ++ e2, by rw [he2, he1, List.append_assoc], ?_⟩⟩
  intro e he d
  rcases List.mem_append.mp he with h | h
  · exact hn1 e h d
  · exact hn2 e h d

theorem set_cown_cowns (w : World) (c : CownPtr) (k : Cown) (x : CownPtr) :
    ((w.set_cown c k).cowns x) = if x = c then k else w.cowns x := by
  unfold World.set_cown
  by_cases h : x = c
  · subst h; simp
  · simp [h, Function.update_noteq h]

theorem set_cown_frame (w : World) (c : CownPtr) (k : Cown)
    (hq : k.queue = (w.cowns c).queue) (hrc : k.rc ≤ (w.cowns c).rc)
    (hs : k.status = (w.cowns c).status) (hbp : k.bp_state = (w.cowns c).bp_state)
    (hcol : (w.cowns c).collected = true → k.collected = true) :
    GcFrame w (w.set_cown c k) := by
  refine ⟨?_, ?_, ?_, ?_, ?_, rfl, rfl, rfl, rfl, rfl, ⟨[], by simp [World.set_cown], by simp⟩⟩
  · intro x
    rw [set_cown_cowns]
    by_cases hx : x = c
    · rw [if_pos hx, hx]
      exact hq
    · rw [if_neg hx]
  · intro x
    rw [set_cown_cowns]
    by_cases hx : x = c
    · rw [if_pos hx, hx]
      exact hrc
    · rw [if_neg hx]
  · intro x
    rw [set_cown_cowns]
    by_cases hx : x = c
    · rw [if_pos hx, hx]
      exact hs
    · rw [if_neg hx]
  · intro x
    rw [set_cown_cowns]
    by_cases hx : x = c
    · rw [if_pos hx, hx]
      exact hbp
    · rw [if_neg hx]
  · intro x
    rw [set_cown_cowns]
    by_cases hx : x = c
    · rw [if_pos hx, hx]
      exact hcol
    · rw [if_neg hx]
      exact fun h => h

theorem log_gc_frame (w : World) (e : Event)
    (h : ∀ d, Event.schedules d e = false ∧ Event.wakes d e = false) : GcFrame w (w.log e) :=
  ⟨fun _ => rfl, fun _ => le_refl _, fun _ => rfl, fun _ => rfl, fun _ h => h, rfl, rfl, rfl,
    rfl, rfl, ⟨[e], rfl, by simpa using h⟩⟩

theorem work_list_frame (w : World) (l : Option (List CownPtr)) :
    GcFrame w { w with work_list := l } :=
  ⟨fun _ => rfl, fun _ => le_refl _, fun _ => rfl, fun _ => rfl, fun _ h => h, rfl, rfl, rfl,
    rfl, rfl, ⟨[], by simp, by simp⟩⟩

theorem decref_cown_frame (w : World) (c : CownPtr) : GcFrame w (decref_cown w c).1 :=
  set_cown_frame w c { w.cowns c with rc := (w.cowns c).rc - 1 } rfl (Nat.sub_le _ _) rfl rfl
    (fun h => h)

theorem weak_fetch_sub_frame (w : World) (c : CownPtr) : GcFrame w (weak_fetch_sub w c).1 :=
  set_cown_frame w c { w.cowns c with weak_count := (w.cowns c).weak_count - 1 } rfl
    (le_refl _) rfl rfl (fun h => h)

theorem weak_release_frame (w : World) (c : CownPtr) : GcFrame w (weak_release w c) := by
  have h := weak_fetch_sub_frame w c
  unfold weak_release
  simp only
  split
  · split
    · exact h.trans (log_gc_frame _ _ (by simp [Event.schedules, Event.wakes]))
    · refine (h.trans (log_gc_frame _ Event.add_pressure
        (by simp [Event.schedules, Event.wakes]))).trans ?_
      exact ⟨fun _ => rfl, fun _ => le_refl _, fun _ => rfl, fun _ => rfl, fun _ h => h, rfl,
        rfl, rfl, rfl, rfl, ⟨[], by simp, by simp⟩⟩
  · exact h

theorem release_with_frame (qc : World → CownPtr → World) (hqc : ∀ w c, GcFrame w (qc w c))
    (w : World) (c : CownPtr) : GcFrame (decref_cown w c).1 (release_with qc w c) := by
  unfold release_with
  simp only
  split_ifs
  · exact GcFrame.refl _
  · exact weak_fetch_sub_frame _ c
  · exact weak_fetch_sub_frame _ c
  · exact hqc _ c
  · exact weak_release_frame _ c

theorem foldl_gc_frame {α : Type} (f : World → α → World) (hf : ∀ w a, GcFrame w (f w a))
    (l : List α) : ∀ w, GcFrame w (l.foldl f w) := by
  induction l with
  | nil => exact fun w => GcFrame.refl w
  | cons a rest ih => exact fun w => (hf w a).trans (ih _)

theorem collect_object_frame (rel : World → CownPtr → World)
    (hrel : ∀ w c, GcFrame w (rel w c)) (w : World) (o : TracedObject) :
    GcFrame w (collect_object rel w o) := by
  cases o with
  | iso o => exact log_gc_frame _ _ (by simp [Event.schedules, Event.wakes])
  | rc o => exact log_gc_frame _ _ (by simp [Event.schedules, Event.wakes])
  | scc_ptr o => exact log_gc_frame _ _ (by simp [Event.schedules, Event.wakes])
  | cown c => exact hrel w c

theorem collect_with_frame (rel : World → CownPtr → World)
    (hrel : ∀ w c, GcFrame w (rel w c)) (w : World) (c : CownPtr) :
    GcFrame w (collect_with rel w c) := by
  unfold collect_with
  split
  · exact GcFrame.refl w
  · refine GcFrame.trans ?_ (log_gc_frame _ _ (by simp [Event.schedules, Event.wakes]))
    refine GcFrame.trans ?_ (foldl_gc_frame _ (collect_object_frame rel hrel) _ _)
    exact (set_cown_frame w c { w.cowns c with collected := true } rfl (le_refl _) rfl rfl
      (fun _ => rfl)).trans (log_gc_frame _ _ (by simp [Event.schedules, Event.wakes]))

theorem queue_collect_push_frame (w : World) (c : CownPtr) :
    GcFrame w (queue_collect_push w c) := work_list_frame w _

theorem release_nested_frame (w : World) (c : CownPtr) :
    GcFrame (decref_cown w c).1 (release_nested w c) :=
  release_with_frame _ queue_collect_push_frame w c

theorem collect_nested_frame (w : World) (c : CownPtr) : GcFrame w (collect_nested w c) :=
  collect_with_frame _ (fun w c => (decref_cown_frame w c).trans (release_nested_frame w c)) w c

theorem queue_collect_drain_frame (n : Nat) :
    ∀ w : World, GcFrame w (queue_collect_drain n w) := by
  induction n with
  | zero => exact fun w => GcFrame.refl w
  | succ n ih =>
    intro w
    rw [queue_collect_drain]
    split
    · exact (((work_list_frame w _).trans (collect_nested_frame _ _)).trans
        (weak_release_frame _ _)).trans (ih _)
    · exact GcFrame.refl w

theorem queue_collect_frame (w : World) (c : CownPtr) : GcFrame w (queue_collect w c) := by
  unfold queue_collect
  split
  · exact work_list_frame w _
  · simp only
    refine GcFrame.trans (work_list_frame w (some [])) ?_
    refine GcFrame.trans ((collect_nested_frame _ c).trans (weak_release_frame _ c)) ?_
    exact GcFrame.trans (queue_collect_drain_frame _ _) (work_list_frame _ none)

theorem release_frame (w : World) (c : CownPtr) : GcFrame (decref_cown w c).1 (release w c) :=
  release_with_frame _ queue_collect_frame w c

theorem release_frame_from (w : World) (c : CownPtr) : GcFrame w (release w c) :=
  (decref_cown_frame w c).trans (release_frame w c)

theorem collect_frame (w : World) (c : CownPtr) : GcFrame w (collect w c) :=
  collect_with_frame _ release_frame_from w c

theorem release_rc (w : World) (c : CownPtr) :
    ((release w c).cowns c).rc = (w.cowns c).rc - 1 := by
  have h := (release_frame w c).rc c
  have hd : ((decref_cown w c).1.cowns c).rc = (w.cowns c).rc - 1 := by
    simp [decref_cown, set_cown_cowns]
  by_cases h0 : (w.cowns c).rc - 1 = 0
  · rw [hd, h0] at h
    rw [h0]
    exact Nat.le_zero.mp h
  · have he : release w c = (decref_cown w c).1 := by
      unfold release release_with
      simp [decref_cown, h0]
    rw [he, hd]

theorem GcFrame.schedule_count {w v : World} (h : GcFrame w v) (c : CownPtr) :
    schedule_count v c = schedule_count w c := by
  obtain ⟨evs, he, hn⟩ := h.trace
  have hf : evs.filter (Event.schedules c) = [] := by
    rw [List.filter_eq_nil_iff]
    intro e hm
    simp [(hn e hm c).1]
  simp [Verona.schedule_count, he, List.filter_append, hf]

theorem GcFrame.wake_count {w v : World} (h : GcFrame w v) (c : CownPtr) :
    wake_count v c = wake_count w c := by
  obtain ⟨evs, he, hn⟩ := h.trace
  have hf : evs.filter (Event.wakes c) = [] := by
    rw [List.filter_eq_nil_iff]
    intro e hm
    simp [(hn e hm c).2]
  simp [Verona.wake_count, he, List.filter_append, hf]

theorem schedule_schedule_count (w : World) (c : CownPtr) :
    schedule_count (schedule w c) c = schedule_count w c + 1 := by
  unfold schedule
  split <;> simp [schedule_count, World.log, List.filter_append, Event.schedules]

theorem schedule_cowns (w : World) (c : CownPtr) : (schedule w c).cowns = w.cowns := by
  unfold schedule
  split <;> rfl

theorem set_cown_schedule_count (w : World) (c : CownPtr) (k : Cown) (d : CownPtr) :
    schedule_count (w.set_cown c k) d = schedule_count w d := rfl

theorem set_cown_wake_count (w : World) (c : CownPtr) (k : Cown) (d : CownPtr) :
    wake_count (w.set_cown c k) d = wake_count w d := rfl

/-! ## C1: the contract of `send` -/

/-- C1. `send<transfer, try_fast>(m)` on cown `c` appends `m` to the queue of
`c` and returns whether that queue was sleeping before the enqueue; the cown is
scheduled once when the queue was sleeping and `try_fast` is `NoTryFast`, and
not at all otherwise; the strong count goes up by one when the queue was
sleeping and `transfer` is `NoTransfer`, down by one when the queue was awake
and `transfer` is `YesTransfer` (the reference the caller hands over, so the
count is positive), and is unchanged in the two remaining cases. -/
theorem send_contract (transfer : TransferOwnership) (try_fast : TryFastSend)
    (w : World) (c : CownPtr) (m : MultiMessage) :
    ((send transfer try_fast w c m).1.cowns c).queue.msgs = (w.cowns c).queue.msgs ++ [m] ∧
    (send transfer try_fast w c m).2 = (w.cowns c).queue.sleeping ∧
    schedule_count (send transfer try_fast w c m).1 c = schedule_count w c +
      (if (send transfer try_fast w c m).2 = true ∧ try_fast = TryFastSend.NoTryFast
        then 1 else 0) ∧
    ((w.cowns c).queue.sleeping = true → transfer = TransferOwnership.NoTransfer →
      ((send transfer try_fast w c m).1.cowns c).rc = (w.cowns c).rc + 1) ∧
    ((w.cowns c).queue.sleeping = false → transfer = TransferOwnership.YesTransfer →
      0 < (w.cowns c).rc →
      ((send transfer try_fast w c m).1.cowns c).rc + 1 = (w.cowns c).rc) ∧
    ((w.cowns c).queue.sleeping = true → transfer = TransferOwnership.YesTransfer →
      ((send transfer try_fast w c m).1.cowns c).rc = (w.cowns c).rc) ∧
    ((w.cowns c).queue.sleeping = false → transfer = TransferOwnership.NoTransfer →
      ((send transfer try_fast w c m).1.cowns c).rc = (w.cowns c).rc) := by
  have hrel := release_frame (queue_enqueue w c m).1 c
  have hq := hrel.queue c
  have hrc := release_rc (queue_enqueue w c m).1 c
  have hsc := hrel.schedule_count c
  cases hs : (w.cowns c).queue.sleeping <;> cases transfer <;> cases try_fast <;>
    simp [send, queue_enqueue, MPSCQ.enqueue, hs, acquire, set_cown_cowns, schedule_cowns,
      schedule_schedule_count, set_cown_schedule_count] <;>
    simp [queue_enqueue, MPSCQ.enqueue, hs, decref_cown, set_cown_cowns,
      set_cown_schedule_count] at hq hrc hsc <;>
    simp [hq, hrc, hsc] <;> omega

/-! ## C2, C3, C5: `backpressure_transition` -/

theorem schedule_trace (w : World) (c : CownPtr) :
    (schedule w c).trace = w.trace ++
      [if w.sched.isSome then Event.schedule_fifo c else Event.schedule_lifo c] := by
  unfold schedule
  split <;> simp_all [World.log]

theorem backpressure_transition_snd (w : World) (c : CownPtr) (state : Priority) (exact : Bool) :
    (backpressure_transition w c state exact).2 = priority w c := by
  unfold backpressure_transition priority
  simp only
  split_ifs <;> rfl

theorem backpressure_transition_blocker (w : World) (c : CownPtr) (state : Priority)
    (exact : Bool) (x : CownPtr) :
    blocker (backpressure_transition w c state exact).1 x = blocker w x := by
  unfold backpressure_transition blocker
  simp only
  split_ifs <;>
    simp [schedule_cowns, queue_wake, World.log, set_cown_cowns] <;>
    split <;> simp_all

theorem backpressure_transition_other (w : World) (c : CownPtr) (state : Priority)
    (exact : Bool) (x : CownPtr) (hx : x ≠ c) :
    (backpressure_transition w c state exact).1.cowns x = w.cowns x := by
  unfold backpressure_transition
  simp only
  split_ifs <;> simp [schedule_cowns, queue_wake, World.log, set_cown_cowns, hx]

/-- C2. `backpressure_transition(Normal, exact)` on a cown with state word
(blocker, priority `p`): when `p` is `Low` or `exact` is set the priority is
`Normal` afterwards; when `exact` is false and `p` is not `Low` (so `Normal`,
`MaybeHigh` or `High`) the call changes nothing at all (state word, queues,
recorded wakes and schedules) and returns `p`. -/
theorem backpressure_transition_normal (w : World) (c : CownPtr) (exact : Bool) :
    ((priority w c = Priority.Low ∨ exact = true) →
      priority (backpressure_transition w c Priority.Normal exact).1 c = Priority.Normal) ∧
    (exact = false → priority w c ≠ Priority.Low →
      (backpressure_transition w c Priority.Normal exact).1 = w ∧
      (backpressure_transition w c Priority.Normal exact).2 = priority w c) := by
  constructor
  · intro h
    unfold backpressure_transition priority at *
    simp only
    split_ifs <;>
      simp_all [schedule_cowns, queue_wake, World.log, set_cown_cowns]
  · intro he hp
    unfold backpressure_transition priority at *
    simp [he, hp]

/-- C3. `backpressure_transition(High)` always wins: whatever the priority `p`
and the blocker `b` of the cown were, afterwards the priority is `High`, the
blocker is still `b`, and the call returns `p`. -/
theorem backpressure_transition_high (w : World) (c : CownPtr) (exact : Bool) :
    priority (backpressure_transition w c Priority.High exact).1 c = Priority.High ∧
    blocker (backpressure_transition w c Priority.High exact).1 c = blocker w c ∧
    (backpressure_transition w c Priority.High exact).2 = priority w c := by
  refine ⟨?_, backpressure_transition_blocker w c _ _ c, backpressure_transition_snd w c _ _⟩
  unfold backpressure_transition priority
  simp only
  split_ifs <;>
    simp_all [schedule_cowns, queue_wake, World.log, set_cown_cowns]

/-- C5. Schedule-on-wake: `backpressure_transition(s, exact)` on a cown whose
previous priority was `Low`, with `s` not `Low`, records exactly one `wake` of
the cown's queue followed by exactly one schedule of the cown, and leaves the
queue awake; when the previous priority was not `Low`, or `s` is `Low`, it
records no wake and no schedule. -/
theorem backpressure_transition_schedule_on_wake (w : World) (c : CownPtr) (s : Priority)
    (exact : Bool) :
    (priority w c = Priority.Low → s ≠ Priority.Low →
      (backpressure_transition w c s exact).1.trace = w.trace ++
        [Event.wake c,
          if w.sched.isSome then Event.schedule_fifo c else Event.schedule_lifo c] ∧
      wake_count (backpressure_transition w c s exact).1 c = wake_count w c + 1 ∧
      schedule_count (backpressure_transition w c s exact).1 c = schedule_count w c + 1 ∧
      ((backpressure_transition w c s exact).1.cowns c).queue.sleeping = false) ∧
    ((priority w c ≠ Priority.Low ∨ s = Priority.Low) →
      (backpressure_transition w c s exact).1.trace = w.trace) := by
  constructor
  · intro hp hs
    have ht : (backpressure_transition w c s exact).1.trace = w.trace ++
        [Event.wake c,
          if w.sched.isSome then Event.schedule_fifo c else Event.schedule_lifo c] := by
      unfold backpressure_transition priority at *
      simp [hp, Ne.symm hs, schedule_trace, queue_wake, World.log, World.set_cown]
    refine ⟨ht, ?_, ?_, ?_⟩
    · simp only [wake_count, ht, List.filter_append]
      cases w.sched <;> simp [Event.wakes]
    · simp only [schedule_count, ht, List.filter_append]
      cases w.sched <;> simp [Event.schedules]
    · unfold backpressure_transition priority at *
      simp [hp, Ne.symm hs, schedule_cowns, queue_wake, World.log, set_cown_cowns, MPSCQ.wake]
  · intro h
    unfold backpressure_transition priority at *
    simp only
    split_ifs <;> simp_all [World.set_cown]

/-! ## C4, C6, C7: the transition to `MaybeHigh` and token processing -/

theorem backpressure_transition_priority (w : World) (c : CownPtr) (state : Priority)
    (exact : Bool)
    (h : ¬ (state = Priority.Normal ∧ priority w c ≠ Priority.Low ∧ exact = false)) :
    priority (backpressure_transition w c state exact).1 c = state := by
  unfold backpressure_transition priority at *
  simp only
  split_ifs <;>
    simp_all [schedule_cowns, queue_wake, World.log, set_cown_cowns]

/-- C4, as the code has it. `backpressure_transition(MaybeHigh)` is
unconditional: from every previous priority the priority afterwards is
`MaybeHigh`, the blocker is unchanged and the previous priority is returned.
The restriction to `High` lies in the caller: processing a token on a cown
that is not overloaded leaves a priority `Low` or `Normal` as it was. -/
theorem backpressure_transition_maybehigh (w : World) (c : CownPtr) (exact : Bool) :
    priority (backpressure_transition w c Priority.MaybeHigh exact).1 c = Priority.MaybeHigh ∧
    blocker (backpressure_transition w c Priority.MaybeHigh exact).1 c = blocker w c ∧
    (backpressure_transition w c Priority.MaybeHigh exact).2 = priority w c ∧
    (∀ fuel : Nat, (w.cowns c).status.overloaded = false →
      (priority w c = Priority.Low ∨ priority w c = Priority.Normal) →
      priority (check_message_token fuel w c none).1.world c = priority w c) := by
  refine ⟨backpressure_transition_priority w c _ _ (by simp),
    backpressure_transition_blocker w c _ _ c, backpressure_transition_snd w c _ _, ?_⟩
  intro fuel ho hp
  unfold check_message_token
  unfold Status.overloaded Status.set_has_token priority at *
  rcases hp with hp | hp <;> simp [ho, hp, set_cown_cowns]

/-- C4 as stated fails: on a fresh cown, whose priority is `Normal`,
`backpressure_transition(MaybeHigh)` changes the priority (to `MaybeHigh`). -/
theorem backpressure_transition_maybehigh_from_normal :
    priority World.fresh 1 = Priority.Normal ∧
    priority (backpressure_transition World.fresh 1 Priority.MaybeHigh false).1 1 ≠
      priority World.fresh 1 := by
  decide

/-- C6. On a cown whose status has the has-token flag set and the overloaded
flag clear and whose priority is `High`, `check_message_token` with a null body
returns true, clears the has-token flag and leaves the load and overloaded
fields as they were, and leaves the priority `MaybeHigh` with the blocker
unchanged. -/
theorem check_message_token_high (fuel : Nat) (w : World) (c : CownPtr)
    (_ht : (w.cowns c).status.has_token = true)
    (ho : (w.cowns c).status.overloaded = false)
    (hp : priority w c = Priority.High) :
    (check_message_token fuel w c none).2 = true ∧
    (check_message_token fuel w c none).1.returned = true ∧
    ((check_message_token fuel w c none).1.world.cowns c).status.has_token = false ∧
    ((check_message_token fuel w c none).1.world.cowns c).status.load =
      (w.cowns c).status.load ∧
    ((check_message_token fuel w c none).1.world.cowns c).status.overloaded =
      (w.cowns c).status.overloaded ∧
    priority (check_message_token fuel w c none).1.world c = Priority.MaybeHigh ∧
    blocker (check_message_token fuel w c none).1.world c = blocker w c := by
  unfold check_message_token
  unfold Status.overloaded Status.set_has_token Status.has_token priority blocker at *
  simp [ho, hp, set_cown_cowns, backpressure_transition]

/-- C7 on the code. On a cown with a token in flight, not overloaded, whose
priority is `MaybeHigh`, `check_message_token` with a null body returns true
and leaves the priority `MaybeHigh`: the call
`backpressure_transition(Priority::Normal)` it makes has `exact` false and
returns at the guard for a previous priority other than `Low`. -/
theorem check_message_token_maybehigh_stays :
    ((World.fresh.set_cown 1 (Cown.with_token Priority.MaybeHigh none)).cowns 1).status.has_token
      = true ∧
    ((World.fresh.set_cown 1 (Cown.with_token Priority.MaybeHigh none)).cowns 1).status.overloaded
      = false ∧
    priority (World.fresh.set_cown 1 (Cown.with_token Priority.MaybeHigh none)) 1 =
      Priority.MaybeHigh ∧
    (check_message_token 8 (World.fresh.set_cown 1 (Cown.with_token Priority.MaybeHigh none))
      1 none).2 = true ∧
    priority (check_message_token 8
      (World.fresh.set_cown 1 (Cown.with_token Priority.MaybeHigh none)) 1 none).1.world 1 =
      Priority.MaybeHigh := by
  decide

/-! ## C8: `backpressure_scan` -/

theorem backpressure_scan_inner_iff (s : CownPtr) (receivers : List CownPtr) :
    backpressure_scan_inner s receivers = true ↔ s ∈ receivers := by
  induction receivers with
  | nil => simp [backpressure_scan_inner]
  | cons r rest ih =>
    unfold backpressure_scan_inner
    by_cases h : s = r
    · simp [h]
    · simp [h, ih]

theorem backpressure_scan_senders_iff (receivers senders : List CownPtr) :
    backpressure_scan_senders receivers senders = true ↔ ∃ s ∈ senders, s ∈ receivers := by
  induction senders with
  | nil => simp [backpressure_scan_senders]
  | cons s rest ih =>
    unfold backpressure_scan_senders
    by_cases h : backpressure_scan_inner s receivers = true
    · have hm := (backpressure_scan_inner_iff s receivers).mp h
      simp [h, hm]
    · have hm : s ∉ receivers := fun hm => h ((backpressure_scan_inner_iff s receivers).mpr hm)
      simp [h, hm, ih]

theorem backpressure_scan_receivers_find (t : SchedulerThread) (l : List CownPtr) (w : World) :
    backpressure_scan_receivers t l w =
      match l.find? (triggers_muting w) with
      | some r => weak_acquire { w with sched := some { t with mutor := some r } } r
      | none => w := by
  induction l with
  | nil => simp [backpressure_scan_receivers]
  | cons r rest ih =>
    unfold backpressure_scan_receivers
    by_cases h : triggers_muting w r = true
    · simp [h, List.find?_cons]
    · simp [h, List.find?_cons, ih]

/-- C8. `backpressure_scan(senders, receivers)` on a worker thread, production
build.  When the mutor is already set, or some sender is also a receiver, the
world is left as it is (mutor slot and every weak count included).  Otherwise
the first receiver, in array order, whose priority is not `Normal` and whose
queue is not sleeping becomes the mutor and its weak count goes up by exactly
one, all other weak counts staying; when no receiver qualifies the world is
left as it is, so the mutor stays null. -/
theorem backpressure_scan_contract (w : World) (t : SchedulerThread)
    (senders receivers : MultiMessageBody) (hs : w.sched = some t) :
    ∃ v, backpressure_scan w senders receivers = some v ∧
      ((t.mutor ≠ none ∨ ∃ s ∈ senders.cowns, s ∈ receivers.cowns) → v = w) ∧
      (t.mutor = none → (∀ s ∈ senders.cowns, s ∉ receivers.cowns) →
        (∀ r, receivers.cowns.find?
            (fun x => decide (priority w x ≠ Priority.Normal) && !(w.cowns x).queue.sleeping) =
            some r →
          v.sched = some { t with mutor := some r } ∧
          (v.cowns r).weak_count = (w.cowns r).weak_count + 1 ∧
          ∀ x, x ≠ r → (v.cowns x).weak_count = (w.cowns x).weak_count) ∧
        (receivers.cowns.find?
            (fun x => decide (priority w x ≠ Priority.Normal) && !(w.cowns x).queue.sleeping) =
            none → v = w)) := by
  have hfun : (fun x => decide (priority w x ≠ Priority.Normal) && !(w.cowns x).queue.sleeping) =
      triggers_muting w := by
    funext x
    simp [triggers_muting, MPSCQ.is_sleeping]
  rw [hfun]
  unfold backpressure_scan
  rw [hs]
  simp only
  by_cases hm : t.mutor ≠ none
  · exact ⟨w, by simp [hm], fun _ => rfl, fun h => absurd h hm⟩
  · have hm1 : t.mutor = none := not_not.mp hm
    by_cases hov : backpressure_scan_senders receivers.cowns senders.cowns = true
    · have hex := (backpressure_scan_senders_iff _ _).mp hov
      refine ⟨w, by simp [hm1, hov], fun _ => rfl, fun _ hno => ?_⟩
      obtain ⟨s, hs1, hs2⟩ := hex
      exact absurd hs2 (hno s hs1)
    · have hno : ¬ ∃ s ∈ senders.cowns, s ∈ receivers.cowns :=
        fun hex => hov ((backpressure_scan_senders_iff _ _).mpr hex)
      refine ⟨backpressure_scan_receivers t receivers.cowns w, by simp [hm1, hov], ?_, ?_⟩
      · rintro (h | h)
        · exact absurd hm1 h
        · exact absurd h hno
      · intro _ _
        rw [backpressure_scan_receivers_find]
        constructor
        · intro r hr
          rw [hr]
          refine ⟨rfl, ?_, ?_⟩
          · simp [weak_acquire, set_cown_cowns]
          · intro x hx
            simp [weak_acquire, set_cown_cowns, hx]
        · intro hn
          rw [hn]

/-! ## C9: `backpressure_unblock` -/

theorem backpressure_transition_sched (w : World) (c : CownPtr) (state : Priority)
    (exact : Bool) : (backpressure_transition w c state exact).1.sched = w.sched := by
  unfold backpressure_transition
  simp only
  split_ifs
  · rfl
  · rfl
  · simp only [schedule, queue_wake, World.log, World.set_cown]
    split <;> rfl
  · rfl

theorem backpressure_transition_high_trace (w : World) (c : CownPtr) :
    (backpressure_transition w c Priority.High false).1.trace = w.trace ++ raise_events w c := by
  unfold backpressure_transition raise_events schedule_event priority
  simp only
  split_ifs <;> simp_all [schedule_trace, queue_wake, World.log, World.set_cown]

theorem backpressure_unblock_null (fuel : Nat) (w : World) :
    backpressure_unblock fuel w none = ⟨w, true⟩ := by
  cases fuel <;> rfl

theorem BlockerChain.congr {w v : World} (hb : ∀ x, blocker v x = blocker w x)
    {p : Option CownPtr} {l : List CownPtr} (h : BlockerChain w p l) : BlockerChain v p l := by
  induction h with
  | null => exact BlockerChain.null
  | step c l _ ih => exact BlockerChain.step c l (by rw [hb c]; exact ih)

theorem BlockerChain.unique {w : World} {p : Option CownPtr} {l k : List CownPtr}
    (h : BlockerChain w p l) (h2 : BlockerChain w p k) : l = k := by
  induction h generalizing k with
  | null => cases h2; rfl
  | step c l _ ih =>
    cases h2 with
    | step _ k2 hk => rw [ih hk]

theorem BlockerChain.tail_of_mem {w : World} {p : Option CownPtr} {l : List CownPtr}
    (h : BlockerChain w p l) {x : CownPtr} (hx : x ∈ l) :
    ∃ s, BlockerChain w (some x) s ∧ s.length ≤ l.length := by
  induction h with
  | null => cases hx
  | step c l hl ih =>
    rcases List.mem_cons.mp hx with heq | hmem
    · subst heq
      exact ⟨x :: l, BlockerChain.step x l hl, le_refl _⟩
    · obtain ⟨s, hs, hlen⟩ := ih hmem
      exact ⟨s, hs, by simp only [List.length_cons]; omega⟩

theorem BlockerChain.head_not_mem {w : World} {c : CownPtr} {l : List CownPtr}
    (h : BlockerChain w (some c) (c :: l)) : c ∉ l := by
  intro hmem
  cases h with
  | step _ _ hl =>
    obtain ⟨s, hs, hlen⟩ := hl.tail_of_mem hmem
    have heq := hs.unique (BlockerChain.step c l hl)
    rw [heq] at hlen
    simp only [List.length_cons] at hlen
    omega

theorem BlockerChain.nodup {w : World} {p : Option CownPtr} {l : List CownPtr}
    (h : BlockerChain w p l) : l.Nodup := by
  induction h with
  | null => exact List.nodup_nil
  | step c l hl ih => exact List.nodup_cons.mpr ⟨(BlockerChain.step c l hl).head_not_mem, ih⟩

theorem raise_events_congr {w v : World} (hs : v.sched = w.sched) (x : CownPtr)
    (hx : v.cowns x = w.cowns x) : raise_events v x = raise_events w x := by
  simp [raise_events, schedule_event, priority, hs, hx]

theorem backpressure_unblock_walk (l : List CownPtr) :
    ∀ (w : World) (p : Option CownPtr) (fuel : Nat), BlockerChain w p l → l.length ≤ fuel →
      (backpressure_unblock fuel w p).returned = true ∧
      (∀ x ∈ l, priority (backpressure_unblock fuel w p).world x = Priority.High) ∧
      (∀ x, blocker (backpressure_unblock fuel w p).world x = blocker w x) ∧
      (∀ x, x ∉ l → (backpressure_unblock fuel w p).world.cowns x = w.cowns x) ∧
      (backpressure_unblock fuel w p).world.sched = w.sched ∧
      (backpressure_unblock fuel w p).world.trace = w.trace ++ l.flatMap (raise_events w) := by
  induction l with
  | nil =>
    intro w p fuel h _
    cases h
    rw [backpressure_unblock_null]
    simp
  | cons a rest ih =>
    intro w p fuel h hf
    have hnot : a ∉ rest := by
      cases h with
      | step _ _ hl => exact (BlockerChain.step a rest hl).head_not_mem
    cases h with
    | step _ _ hl =>
      cases fuel with
      | zero => simp at hf
      | succ f =>
        have hb := backpressure_transition_blocker w a Priority.High false
        have hchain : BlockerChain (backpressure_transition w a Priority.High false).1
            (blocker (backpressure_transition w a Priority.High false).1 a) rest := by
          rw [hb a]
          exact hl.congr hb
        obtain ⟨h1, h2, h3, h4, h5, h6⟩ :=
          ih _ _ f hchain (by simp only [List.length_cons] at hf; omega)
        have hstep : backpressure_unblock (f + 1) w (some a) =
            backpressure_unblock f (backpressure_transition w a Priority.High false).1
              (blocker (backpressure_transition w a Priority.High false).1 a) := rfl
        rw [hstep]
        refine ⟨h1, ?_, ?_, ?_, ?_, ?_⟩
        · intro x hx
          rcases List.mem_cons.mp hx with heq | hmem
          · subst heq
            unfold priority
            rw [h4 x hnot]
            exact backpressure_transition_priority w x Priority.High false (by simp)
          · exact h2 x hmem
        · intro x
          rw [h3 x, hb x]
        · intro x hx
          have hxa : x ≠ a := fun e => hx (e ▸ List.mem_cons_self _ _)
          have hxr : x ∉ rest := fun e => hx (List.mem_cons_of_mem _ e)
          rw [h4 x hxr, backpressure_transition_other w a _ _ x hxa]
        · rw [h5, backpressure_transition_sched]
        · rw [h6, backpressure_transition_high_trace, List.flatMap_cons, List.append_assoc]
          congr 2
          apply List.flatMap_congr
          intro x hx
          have hxa : x ≠ a := fun e => hnot (e ▸ hx)
          exact raise_events_congr (backpressure_transition_sched w a _ _) x
            (backpressure_transition_other w a _ _ x hxa)

theorem wakes_schedule_event (w : World) (a x : CownPtr) :
    Event.wakes x (schedule_event w a) = false := by
  unfold schedule_event
  split <;> rfl

theorem schedules_schedule_event (w : World) (a x : CownPtr) :
    Event.schedules x (schedule_event w a) = decide (a = x) := by
  unfold schedule_event
  split <;> rfl

theorem wakes_wake (a x : CownPtr) : Event.wakes x (Event.wake a) = decide (a = x) := rfl

theorem schedules_wake (a x : CownPtr) : Event.schedules x (Event.wake a) = false := rfl

theorem raise_events_one_wakes (w : World) (a x : CownPtr) :
    ((raise_events w a).filter (Event.wakes x)).length =
      if a = x ∧ priority w a = Priority.Low then 1 else 0 := by
  unfold raise_events
  by_cases hp : priority w a = Priority.Low
  · by_cases hax : a = x
    · subst hax
      simp [hp, List.filter_cons, wakes_schedule_event, wakes_wake]
    · simp [hp, hax, List.filter_cons, wakes_schedule_event, wakes_wake]
  · simp [hp]

theorem raise_events_one_schedules (w : World) (a x : CownPtr) :
    ((raise_events w a).filter (Event.schedules x)).length =
      if a = x ∧ priority w a = Priority.Low then 1 else 0 := by
  unfold raise_events
  by_cases hp : priority w a = Priority.Low
  · by_cases hax : a = x
    · subst hax
      simp [hp, List.filter_cons, schedules_schedule_event, schedules_wake]
    · simp [hp, hax, List.filter_cons, schedules_schedule_event, schedules_wake]
  · simp [hp]

theorem raise_events_wakes (w : World) (l : List CownPtr) (hn : l.Nodup) (x : CownPtr) :
    ((l.flatMap (raise_events w)).filter (Event.wakes x)).length =
      if x ∈ l ∧ priority w x = Priority.Low then 1 else 0 := by
  induction l with
  | nil => simp
  | cons a rest ih =>
    have hna : a ∉ rest := (List.nodup_cons.mp hn).1
    rw [List.flatMap_cons, List.filter_append, List.length_append, ih (List.nodup_cons.mp hn).2,
      raise_events_one_wakes]
    by_cases hax : a = x
    · subst hax
      simp [hna]
    · have hxa : ¬ x = a := fun e => hax e.symm
      simp [hax, hxa]

theorem raise_events_schedules (w : World) (l : List CownPtr) (hn : l.Nodup) (x : CownPtr) :
    ((l.flatMap (raise_events w)).filter (Event.schedules x)).length =
      if x ∈ l ∧ priority w x = Priority.Low then 1 else 0 := by
  induction l with
  | nil => simp
  | cons a rest ih =>
    have hna : a ∉ rest := (List.nodup_cons.mp hn).1
    rw [List.flatMap_cons, List.filter_append, List.length_append, ih (List.nodup_cons.mp hn).2,
      raise_events_one_schedules]
    by_cases hax : a = x
    · subst hax
      simp [hna]
    · have hxa : ¬ x = a := fun e => hax e.symm
      simp [hax, hxa]

/-- C9. When the blocker chain of cown `c` is finite (`l` lists the cowns
`c, c.blocker, ...` up to null), `backpressure_unblock(c)` returns once the walk
is given at least `l.length` steps, and afterwards: every cown on the chain has
priority `High`; every blocker pointer is as before; every cown off the chain is
unchanged; the calls recorded are, in chain order, a wake followed by a schedule
for each chain cown that was `Low` and nothing for the others, so each chain
cown that was `Low` is woken once and scheduled once and no other cown is woken
or scheduled. -/
theorem backpressure_unblock_chain (w : World) (c : CownPtr) (l : List CownPtr)
    (h : BlockerChain w (some c) l) (fuel : Nat) (hf : l.length ≤ fuel) :
    (backpressure_unblock fuel w (some c)).returned = true ∧
    (∀ x ∈ l, priority (backpressure_unblock fuel w (some c)).world x = Priority.High) ∧
    (∀ x, blocker (backpressure_unblock fuel w (some c)).world x = blocker w x) ∧
    (∀ x, x ∉ l → (backpressure_unblock fuel w (some c)).world.cowns x = w.cowns x) ∧
    (backpressure_unblock fuel w (some c)).world.trace = w.trace ++ l.flatMap (raise_events w) ∧
    (∀ x, wake_count (backpressure_unblock fuel w (some c)).world x =
      wake_count w x + if x ∈ l ∧ priority w x = Priority.Low then 1 else 0) ∧
    (∀ x, schedule_count (backpressure_unblock fuel w (some c)).world x =
      schedule_count w x + if x ∈ l ∧ priority w x = Priority.Low then 1 else 0) := by
  obtain ⟨h1, h2, h3, h4, _, h6⟩ := backpressure_unblock_walk l w (some c) fuel h hf
  refine ⟨h1, h2, h3, h4, h6, ?_, ?_⟩
  · intro x
    simp only [wake_count, h6, List.filter_append, List.length_append,
      raise_events_wakes w l h.nodup x]
  · intro x
    simp only [schedule_count, h6, List.filter_append, List.length_append,
      raise_events_schedules w l h.nodup x]

/-! ## C10: the participant array stored by the static `schedule` -/

theorem schedule_bodies (w : World) (c : CownPtr) : (schedule w c).bodies = w.bodies := by
  unfold schedule
  split <;> rfl

theorem send_bodies (transfer : TransferOwnership) (try_fast : TryFastSend) (w : World)
    (c : CownPtr) (m : MultiMessage) : (send transfer try_fast w c m).1.bodies = w.bodies := by
  have hrel := (release_frame (queue_enqueue w c m).1 c).bodies
  unfold send
  simp only
  split_ifs <;> simp_all [schedule_bodies, acquire, queue_enqueue, decref_cown, World.set_cown]

theorem backpressure_transition_bodies (w : World) (c : CownPtr) (state : Priority)
    (exact : Bool) : (backpressure_transition w c state exact).1.bodies = w.bodies := by
  unfold backpressure_transition
  simp only
  split_ifs <;> simp [schedule_bodies, queue_wake, World.log, World.set_cown]

theorem backpressure_unblock_bodies (fuel : Nat) :
    ∀ (w : World) (p : Option CownPtr), (backpressure_unblock fuel w p).world.bodies = w.bodies := by
  induction fuel with
  | zero =>
    intro w p
    cases p <;> rfl
  | succ f ih =>
    intro w p
    cases p with
    | none => rfl
    | some c =>
      show (backpressure_unblock f _ _).world.bodies = w.bodies
      rw [ih, backpressure_transition_bodies]

theorem set_blocker_bodies (high : Priority → Bool) (w : World) (c : CownPtr)
    (b : Option CownPtr) : (set_blocker high w c b).1.bodies = w.bodies := rfl

theorem make_message_bodies (w : World) (body : Option BodyPtr) (epoch : EpochMark) :
    (make_message w body epoch).1.bodies = w.bodies := rfl

theorem queue_dequeue_bodies (w : World) (c : CownPtr) :
    (queue_dequeue w c).1.bodies = w.bodies := rfl

theorem update_index_cowns (f : BodyPtr → MultiMessageBody) (body b : BodyPtr) (k : Nat) :
    (Function.update f body { f body with index := k } b).cowns = (f b).cowns := by
  by_cases h : b = body
  · subst h; simp
  · simp [Function.update_noteq h]

theorem fast_send_loop_arrays (high : Priority → Bool) (fuel : Nat) (body : BodyPtr)
    (epoch : EpochMark) (last : Nat) :
    ∀ (n : Nat) (w : World) (hp : Bool) (b : BodyPtr),
      ((fast_send_loop high fuel body epoch last n w hp).world.bodies b).cowns =
        (w.bodies b).cowns := by
  intro n
  induction n with
  | zero => intro w hp b; rfl
  | succ n ih =>
    intro w hp b
    unfold fast_send_loop
    simp only
    split
    · split_ifs <;>
        simp only [ih, update_index_cowns, backpressure_unblock_bodies, schedule_bodies,
          send_bodies, queue_dequeue_bodies, set_blocker_bodies, make_message_bodies]
    · rfl

theorem fast_send_arrays (high : Priority → Bool) (fuel : Nat) (w : World) (body : BodyPtr)
    (epoch : EpochMark) (b : BodyPtr) :
    ((fast_send high fuel w body epoch).world.bodies b).cowns = (w.bodies b).cowns := by
  unfold fast_send
  exact fast_send_loop_arrays high fuel body epoch _ _ w _ b

theorem foldl_acquire_frame (l : List CownPtr) :
    ∀ w : World, (l.foldl acquire w).bodies = w.bodies ∧
      (l.foldl acquire w).next_addr = w.next_addr ∧ (l.foldl acquire w).sched = w.sched := by
  induction l with
  | nil => intro w; exact ⟨rfl, rfl, rfl⟩
  | cons a rest ih =>
    intro w
    obtain ⟨h1, h2, h3⟩ := ih (acquire w a)
    exact ⟨h1, h2, h3⟩

theorem backpressure_scan_receivers_bodies (t : SchedulerThread) (l : List CownPtr) (w : World) :
    (backpressure_scan_receivers t l w).bodies = w.bodies := by
  rw [backpressure_scan_receivers_find]
  split <;> rfl

theorem backpressure_scan_bodies (w : World) (senders receivers : MultiMessageBody) :
    ((backpressure_scan w senders receivers).getD w).bodies = w.bodies := by
  unfold backpressure_scan
  split
  · rfl
  · split_ifs <;> simp [backpressure_scan_receivers_bodies]

theorem schedule_behaviour_array (high : Priority → Bool) (fuel : Nat)
    (transfer : TransferOwnership) (w : World) (cowns : List CownPtr) (be : Nat) :
    ((schedule_behaviour high fuel transfer w cowns be).world.bodies w.next_addr).cowns =
      cowns.insertionSort (fun a b => a ≤ b) := by
  unfold schedule_behaviour
  simp only
  rw [fast_send_arrays]
  have hacq : ∀ v : World, v.bodies = (make_body (if transfer = TransferOwnership.NoTransfer
      then (cowns.insertionSort (fun a b => a ≤ b)).foldl acquire w else w)
      (cowns.insertionSort (fun a b => a ≤ b)) be).1.bodies →
      (v.bodies w.next_addr).cowns = cowns.insertionSort (fun a b => a ≤ b) := by
    intro v hv
    rw [hv]
    unfold make_body
    split_ifs
    · simp only
      rw [(foldl_acquire_frame _ w).2.1, Function.update_same]
    · simp only
      rw [Function.update_same]
  apply hacq
  split
  · split
    · rw [backpressure_scan_bodies]
      split_ifs <;> rfl
    · split_ifs <;> rfl
  · split_ifs <;> rfl

theorem occurs_before_sorted {l : List CownPtr} (hs : List.Sorted (fun a b => a ≤ b) l)
    {a b : CownPtr} (hab : a ≠ b) (ha : a ∈ l) (hb : b ∈ l) : occurs_before l a b ↔ a < b := by
  have hp := List.pairwise_iff_getElem.mp hs
  constructor
  · rintro ⟨i, j, hij, hi, hj⟩
    obtain ⟨hi1, hi2⟩ := List.getElem?_eq_some_iff.mp hi
    obtain ⟨hj1, hj2⟩ := List.getElem?_eq_some_iff.mp hj
    have hle := hp i j hi1 hj1 hij
    rw [hi2, hj2] at hle
    exact lt_of_le_of_ne hle hab
  · intro hlt
    obtain ⟨i, hi1, hi2⟩ := List.getElem_of_mem ha
    obtain ⟨j, hj1, hj2⟩ := List.getElem_of_mem hb
    rcases Nat.lt_trichotomy i j with h | h | h
    · exact ⟨i, j, h, List.getElem?_eq_some_iff.mpr ⟨hi1, hi2⟩,
        List.getElem?_eq_some_iff.mpr ⟨hj1, hj2⟩⟩
    · subst h
      exact absurd (hi2.symm.trans hj2) hab
    · have hle := hp j i hj1 hi1 h
      rw [hi2, hj2] at hle
      exact absurd hlt (not_lt.mpr hle)

/-- C11. No-deadlock ordering: take any two calls of the static `schedule`
(any worlds, any arrays) and the participant arrays they store in their message
bodies.  Two distinct cowns that occur in both stored arrays occur in the same
relative order in both: `a` stands before `b` in the one exactly when it does
in the other, and this is exactly when `a` has the smaller address.  The fast
path walks a stored array by increasing index, so both messages acquire the
shared cowns in this order. -/
theorem schedule_behaviour_same_order (high1 high2 : Priority → Bool) (fuel1 fuel2 : Nat)
    (transfer1 transfer2 : TransferOwnership) (w1 w2 : World) (cowns1 cowns2 : List CownPtr)
    (be1 be2 : Nat) (a b : CownPtr) (hab : a ≠ b)
    (ha1 : a ∈ ((schedule_behaviour high1 fuel1 transfer1 w1 cowns1 be1).world.bodies
      w1.next_addr).cowns)
    (hb1 : b ∈ ((schedule_behaviour high1 fuel1 transfer1 w1 cowns1 be1).world.bodies
      w1.next_addr).cowns)
    (ha2 : a ∈ ((schedule_behaviour high2 fuel2 transfer2 w2 cowns2 be2).world.bodies
      w2.next_addr).cowns)
    (hb2 : b ∈ ((schedule_behaviour high2 fuel2 transfer2 w2 cowns2 be2).world.bodies
      w2.next_addr).cowns) :
    (occurs_before ((schedule_behaviour high1 fuel1 transfer1 w1 cowns1 be1).world.bodies
        w1.next_addr).cowns a b ↔
      occurs_before ((schedule_behaviour high2 fuel2 transfer2 w2 cowns2 be2).world.bodies
        w2.next_addr).cowns a b) ∧
    (occurs_before ((schedule_behaviour high1 fuel1 transfer1 w1 cowns1 be1).world.bodies
        w1.next_addr).cowns a b ↔ a < b) := by
  rw [schedule_behaviour_array] at ha1 hb1 ⊢
  rw [schedule_behaviour_array] at ha2 hb2 ⊢
  have h1 := occurs_before_sorted
    (List.sorted_insertionSort (fun a b : CownPtr => a ≤ b) cowns1) hab ha1 hb1
  have h2 := occurs_before_sorted
    (List.sorted_insertionSort (fun a b : CownPtr => a ≤ b) cowns2) hab ha2 hb2
  exact ⟨h1.trans h2.symm, h1⟩

/-! ## C13: `try_collect` -/

theorem collect_collected (w : World) (c : CownPtr) :
    ((collect w c).cowns c).collected = true := by
  unfold collect collect_with is_collected
  split
  · assumption
  · apply (foldl_gc_frame _ (collect_object_frame release release_frame_from) _ _).collected c
    simp [World.log, set_cown_cowns]

/-- C13. `try_collect(e)` by cases on the epoch mark of the cown.  Mark
`SCHEDULED_FOR_SCAN`: the mark becomes `e`, nothing else changes (nothing is
collected) and the result is false.  Mark equal to `e`: nothing changes and the
result is false.  Any other mark: the result is true and the cown is collected
afterwards; the collection runs when the cown was not collected (the collected
bit is set, the finaliser is called, every object that the data of the cown
reaches is released by its kind, and the destructor is called), and nothing
changes when it already was. -/
theorem try_collect_cases (w : World) (c : CownPtr) (e : EpochMark) :
    ((w.cowns c).epoch_mark = EpochMark.SCHEDULED_FOR_SCAN →
      try_collect w c e = (w.set_cown c { w.cowns c with epoch_mark := e }, false)) ∧
    ((w.cowns c).epoch_mark = e → (w.cowns c).epoch_mark ≠ EpochMark.SCHEDULED_FOR_SCAN →
      try_collect w c e = (w, false)) ∧
    ((w.cowns c).epoch_mark ≠ EpochMark.SCHEDULED_FOR_SCAN → (w.cowns c).epoch_mark ≠ e →
      (try_collect w c e).2 = true ∧
      is_collected (try_collect w c e).1 c = true ∧
      (is_collected w c = false →
        (try_collect w c e).1 =
          ((w.payload c).foldl (collect_object release)
            ((w.set_cown c { w.cowns c with collected := true }).log (Event.collect c))).log
            (Event.destructor c)) ∧
      (is_collected w c = true → (try_collect w c e).1 = w)) := by
  refine ⟨?_, ?_, ?_⟩
  · intro h
    simp [try_collect, in_epoch, h, set_epoch_mark]
  · intro h1 h2
    subst h1
    simp [try_collect, in_epoch, h2]
  · intro h1 h2
    have htry : try_collect w c e =
        if is_collected w c = true then (w, true) else (collect w c, true) := by
      unfold try_collect in_epoch
      cases hc : is_collected w c <;> simp [h1, h2]
    rw [htry]
    cases hc : is_collected w c
    · refine ⟨rfl, collect_collected w c, fun _ => ?_, fun h => by cases h⟩
      show collect w c = _
      unfold collect collect_with
      rw [if_neg (by simp [hc])]
    · exact ⟨rfl, hc, fun h => (by cases h), fun _ => rfl⟩

/-! ## C19: the batch limit of `run` -/

/-- C19, as the code has it. The batch limit that `run` computes from the
status word is `100 | (total_load >> 3)`, a bitwise or: it is at least 100, and
it equals `100 + (total_load >> 3)` whenever `total_load` is below 32 (the
shifted load then has none of the bits of 100). -/
theorem run_batch_limit (ext : Externals) (fuel : Nat) (arrivals : List MultiMessage)
    (w : World) (c : CownPtr) :
    run ext fuel arrivals w c =
      run_loop ext fuel arrivals c (w.cowns c).queue.peek_back
        (batch_limit (ext.total_load (w.cowns c).status))
        (batch_limit (ext.total_load (w.cowns c).status)) w false 0 ∧
    batch_limit (ext.total_load (w.cowns c).status) =
      100 ||| (ext.total_load (w.cowns c).status >>> 3) ∧
    100 ≤ batch_limit (ext.total_load (w.cowns c).status) ∧
    (ext.total_load (w.cowns c).status < 32 →
      batch_limit (ext.total_load (w.cowns c).status) =
        100 + (ext.total_load (w.cowns c).status >>> 3)) := by
  refine ⟨rfl, rfl, Nat.le_of_testBit (by simp [batch_limit]; intro i hi; simp [hi]), ?_⟩
  intro h
  generalize ext.total_load (w.cowns c).status = t at h
  unfold batch_limit
  interval_cases t <;> rfl

/-- C19 as stated fails: for a total load of 32 the batch limit is 100, not
`100 + (32 >> 3) = 104`. -/
theorem run_batch_limit_at_32 :
    batch_limit 32 = 100 ∧ batch_limit 32 ≠ 100 + (32 >>> 3) := by
  decide

/-! ## C12: `release` and the weak count owned by the strong count -/

theorem weak_release_work_list (w : World) (c : CownPtr) :
    (weak_release w c).work_list = w.work_list := by
  unfold weak_release
  simp only
  split
  · split <;> rfl
  · rfl

theorem weak_release_cowns (w : World) (c : CownPtr) :
    (weak_release w c).cowns = (weak_fetch_sub w c).1.cowns := by
  unfold weak_release
  simp only
  split
  · split <;> rfl
  · rfl

theorem weak_fetch_sub_other (w : World) (c x : CownPtr) (hx : x ≠ c) :
    (weak_fetch_sub w c).1.cowns x = w.cowns x := by
  simp [weak_fetch_sub, set_cown_cowns, hx]

theorem weak_fetch_sub_self (w : World) (c : CownPtr) :
    (weak_fetch_sub w c).1.cowns c =
      { w.cowns c with weak_count := (w.cowns c).weak_count - 1 } := by
  simp [weak_fetch_sub, set_cown_cowns]

theorem decref_cown_other (w : World) (c x : CownPtr) (hx : x ≠ c) :
    (decref_cown w c).1.cowns x = w.cowns x := by
  simp [decref_cown, set_cown_cowns, hx]

theorem decref_cown_self (w : World) (c : CownPtr) :
    (decref_cown w c).1.cowns c = { w.cowns c with rc := (w.cowns c).rc - 1 } := by
  simp [decref_cown, set_cown_cowns]

theorem release_with_eq (qc : World → CownPtr → World) (w : World) (c : CownPtr) :
    release_with qc w c =
      if (w.cowns c).rc - 1 ≠ 0 then (decref_cown w c).1
      else if w.teardown = true then (weak_fetch_sub (decref_cown w c).1 c).1
      else if sweep_not_live w c = true then (weak_fetch_sub (decref_cown w c).1 c).1
      else if (w.cowns c).collected = false then qc (decref_cown w c).1 c
      else weak_release (decref_cown w c).1 c := by
  unfold release_with sweep_not_live is_live in_epoch is_collected decref_cown
  simp only [World.set_cown, Function.update_same]
  split_ifs <;> simp_all

theorem release_eq (w : World) (c : CownPtr) :
    release w c =
      if (w.cowns c).rc - 1 ≠ 0 then (decref_cown w c).1
      else if w.teardown = true then (weak_fetch_sub (decref_cown w c).1 c).1
      else if sweep_not_live w c = true then (weak_fetch_sub (decref_cown w c).1 c).1
      else if (w.cowns c).collected = false then queue_collect (decref_cown w c).1 c
      else weak_release (decref_cown w c).1 c :=
  release_with_eq queue_collect w c

theorem release_alive (w : World) (c : CownPtr) (h : 1 < (w.cowns c).rc) :
    release w c = (decref_cown w c).1 := by
  rw [release_eq, if_pos (by omega)]

theorem queue_collect_some (w : World) (c : CownPtr) (l : List CownPtr)
    (h : w.work_list = some l) : queue_collect w c = { w with work_list := some (c :: l) } := by
  unfold queue_collect
  rw [h]

theorem queue_collect_none (w : World) (c : CownPtr) (h : w.work_list = none) :
    queue_collect w c =
      { queue_collect_drain
          (queue_collect_bound (weak_release (collect_nested { w with work_list := some [] } c) c))
          (weak_release (collect_nested { w with work_list := some [] } c) c) with
        work_list := none } := by
  unfold queue_collect
  rw [h]

theorem release_nested_eq (w : World) (c : CownPtr) (h : w.work_list ≠ none) :
    release w c = release_nested w c := by
  obtain ⟨l, hl⟩ := Option.ne_none_iff_exists'.mp h
  unfold release_nested
  rw [release_eq, release_with_eq]
  have hq : queue_collect (decref_cown w c).1 c = queue_collect_push (decref_cown w c).1 c := by
    rw [queue_collect_some _ c l (by simpa [decref_cown, World.set_cown] using hl)]
    unfold queue_collect_push
    simp [decref_cown, World.set_cown, hl]
  rw [hq]

theorem release_nested_installed (w : World) (c : CownPtr) (h : w.work_list ≠ none) :
    (release_nested w c).work_list ≠ none := by
  unfold release_nested
  rw [release_with_eq]
  split_ifs
  · simpa [decref_cown, World.set_cown] using h
  · simpa [decref_cown, weak_fetch_sub, World.set_cown] using h
  · simpa [decref_cown, weak_fetch_sub, World.set_cown] using h
  · simp [queue_collect_push]
  · rw [weak_release_work_list]
    simpa [decref_cown, World.set_cown] using h

theorem collect_object_installed (w : World) (o : TracedObject) (h : w.work_list ≠ none) :
    collect_object release w o = collect_object release_nested w o ∧
    (collect_object release_nested w o).work_list ≠ none := by
  cases o with
  | iso o => exact ⟨rfl, h⟩
  | rc o => exact ⟨rfl, h⟩
  | scc_ptr o => exact ⟨rfl, h⟩
  | cown c => exact ⟨release_nested_eq w c h, release_nested_installed w c h⟩

theorem foldl_collect_installed (objs : List TracedObject) :
    ∀ w : World, w.work_list ≠ none →
      objs.foldl (collect_object release) w = objs.foldl (collect_object release_nested) w := by
  induction objs with
  | nil => exact fun _ _ => rfl
  | cons o rest ih =>
    intro w h
    rw [List.foldl_cons, List.foldl_cons, (collect_object_installed w o h).1]
    exact ih _ (collect_object_installed w o h).2

theorem collect_nested_eq (w : World) (c : CownPtr) (h : w.work_list ≠ none) :
    collect w c = collect_nested w c := by
  unfold collect collect_nested collect_with
  split
  · rfl
  · rw [foldl_collect_installed (w.payload c) _ (by simpa [World.log, World.set_cown] using h)]

theorem queue_collect_drain_step (n : Nat) (u : World) (a : CownPtr) (rest : List CownPtr)
    (hu : u.work_list = some (a :: rest)) :
    queue_collect_drain (n + 1) u =
      queue_collect_drain n (weak_release (collect { u with work_list := some rest } a) a) := by
  rw [queue_collect_drain, hu, collect_nested_eq _ a (by simp)]

theorem payload_sum_mono (ps : List (CownPtr × List TracedObject)) (col col2 : CownPtr → Bool)
    (h : ∀ x, col x = true → col2 x = true) :
    ((ps.filter (fun e => !col2 e.1)).map (fun e => e.2.length)).sum ≤
      ((ps.filter (fun e => !col e.1)).map (fun e => e.2.length)).sum := by
  induction ps with
  | nil => simp
  | cons e rest ih =>
    cases h1 : col e.1 <;> cases h2 : col2 e.1
    · simp only [List.filter_cons, h1, h2, Bool.not_false, if_true, List.map_cons,
        List.sum_cons]
      omega
    · simp only [List.filter_cons, h1, h2, Bool.not_false, Bool.not_true, if_true,
        Bool.false_eq_true, if_false, List.map_cons, List.sum_cons]
      omega
    · rw [h e.1 h1] at h2
      cases h2
    · simp only [List.filter_cons, h1, h2, Bool.not_true, Bool.false_eq_true, if_false]
      exact ih

theorem payload_sum_mark (ps : List (CownPtr × List TracedObject)) (col : CownPtr → Bool)
    (a : CownPtr) (ha : col a = false) :
    ((ps.filter (fun e => !(if e.1 = a then true else col e.1))).map
        (fun e => e.2.length)).sum +
      ((ps.filter (fun e => decide (e.1 = a))).flatMap Prod.snd).length =
    ((ps.filter (fun e => !col e.1)).map (fun e => e.2.length)).sum := by
  induction ps with
  | nil => simp
  | cons e rest ih =>
    obtain ⟨k, p⟩ := e
    by_cases he : k = a
    · subst he
      simp only [List.filter_cons, ha, if_true, Bool.not_true, Bool.false_eq_true, if_false,
        decide_True, Bool.not_false, List.flatMap_cons, List.length_append, List.map_cons,
        List.sum_cons]
      omega
    · cases hc : col k <;>
        simp only [List.filter_cons, he, hc, if_false, Bool.not_true, Bool.false_eq_true,
          decide_False, Bool.not_false, if_true, List.map_cons, List.sum_cons] <;>
        omega

theorem queue_collect_bound_frame {w v : World} (h : GcFrame w v) (k : Nat)
    (hl : (v.work_list.getD []).length ≤ (w.work_list.getD []).length + k) :
    queue_collect_bound v ≤ queue_collect_bound w + k := by
  unfold queue_collect_bound
  rw [h.payloads]
  have := payload_sum_mono w.payloads (fun x => (w.cowns x).collected)
    (fun x => (v.cowns x).collected) h.collected
  simp only at this
  omega

theorem release_nested_length (w : World) (c : CownPtr) :
    ((release_nested w c).work_list.getD []).length ≤ (w.work_list.getD []).length + 1 := by
  unfold release_nested
  rw [release_with_eq]
  split_ifs
  · simp [decref_cown, World.set_cown]
  · simp [decref_cown, weak_fetch_sub, World.set_cown]
  · simp [decref_cown, weak_fetch_sub, World.set_cown]
  · simp [queue_collect_push, decref_cown, World.set_cown]
  · rw [weak_release_work_list]
    simp [decref_cown, World.set_cown]

theorem collect_object_nested_frame (w : World) (o : TracedObject) :
    GcFrame w (collect_object release_nested w o) :=
  collect_object_frame release_nested
    (fun w c => (decref_cown_frame w c).trans (release_nested_frame w c)) w o

theorem collect_object_length (w : World) (o : TracedObject) :
    ((collect_object release_nested w o).work_list.getD []).length ≤
      (w.work_list.getD []).length + 1 := by
  cases o with
  | iso o => simp [collect_object, World.log]
  | rc o => simp [collect_object, World.log]
  | scc_ptr o => simp [collect_object, World.log]
  | cown c => exact release_nested_length w c

theorem foldl_collect_bound (objs : List TracedObject) :
    ∀ w : World, queue_collect_bound (objs.foldl (collect_object release_nested) w) ≤
      queue_collect_bound w + objs.length := by
  induction objs with
  | nil => exact fun w => le_refl _
  | cons o rest ih =>
    intro w
    rw [List.foldl_cons, List.length_cons]
    have h1 := queue_collect_bound_frame (collect_object_nested_frame w o) 1
      (collect_object_length w o)
    have h2 := ih (collect_object release_nested w o)
    omega

theorem collect_nested_bound (w : World) (a : CownPtr) :
    queue_collect_bound (collect_nested w a) ≤ queue_collect_bound w := by
  unfold collect_nested collect_with
  split
  · exact le_refl _
  · rename_i hc
    have hcol : (w.cowns a).collected = false := by
      simpa [is_collected] using hc
    have hmark : queue_collect_bound
        ((w.set_cown a { w.cowns a with collected := true }).log (Event.collect a)) +
        (w.payload a).length = queue_collect_bound w := by
      have h := payload_sum_mark w.payloads (fun x => (w.cowns x).collected) a hcol
      simp only at h
      unfold queue_collect_bound World.payload
      simp only [World.log, World.set_cown]
      have hf : (fun e : CownPtr × List TracedObject =>
          !(Function.update w.cowns a { w.cowns a with collected := true } e.1).collected) =
          (fun e => !(if e.1 = a then true else (w.cowns e.1).collected)) := by
        funext e
        obtain ⟨k, p⟩ := e
        by_cases he : k = a
        · subst he
          simp
        · simp [he, Function.update_noteq he]
      rw [hf]
      omega
    have hfold := foldl_collect_bound (w.payload a)
      ((w.set_cown a { w.cowns a with collected := true }).log (Event.collect a))
    have hlog : ∀ (v : World) (e : Event), queue_collect_bound (v.log e) =
        queue_collect_bound v := fun _ _ => rfl
    rw [hlog]
    omega

theorem weak_release_bound (w : World) (a : CownPtr) :
    queue_collect_bound (weak_release w a) ≤ queue_collect_bound w := by
  have h := queue_collect_bound_frame (weak_release_frame w a) 0
    (by rw [weak_release_work_list]; omega)
  omega

theorem queue_collect_drain_done (n : Nat) :
    ∀ w : World, queue_collect_bound w ≤ n →
      (queue_collect_drain n w).work_list.getD [] = [] := by
  induction n with
  | zero =>
    intro w h
    rw [queue_collect_drain]
    unfold queue_collect_bound at h
    exact List.length_eq_zero.mp (by omega)
  | succ n ih =>
    intro w h
    rw [queue_collect_drain]
    split
    · rename_i a rest hw
      apply ih
      have h1 := weak_release_bound (collect_nested { w with work_list := some rest } a) a
      have h2 := collect_nested_bound { w with work_list := some rest } a
      have h3 : queue_collect_bound { w with work_list := some rest } + 1 =
          queue_collect_bound w := by
        unfold queue_collect_bound
        simp only [hw, Option.getD_some, List.length_cons]
        omega
      omega
    · rename_i hw
      cases hl : w.work_list with
      | none => rfl
      | some l =>
        cases l with
        | nil => rfl
        | cons a rest => exact absurd hl (hw a rest)

theorem traced_cowns_cown (x : CownPtr) (rest : List TracedObject) :
    traced_cowns (TracedObject.cown x :: rest) = x :: traced_cowns rest := rfl

theorem traced_cowns_append (l k : List TracedObject) :
    traced_cowns (l ++ k) = traced_cowns l ++ traced_cowns k := by
  unfold traced_cowns
  exact List.filterMap_append _ _ _

theorem held_congr {u v : World} (hp : v.payloads = u.payloads)
    (hc : ∀ y, (v.cowns y).collected = (u.cowns y).collected) : v.held = u.held := by
  unfold World.held
  rw [hp]
  congr 1
  apply List.filter_congr
  intro e _
  rw [hc]

theorem held_mark (ps : List (CownPtr × List TracedObject)) (col : CownPtr → Bool)
    (a : CownPtr) (ha : col a = false) (x : CownPtr) :
    ((ps.filter (fun e => !(if e.1 = a then true else col e.1))).flatMap
        (fun e => traced_cowns e.2)).count x +
      (traced_cowns ((ps.filter (fun e => decide (e.1 = a))).flatMap Prod.snd)).count x =
    ((ps.filter (fun e => !col e.1)).flatMap (fun e => traced_cowns e.2)).count x := by
  induction ps with
  | nil => simp [traced_cowns]
  | cons e rest ih =>
    obtain ⟨k, p⟩ := e
    by_cases he : k = a
    · subst he
      simp only [List.filter_cons, ha, if_true, Bool.not_true, Bool.false_eq_true, if_false,
        decide_True, Bool.not_false, List.flatMap_cons, traced_cowns_append, List.count_append]
      omega
    · cases hc : col k <;>
        simp only [List.filter_cons, he, hc, if_false, Bool.not_true, Bool.false_eq_true,
          decide_False, Bool.not_false, if_true, List.flatMap_cons, List.count_append] <;>
        omega

theorem Collecting.same_cowns {w0 : World} {outside : CownPtr → Nat} {u v : World}
    {cur cur2 : List CownPtr} {rest : List TracedObject} (h : Collecting w0 outside u cur rest)
    (hc : v.cowns = u.cowns) (hp : v.payloads = u.payloads)
    (hw : cur2 ++ v.work_list.getD [] = cur ++ u.work_list.getD []) :
    Collecting w0 outside v cur2 rest := by
  have hh : v.held = u.held := held_congr hp (fun y => by rw [hc])
  refine ⟨?_, ?_, ?_, ?_, ?_⟩
  · intro x
    rw [hc, hh]
    exact h.counted x
  · intro x
    rw [hc]
    exact h.rc_le x
  · rw [hw]
    exact h.nodup
  · intro y hy
    rw [hw] at hy
    rw [hc]
    exact h.pending y hy
  · intro x
    rw [hc, hw]
    exact h.weak x

theorem Collecting.head_live {w0 : World} {outside : CownPtr → Nat} {u : World}
    {cur : List CownPtr} {x : CownPtr} {rest : List TracedObject}
    (h : Collecting w0 outside u cur (TracedObject.cown x :: rest)) :
    1 ≤ (u.cowns x).rc ∧ x ∉ cur ++ u.work_list.getD [] := by
  have hc := h.counted x
  rw [traced_cowns_cown, List.count_cons_self] at hc
  refine ⟨by omega, fun hm => ?_⟩
  have := (h.pending x hm).1
  omega

theorem Collecting.release_live {w0 : World} {outside : CownPtr → Nat} {u v : World}
    {cur : List CownPtr} {x : CownPtr} {rest : List TracedObject}
    (h : Collecting w0 outside u cur (TracedObject.cown x :: rest))
    (hp : v.payloads = u.payloads) (ho : ∀ y, y ≠ x → v.cowns y = u.cowns y)
    (hcol : (v.cowns x).collected = (u.cowns x).collected)
    (hrc : (v.cowns x).rc = (u.cowns x).rc - 1) (h2 : (u.cowns x).rc - 1 ≠ 0)
    (hwk : (v.cowns x).weak_count = (u.cowns x).weak_count)
    (hwl : v.work_list.getD [] = u.work_list.getD []) :
    Collecting w0 outside v cur rest := by
  obtain ⟨hpos, hnp⟩ := h.head_live
  have hh : v.held = u.held := held_congr hp (fun y => by
    by_cases hy : y = x
    · rw [hy, hcol]
    · rw [ho y hy])
  refine ⟨?_, ?_, ?_, ?_, ?_⟩
  · intro y
    have hc := h.counted y
    rw [traced_cowns_cown] at hc
    rw [hh]
    by_cases hy : y = x
    · rw [hy] at hc ⊢
      rw [List.count_cons_self] at hc
      omega
    · rw [List.count_cons_of_ne hy] at hc
      rw [ho y hy]
      exact hc
  · intro y
    have := h.rc_le y
    by_cases hy : y = x
    · rw [hy] at this ⊢
      omega
    · rw [ho y hy]
      exact this
  · rw [hwl]
    exact h.nodup
  · intro y hy
    rw [hwl] at hy
    have hyx : y ≠ x := fun e => hnp (e ▸ hy)
    rw [ho y hyx]
    exact h.pending y hy
  · intro y
    have hw := h.weak y
    rw [hwl]
    by_cases hy : y = x
    · rw [hy] at hw ⊢
      rw [if_neg (by omega)] at hw
      rw [if_neg (by omega), hwk]
      exact hw
    · rw [ho y hy]
      exact hw

theorem Collecting.release_last {w0 : World} {outside : CownPtr → Nat} {u v : World}
    {cur : List CownPtr} {x : CownPtr} {rest : List TracedObject}
    (h : Collecting w0 outside u cur (TracedObject.cown x :: rest)) (hW : WeakOwned w0)
    (hp : v.payloads = u.payloads) (ho : ∀ y, y ≠ x → v.cowns y = u.cowns y)
    (hcol : (v.cowns x).collected = (u.cowns x).collected)
    (hrc : (v.cowns x).rc = (u.cowns x).rc - 1) (h2 : (u.cowns x).rc - 1 = 0)
    (hwk : (v.cowns x).weak_count = (u.cowns x).weak_count - 1)
    (hwl : v.work_list.getD [] = u.work_list.getD []) :
    Collecting w0 outside v cur rest := by
  obtain ⟨hpos, hnp⟩ := h.head_live
  have hh : v.held = u.held := held_congr hp (fun y => by
    by_cases hy : y = x
    · rw [hy, hcol]
    · rw [ho y hy])
  refine ⟨?_, ?_, ?_, ?_, ?_⟩
  · intro y
    have hc := h.counted y
    rw [traced_cowns_cown] at hc
    rw [hh]
    by_cases hy : y = x
    · rw [hy] at hc ⊢
      rw [List.count_cons_self] at hc
      omega
    · rw [List.count_cons_of_ne hy] at hc
      rw [ho y hy]
      exact hc
  · intro y
    have := h.rc_le y
    by_cases hy : y = x
    · rw [hy] at this ⊢
      omega
    · rw [ho y hy]
      exact this
  · rw [hwl]
    exact h.nodup
  · intro y hy
    rw [hwl] at hy
    have hyx : y ≠ x := fun e => hnp (e ▸ hy)
    rw [ho y hyx]
    exact h.pending y hy
  · intro y
    have hw := h.weak y
    rw [hwl]
    by_cases hy : y = x
    · rw [hy] at hw ⊢
      rw [if_neg (by omega)] at hw
      have hr := h.rc_le x
      have hone := hW x (by omega)
      rw [if_pos ⟨by omega, by omega, hnp⟩, hwk]
      omega
    · rw [ho y hy]
      exact hw

theorem Collecting.release_push {w0 : World} {outside : CownPtr → Nat} {u v : World}
    {cur : List CownPtr} {x : CownPtr} {rest : List TracedObject}
    (h : Collecting w0 outside u cur (TracedObject.cown x :: rest))
    (hp : v.payloads = u.payloads) (ho : ∀ y, y ≠ x → v.cowns y = u.cowns y)
    (hcol : (v.cowns x).collected = (u.cowns x).collected)
    (hrc : (v.cowns x).rc = (u.cowns x).rc - 1) (h2 : (u.cowns x).rc - 1 = 0)
    (hwk : (v.cowns x).weak_count = (u.cowns x).weak_count)
    (hwl : v.work_list.getD [] = x :: u.work_list.getD []) :
    Collecting w0 outside v cur rest := by
  obtain ⟨hpos, hnp⟩ := h.head_live
  have hh : v.held = u.held := held_congr hp (fun y => by
    by_cases hy : y = x
    · rw [hy, hcol]
    · rw [ho y hy])
  have hmem : ∀ y, y ∈ cur ++ x :: u.work_list.getD [] ↔
      y = x ∨ y ∈ cur ++ u.work_list.getD [] := by
    intro y
    simp only [List.mem_append, List.mem_cons]
    tauto
  refine ⟨?_, ?_, ?_, ?_, ?_⟩
  · intro y
    have hc := h.counted y
    rw [traced_cowns_cown] at hc
    rw [hh]
    by_cases hy : y = x
    · rw [hy] at hc ⊢
      rw [List.count_cons_self] at hc
      omega
    · rw [List.count_cons_of_ne hy] at hc
      rw [ho y hy]
      exact hc
  · intro y
    have := h.rc_le y
    by_cases hy : y = x
    · rw [hy] at this ⊢
      omega
    · rw [ho y hy]
      exact this
  · rw [hwl]
    have hn := h.nodup
    rw [List.nodup_append] at hn ⊢
    obtain ⟨n1, n2, n3⟩ := hn
    refine ⟨n1, List.nodup_cons.mpr ⟨fun hm => hnp (List.mem_append_right _ hm), n2⟩, ?_⟩
    intro a ha hb
    rcases List.mem_cons.mp hb with hax | hal
    · exact hnp (List.mem_append_left _ (hax ▸ ha))
    · exact n3 ha hal
  · intro y hy
    rw [hwl, hmem] at hy
    rcases hy with hyx | hy
    · rw [hyx, hrc]
      have := h.rc_le x
      exact ⟨h2, by omega⟩
    · have hyx : y ≠ x := fun e => hnp (e ▸ hy)
      rw [ho y hyx]
      exact h.pending y hy
  · intro y
    have hw := h.weak y
    rw [hwl]
    by_cases hy : y = x
    · rw [hy] at hw ⊢
      rw [if_neg (by omega)] at hw
      rw [if_neg (fun hc => hc.2.2 ((hmem x).mpr (Or.inl rfl))), hwk]
      exact hw
    · rw [ho y hy]
      have hiff : (y ∉ cur ++ x :: u.work_list.getD []) ↔ (y ∉ cur ++ u.work_list.getD []) := by
        rw [hmem]
        simp [hy]
      simp only [hiff]
      exact hw

theorem weak_release_payloads (w : World) (c : CownPtr) :
    (weak_release w c).payloads = w.payloads := (weak_release_frame w c).payloads

theorem collecting_release_nested {w0 : World} {outside : CownPtr → Nat} {u : World}
    {cur : List CownPtr} {x : CownPtr} {rest : List TracedObject}
    (h : Collecting w0 outside u cur (TracedObject.cown x :: rest)) (hW : WeakOwned w0) :
    Collecting w0 outside (release_nested u x) cur rest := by
  have hd := decref_cown_self u x
  have hdo := decref_cown_other u x
  have hf := weak_fetch_sub_self (decref_cown u x).1 x
  have hfo := weak_fetch_sub_other (decref_cown u x).1 x
  unfold release_nested
  rw [release_with_eq]
  split_ifs with h1 h2 h3 h4
  · exact h.release_live rfl hdo (by rw [hd]) (by rw [hd]) h1 (by rw [hd]) rfl
  · exact h.release_last hW rfl (fun y hy => by rw [hfo y hy, hdo y hy]) (by rw [hf, hd])
      (by rw [hf, hd]) (by omega) (by rw [hf, hd]) rfl
  · exact h.release_last hW rfl (fun y hy => by rw [hfo y hy, hdo y hy]) (by rw [hf, hd])
      (by rw [hf, hd]) (by omega) (by rw [hf, hd]) rfl
  · exact h.release_push (v := queue_collect_push (decref_cown u x).1 x) rfl hdo
      (by show (((decref_cown u x).1.cowns x).collected = _); rw [hd])
      (by show (((decref_cown u x).1.cowns x).rc = _); rw [hd]) (by omega)
      (by show (((decref_cown u x).1.cowns x).weak_count = _); rw [hd])
      (by
        show (some (x :: (decref_cown u x).1.work_list.getD [])).getD [] = _
        have hwl : (decref_cown u x).1.work_list = u.work_list := rfl
        rw [hwl]
        rfl)
  · exact h.release_last hW (weak_release_payloads _ x)
      (fun y hy => by rw [weak_release_cowns, hfo y hy, hdo y hy])
      (by rw [weak_release_cowns, hf, hd]) (by rw [weak_release_cowns, hf, hd]) (by omega)
      (by rw [weak_release_cowns, hf, hd]) (by rw [weak_release_work_list]; rfl)

theorem Collecting.skip {w0 : World} {outside : CownPtr → Nat} {u : World}
    {cur : List CownPtr} {o : TracedObject} {rest : List TracedObject}
    (h : Collecting w0 outside u cur (o :: rest)) (ho : o.cown? = none) :
    Collecting w0 outside u cur rest := by
  refine ⟨?_, h.rc_le, h.nodup, h.pending, h.weak⟩
  intro x
  have hc := h.counted x
  have ht : traced_cowns (o :: rest) = traced_cowns rest := by
    unfold traced_cowns
    rw [List.filterMap_cons_none ho]
  rw [ht] at hc
  exact hc

theorem collecting_collect_object {w0 : World} {outside : CownPtr → Nat} {u : World}
    {cur : List CownPtr} {o : TracedObject} {rest : List TracedObject}
    (h : Collecting w0 outside u cur (o :: rest)) (hW : WeakOwned w0) :
    Collecting w0 outside (collect_object release_nested u o) cur rest := by
  cases o with
  | iso o => exact (h.skip rfl).same_cowns rfl rfl rfl
  | rc o => exact (h.skip rfl).same_cowns rfl rfl rfl
  | scc_ptr o => exact (h.skip rfl).same_cowns rfl rfl rfl
  | cown x => exact collecting_release_nested h hW

theorem collecting_foldl {w0 : World} {outside : CownPtr → Nat} {cur : List CownPtr}
    (hW : WeakOwned w0) (objs : List TracedObject) :
    ∀ u : World, Collecting w0 outside u cur objs →
      Collecting w0 outside (objs.foldl (collect_object release_nested) u) cur [] := by
  induction objs with
  | nil => exact fun u h => h
  | cons o rest ih => exact fun u h => ih _ (collecting_collect_object h hW)

theorem Collecting.mark {w0 : World} {outside : CownPtr → Nat} {u v : World}
    {a : CownPtr} (h : Collecting w0 outside u [a] []) (ha : (u.cowns a).collected = false)
    (hc : v.cowns = Function.update u.cowns a { u.cowns a with collected := true })
    (hp : v.payloads = u.payloads) (hw : v.work_list = u.work_list) :
    Collecting w0 outside v [a] (u.payload a) := by
  have hother : ∀ y, y ≠ a → v.cowns y = u.cowns y := by
    intro y hy
    rw [hc, Function.update_noteq hy]
  have hself : v.cowns a = { u.cowns a with collected := true } := by
    rw [hc, Function.update_same]
  have hrc : ∀ y, (v.cowns y).rc = (u.cowns y).rc := by
    intro y
    by_cases hy : y = a
    · rw [hy, hself]
    · rw [hother y hy]
  have hwk : ∀ y, (v.cowns y).weak_count = (u.cowns y).weak_count := by
    intro y
    by_cases hy : y = a
    · rw [hy, hself]
    · rw [hother y hy]
  refine ⟨?_, ?_, ?_, ?_, ?_⟩
  · intro x
    have hcnt := h.counted x
    have hm := held_mark u.payloads (fun y => (u.cowns y).collected) a ha x
    have hv : v.held = (u.payloads.filter (fun e =>
        !(if e.1 = a then true else (u.cowns e.1).collected))).flatMap
        (fun e => traced_cowns e.2) := by
      unfold World.held
      rw [hp]
      congr 1
      apply List.filter_congr
      intro e _
      by_cases he : e.1 = a
      · rw [he, hself]
        simp
      · rw [hother _ he]
        simp [he]
    simp only at hm
    rw [hrc, hv]
    unfold World.payload
    unfold World.held at hcnt
    simp only [traced_cowns, List.filterMap_nil, List.count_nil] at hcnt
    unfold traced_cowns at hm ⊢
    omega
  · intro x
    rw [hrc]
    exact h.rc_le x
  · rw [hw]
    exact h.nodup
  · intro y hy
    rw [hw] at hy
    rw [hrc]
    exact h.pending y hy
  · intro x
    rw [hrc, hwk, hw]
    exact h.weak x

theorem collecting_collect_nested {w0 : World} {outside : CownPtr → Nat} {u : World}
    {a : CownPtr} (h : Collecting w0 outside u [a] []) (hW : WeakOwned w0) :
    Collecting w0 outside (collect_nested u a) [a] [] := by
  unfold collect_nested collect_with
  split
  · exact h
  · rename_i hc
    have hcol : (u.cowns a).collected = false := by
      simpa [is_collected] using hc
    have hm : Collecting w0 outside
        ((u.set_cown a { u.cowns a with collected := true }).log (Event.collect a)) [a]
        (u.payload a) := h.mark hcol rfl rfl rfl
    exact (collecting_foldl hW _ _ hm).same_cowns rfl rfl rfl

theorem Collecting.weak_cur {w0 : World} {outside : CownPtr → Nat} {u v : World}
    {a : CownPtr} (h : Collecting w0 outside u [a] []) (hW : WeakOwned w0)
    (hp : v.payloads = u.payloads) (ho : ∀ y, y ≠ a → v.cowns y = u.cowns y)
    (hcol : (v.cowns a).collected = (u.cowns a).collected)
    (hrc : (v.cowns a).rc = (u.cowns a).rc)
    (hwk : (v.cowns a).weak_count = (u.cowns a).weak_count - 1)
    (hwl : v.work_list.getD [] = u.work_list.getD []) :
    Collecting w0 outside v [] [] := by
  have hh : v.held = u.held := held_congr hp (fun y => by
    by_cases hy : y = a
    · rw [hy, hcol]
    · rw [ho y hy])
  have hrcs : ∀ y, (v.cowns y).rc = (u.cowns y).rc := by
    intro y
    by_cases hy : y = a
    · rw [hy, hrc]
    · rw [ho y hy]
  have hn := h.nodup
  rw [List.singleton_append, List.nodup_cons] at hn
  have hpa := h.pending a (by simp)
  refine ⟨?_, ?_, ?_, ?_, ?_⟩
  · intro x
    rw [hrcs, hh]
    exact h.counted x
  · intro x
    rw [hrcs]
    exact h.rc_le x
  · rw [hwl, List.nil_append]
    exact hn.2
  · intro y hy
    rw [hwl, List.nil_append] at hy
    rw [hrcs]
    exact h.pending y (by simp [hy])
  · intro y
    have hw := h.weak y
    rw [hwl, hrcs, List.nil_append]
    by_cases hy : y = a
    · rw [hy] at hw ⊢
      rw [if_neg (fun hc => hc.2.2 (by simp))] at hw
      have hone := hW a hpa.2
      rw [if_pos ⟨hpa.2, hpa.1, hn.1⟩, hwk]
      omega
    · rw [ho y hy]
      have hiff : (y ∉ [a] ++ u.work_list.getD []) ↔ (y ∉ u.work_list.getD []) := by
        simp [hy]
      simp only [hiff] at hw
      exact hw

theorem collecting_weak_release {w0 : World} {outside : CownPtr → Nat} {u : World}
    {a : CownPtr} (h : Collecting w0 outside u [a] []) (hW : WeakOwned w0) :
    Collecting w0 outside (weak_release u a) [] [] := by
  have hf := weak_fetch_sub_self u a
  refine h.weak_cur hW (weak_release_payloads u a)
    (fun y hy => by rw [weak_release_cowns, weak_fetch_sub_other u a y hy])
    (by rw [weak_release_cowns, hf]) (by rw [weak_release_cowns, hf])
    (by rw [weak_release_cowns, hf]) (by rw [weak_release_work_list])

theorem collecting_drain {w0 : World} {outside : CownPtr → Nat} (hW : WeakOwned w0) (n : Nat) :
    ∀ u : World, Collecting w0 outside u [] [] →
      Collecting w0 outside (queue_collect_drain n u) [] [] := by
  induction n with
  | zero => exact fun u h => h
  | succ n ih =>
    intro u h
    rw [queue_collect_drain]
    split
    · rename_i a rest hw
      apply ih
      apply collecting_weak_release _ hW
      apply collecting_collect_nested _ hW
      exact h.same_cowns rfl rfl (by simp [hw])
    · exact h

theorem queue_collect_collected (w : World) (c : CownPtr) (h : w.work_list = none) :
    ((queue_collect w c).cowns c).collected = true := by
  rw [queue_collect_none w c h]
  show ((queue_collect_drain _ _).cowns c).collected = true
  apply (queue_collect_drain_frame _ _).collected c
  apply (weak_release_frame _ c).collected c
  rw [← collect_nested_eq _ c (by simp)]
  exact collect_collected _ c

theorem collecting_start (w : World) (c : CownPtr) (hS : StrongCounted w)
    (hc : w.held.count c < (w.cowns c).rc) (hw : w.work_list = none) :
    Collecting w (fun x => (w.cowns x).rc - w.held.count x - (if x = c then 1 else 0)) w []
      [TracedObject.cown c] := by
  refine ⟨?_, fun _ => Nat.le_refl _, by simp [hw], by simp [hw], ?_⟩
  · intro x
    have hx := hS x
    rw [traced_cowns_cown]
    simp only [traced_cowns, List.filterMap_nil]
    by_cases hxc : x = c
    · subst hxc
      rw [if_pos rfl, List.count_cons_self, List.count_nil]
      omega
    · rw [if_neg hxc, List.count_cons_of_ne hxc, List.count_nil]
      omega
  · intro x
    rw [if_neg (by omega)]
    rfl

theorem collecting_queue_collect {w0 : World} {outside : CownPtr → Nat} {u : World}
    {x : CownPtr} (h : Collecting w0 outside u [] [TracedObject.cown x]) (hW : WeakOwned w0)
    (h1 : (u.cowns x).rc - 1 = 0) (hwl : u.work_list = none) :
    Collecting w0 outside (queue_collect (decref_cown u x).1 x) [] [] := by
  have hd := decref_cown_self u x
  have hdl : (decref_cown u x).1.work_list = none := hwl
  have hp : Collecting w0 outside (queue_collect_push (decref_cown u x).1 x) [] [] :=
    h.release_push (v := queue_collect_push (decref_cown u x).1 x) rfl
      (decref_cown_other u x)
      (by show (((decref_cown u x).1.cowns x).collected = _); rw [hd])
      (by show (((decref_cown u x).1.cowns x).rc = _); rw [hd]) h1
      (by show (((decref_cown u x).1.cowns x).weak_count = _); rw [hd])
      (by
        show (some (x :: (decref_cown u x).1.work_list.getD [])).getD [] = _
        rw [hdl, hwl]
        rfl)
  have hi : Collecting w0 outside { (decref_cown u x).1 with work_list := some [] } [x] [] := by
    refine hp.same_cowns rfl rfl ?_
    show [x] ++ (some ([] : List CownPtr)).getD [] =
      [] ++ (some (x :: (decref_cown u x).1.work_list.getD [])).getD []
    rw [hdl]
    rfl
  have hw2 := collecting_weak_release (collecting_collect_nested hi hW) hW
  have hw3 := collecting_drain hW (queue_collect_bound
    (weak_release (collect_nested { (decref_cown u x).1 with work_list := some [] } x) x)) _ hw2
  have hdone := queue_collect_drain_done (queue_collect_bound
    (weak_release (collect_nested { (decref_cown u x).1 with work_list := some [] } x) x)) _
    (Nat.le_refl _)
  rw [queue_collect_none _ x hdl]
  refine hw3.same_cowns rfl rfl ?_
  rw [hdone]
  rfl

theorem release_work_list (w : World) (c : CownPtr) (h : w.work_list = none) :
    (release w c).work_list = none := by
  have hdl : (decref_cown w c).1.work_list = none := h
  rw [release_eq]
  split_ifs
  · exact hdl
  · exact hdl
  · exact hdl
  · rw [queue_collect_none _ c hdl]
  · rw [weak_release_work_list]
    exact hdl

theorem collecting_release (w : World) (c : CownPtr) (hS : StrongCounted w) (hW : WeakOwned w)
    (hc : w.held.count c < (w.cowns c).rc) (hw : w.work_list = none) :
    Collecting w (fun x => (w.cowns x).rc - w.held.count x - (if x = c then 1 else 0))
      (release w c) [] [] := by
  have h0 := collecting_start w c hS hc hw
  by_cases hq : (w.cowns c).rc - 1 = 0 ∧ w.teardown = false ∧ sweep_not_live w c = false ∧
      (w.cowns c).collected = false
  · rw [release_eq, if_neg (by simp [hq.1]), if_neg (by simp [hq.2.1]),
      if_neg (by simp [hq.2.2.1]), if_pos hq.2.2.2]
    exact collecting_queue_collect h0 hW hq.1 hw
  · have he : release w c = release_nested w c := by
      unfold release_nested
      rw [release_eq, release_with_eq]
      split_ifs with h1 h2 h3 h4
      · rfl
      · rfl
      · rfl
      · exact absurd ⟨by omega, by simpa using h2, by simpa using h3, h4⟩ hq
      · rfl
    rw [he]
    exact collecting_release_nested h0 hW

theorem owning_strong_counted : StrongCounted World.owning := by
  intro x
  have h : World.owning.held = [2] := by decide
  rw [h]
  exact List.count_le_length x [2]

theorem owning_weak_owned : WeakOwned World.owning := fun _ _ => Nat.le_refl 1

/-- C12. `release` on a cown that holds a strong reference (and with it the
weak reference that the strong count owns) takes one off the strong count.
When the result is not zero nothing else changes.  When it is zero, the weak
count of the cown is released on each path: with teardown in progress, or on a
sweeping worker with a cown that is not live, the world changes in that weak
count only; a collected cown is handed to `weak_release`; a cown not yet
collected goes to `queue_collect`, which inside a running `queue_collect`
pushes it on the work list of that call and otherwise collects the cown,
releases its weak count and then does the same for every cown that the
collections pushed, until the work list is empty.  Collecting a cown releases
the cowns that its data reaches, so one `release` can take many strong counts
to zero.  Counting all of them: started outside any `queue_collect`, in a world
where every reference in the data of an uncollected cown is counted in the
strong count of its target, where the weak count is at least 1 wherever the
strong count is, and where the caller owns the reference it releases,
`release` ends outside any `queue_collect`, keeps both properties, takes exactly
one off the weak count of each cown whose strong count it took to zero and
leaves every other weak count as it was, and lowers each strong count by
exactly the number of references it released. -/
theorem release_contract (w : World) (c : CownPtr) (hrc : 0 < (w.cowns c).rc)
    (hweak : 0 < (w.cowns c).weak_count) :
    ((release w c).cowns c).rc + 1 = (w.cowns c).rc ∧
    ((w.cowns c).rc ≠ 1 →
      release w c = w.set_cown c { w.cowns c with rc := (w.cowns c).rc - 1 }) ∧
    ((w.cowns c).rc = 1 → w.teardown = true ∨ sweep_not_live w c = true →
      release w c = w.set_cown c
        { w.cowns c with rc := 0, weak_count := (w.cowns c).weak_count - 1 } ∧
      ((release w c).cowns c).weak_count + 1 = (w.cowns c).weak_count) ∧
    ((w.cowns c).rc = 1 → w.teardown = false → sweep_not_live w c = false →
      (w.cowns c).collected = true →
      release w c = weak_release (w.set_cown c { w.cowns c with rc := 0 }) c ∧
      (∀ x, x ≠ c → (release w c).cowns x = w.cowns x) ∧
      ((release w c).cowns c).weak_count + 1 = (w.cowns c).weak_count) ∧
    (∀ l, (w.cowns c).rc = 1 → w.teardown = false → sweep_not_live w c = false →
      (w.cowns c).collected = false → w.work_list = some l →
      release w c =
        { w.set_cown c { w.cowns c with rc := 0 } with work_list := some (c :: l) }) ∧
    ((w.cowns c).rc = 1 → w.teardown = false → sweep_not_live w c = false →
      (w.cowns c).collected = false → w.work_list = none →
      ∃ u : World,
        u = weak_release
          (collect { w.set_cown c { w.cowns c with rc := 0 } with work_list := some [] } c) c ∧
        release w c =
          { queue_collect_drain (queue_collect_bound u) u with work_list := none } ∧
        (queue_collect_drain (queue_collect_bound u) u).work_list.getD [] = [] ∧
        ((release w c).cowns c).collected = true) ∧
    (StrongCounted w → WeakOwned w → w.work_list = none → w.held.count c < (w.cowns c).rc →
      StrongCounted (release w c) ∧ WeakOwned (release w c) ∧
      (release w c).work_list = none ∧
      (∀ x, ((release w c).cowns x).weak_count +
          (if 1 ≤ (w.cowns x).rc ∧ ((release w c).cowns x).rc = 0 then 1 else 0) =
        (w.cowns x).weak_count) ∧
      (∀ x, ((release w c).cowns x).rc + w.held.count x + (if x = c then 1 else 0) =
        (w.cowns x).rc + (release w c).held.count x) ∧
      (∀ x, ((release w c).cowns x).rc ≤ (w.cowns x).rc)) := by
  have hds : (decref_cown w c).1 = w.set_cown c { w.cowns c with rc := (w.cowns c).rc - 1 } :=
    rfl
  have hlast : (w.cowns c).rc = 1 →
      (decref_cown w c).1 = w.set_cown c { w.cowns c with rc := 0 } := by
    intro h
    rw [hds, h]
  have hfs : (w.cowns c).rc = 1 → (weak_fetch_sub (decref_cown w c).1 c).1 =
      w.set_cown c { w.cowns c with rc := 0, weak_count := (w.cowns c).weak_count - 1 } := by
    intro h
    rw [hlast h]
    simp [weak_fetch_sub, World.set_cown]
  refine ⟨?_, ?_, ?_, ?_, ?_, ?_, ?_⟩
  · rw [release_rc]
    omega
  · intro h
    rw [release_eq, if_pos (by omega)]
    rfl
  · intro h1 hts
    have he : release w c = w.set_cown c
        { w.cowns c with rc := 0, weak_count := (w.cowns c).weak_count - 1 } := by
      rw [release_eq, if_neg (by omega)]
      by_cases ht : w.teardown = true
      · rw [if_pos ht, hfs h1]
      · rw [if_neg ht, if_pos (hts.resolve_left ht), hfs h1]
    refine ⟨he, ?_⟩
    rw [he]
    simp only [set_cown_cowns, if_true]
    omega
  · intro h1 ht hsw hcol
    have he : release w c = weak_release (w.set_cown c { w.cowns c with rc := 0 }) c := by
      rw [release_eq, if_neg (by omega), if_neg (by simp [ht]), if_neg (by simp [hsw]),
        if_neg (by simp [hcol]), hlast h1]
    refine ⟨he, ?_, ?_⟩
    · intro x hx
      rw [he, weak_release_cowns, weak_fetch_sub_other _ c x hx]
      simp [set_cown_cowns, hx]
    · rw [he, weak_release_cowns, weak_fetch_sub_self]
      simp only [set_cown_cowns, if_true]
      omega
  · intro l h1 ht hsw hcol hwl
    rw [release_eq, if_neg (by omega), if_neg (by simp [ht]), if_neg (by simp [hsw]),
      if_pos hcol, queue_collect_some (decref_cown w c).1 c l hwl, hlast h1]
  · intro h1 ht hsw hcol hwl
    have hdl : (decref_cown w c).1.work_list = none := hwl
    have he : release w c = queue_collect (decref_cown w c).1 c := by
      rw [release_eq, if_neg (by omega), if_neg (by simp [ht]), if_neg (by simp [hsw]),
        if_pos hcol]
    refine ⟨_, rfl, ?_, ?_, ?_⟩
    · rw [he, queue_collect_none _ c hdl, hlast h1, collect_nested_eq _ c (by simp)]
    · rw [collect_nested_eq _ c (by simp)]
      rw [← hlast h1]
      exact queue_collect_drain_done _ _ (Nat.le_refl _)
    · rw [he]
      exact queue_collect_collected _ c hdl
  · intro hS hW hwl hc
    have T := collecting_release w c hS hW hc hwl
    have hnone := release_work_list w c hwl
    refine ⟨?_, ?_, hnone, ?_, ?_, T.rc_le⟩
    · intro x
      have h := T.counted x
      omega
    · intro x hx
      have h := T.weak x
      have hle := T.rc_le x
      have hw1 := hW x (by omega)
      rw [if_neg (by omega)] at h
      omega
    · intro x
      have h := T.weak x
      rw [hnone] at h
      simpa using h
    · intro x
      have h := T.counted x
      have hx := hS x
      simp only [traced_cowns, List.filterMap_nil, List.count_nil] at h
      by_cases hxc : x = c
      · subst hxc
        rw [if_pos rfl] at h ⊢
        omega
      · rw [if_neg hxc] at h ⊢
        omega

/-! ## C20: token uniqueness -/

theorem backpressure_transition_msgs_status (w : World) (c : CownPtr) (state : Priority)
    (exact : Bool) (x : CownPtr) :
    ((backpressure_transition w c state exact).1.cowns x).queue.msgs = (w.cowns x).queue.msgs ∧
    ((backpressure_transition w c state exact).1.cowns x).status = (w.cowns x).status := by
  unfold backpressure_transition
  simp only
  split_ifs <;>
    simp [schedule_cowns, queue_wake, World.log, set_cown_cowns, MPSCQ.wake] <;>
    split <;> simp_all

theorem backpressure_unblock_msgs_status (fuel : Nat) :
    ∀ (w : World) (p : Option CownPtr) (x : CownPtr),
      ((backpressure_unblock fuel w p).world.cowns x).queue.msgs = (w.cowns x).queue.msgs ∧
      ((backpressure_unblock fuel w p).world.cowns x).status = (w.cowns x).status := by
  induction fuel with
  | zero =>
    intro w p x
    cases p <;> exact ⟨rfl, rfl⟩
  | succ f ih =>
    intro w p x
    cases p with
    | none => exact ⟨rfl, rfl⟩
    | some c =>
      show ((backpressure_unblock f _ _).world.cowns x).queue.msgs = _ ∧
        ((backpressure_unblock f _ _).world.cowns x).status = _
      rw [(ih _ _ x).1, (ih _ _ x).2]
      exact backpressure_transition_msgs_status w c Priority.High false x

theorem send_msgs_status (transfer : TransferOwnership) (try_fast : TryFastSend) (w : World)
    (c : CownPtr) (m : MultiMessage) :
    ((send transfer try_fast w c m).1.cowns c).queue.msgs = (w.cowns c).queue.msgs ++ [m] ∧
    ((send transfer try_fast w c m).1.cowns c).status = (w.cowns c).status := by
  have hrel := release_frame (queue_enqueue w c m).1 c
  have hq := hrel.queue c
  have hs := hrel.status c
  unfold send
  simp only
  split_ifs <;>
    simp_all [schedule_cowns, acquire, queue_enqueue, decref_cown, set_cown_cowns,
      MPSCQ.enqueue]

theorem check_message_token_null (fuel : Nat) (w : World) (c : CownPtr) :
    ((check_message_token fuel w c none).1.world.cowns c).queue.msgs = (w.cowns c).queue.msgs ∧
    ((check_message_token fuel w c none).1.world.cowns c).status.has_token = false := by
  unfold check_message_token
  simp only
  split_ifs
  · rw [(backpressure_unblock_msgs_status fuel _ _ c).1,
      (backpressure_unblock_msgs_status fuel _ _ c).2]
    simp [set_cown_cowns, Status.set_has_token, Status.has_token]
  · rw [(backpressure_transition_msgs_status _ c _ _ c).1,
      (backpressure_transition_msgs_status _ c _ _ c).2]
    simp [set_cown_cowns, Status.set_has_token, Status.has_token]
  · rw [(backpressure_transition_msgs_status _ c _ _ c).1,
      (backpressure_transition_msgs_status _ c _ _ c).2]
    simp [set_cown_cowns, Status.set_has_token, Status.has_token]
  · simp [set_cown_cowns, Status.set_has_token, Status.has_token]

theorem check_message_token_body (fuel : Nat) (w : World) (c : CownPtr) (body : BodyPtr) :
    ((check_message_token fuel w c (some body)).1.world.cowns c).status.has_token = true ∧
    ((w.cowns c).status.has_token = true →
      ((check_message_token fuel w c (some body)).1.world.cowns c).queue.msgs =
        (w.cowns c).queue.msgs) ∧
    ((w.cowns c).status.has_token = false →
      ((check_message_token fuel w c (some body)).1.world.cowns c).queue.msgs =
        (w.cowns c).queue.msgs ++ [⟨w.next_addr, none, EpochMark.EPOCH_NONE⟩]) := by
  unfold check_message_token
  simp only
  split_ifs <;>
    simp only [backpressure_unblock_msgs_status] <;>
    cases ht : (w.cowns c).status.token <;>
    simp_all [set_cown_cowns, Status.set_has_token, Status.has_token, Status.reset_load,
      Status.inc_load, stub_msg, make_message, queue_enqueue, MPSCQ.enqueue]

theorem queue_dequeue_notify_fields (w : World) (c : CownPtr) :
    ((queue_dequeue_notify w c).1.cowns c).status = (w.cowns c).status ∧
    ((queue_dequeue_notify w c).1.cowns c).queue.msgs = (w.cowns c).queue.msgs.tail ∧
    (queue_dequeue_notify w c).2.1 = (w.cowns c).queue.msgs.head? ∧
    (queue_dequeue_notify w c).1.next_addr = w.next_addr := by
  unfold queue_dequeue_notify MPSCQ.dequeue_notify MPSCQ.dequeue
  cases h : (w.cowns c).queue.msgs <;> simp [h, set_cown_cowns, World.set_cown]

theorem queue_op_invariant (fuel : Nat) (c : CownPtr) (w : World) (op : QueueOp)
    (hop : op.carries_body = true) (hinv : token_invariant w c) :
    ∃ v, queue_op fuel c w op = some v ∧ token_invariant v c := by
  unfold token_invariant token_count at *
  cases op with
  | arrive transfer try_fast m =>
    refine ⟨_, rfl, ?_⟩
    have hs := send_msgs_status transfer try_fast w c m
    have hm : m.body ≠ none := by
      intro h
      simp [QueueOp.carries_body, h] at hop
    rw [hs.1, hs.2, List.filter_append]
    simpa [hm] using hinv
  | process =>
    obtain ⟨h1, h2, h3, _⟩ := queue_dequeue_notify_fields w c
    unfold queue_op
    simp only
    cases hq : (w.cowns c).queue.msgs with
    | nil =>
      rw [h3, hq]
      refine ⟨_, rfl, ?_⟩
      rw [h1, h2, hq]
      rw [hq] at hinv
      simpa using hinv
    | cons m rest =>
      rw [h3, hq]
      rw [hq] at hinv h2
      simp only [List.head?_cons, List.tail_cons] at h2 ⊢
      cases hb : m.body with
      | none =>
        have hinv2 : 1 + (rest.filter (fun m => decide (m.body = none))).length =
            if (w.cowns c).status.has_token = true then 1 else 0 := by
          simpa [List.filter_cons, hb, Nat.add_comm] using hinv
        have ht : (w.cowns c).status.has_token = true := by
          by_contra hneg
          simp [hneg] at hinv2
        have hrest : (rest.filter (fun m => decide (m.body = none))).length = 0 := by
          simp [ht] at hinv2
          simpa using hinv2
        refine ⟨(check_message_token fuel (queue_dequeue_notify w c).1 c none).1.world,
          by simp [h1, ht], ?_⟩
        have hc := check_message_token_null fuel (queue_dequeue_notify w c).1 c
        rw [hc.1, hc.2, h2, hrest]
        simp
      | some b =>
        have hinv2 : (rest.filter (fun m => decide (m.body = none))).length =
            if (w.cowns c).status.has_token = true then 1 else 0 := by
          simpa [List.filter_cons, hb] using hinv
        refine ⟨(check_message_token fuel (queue_dequeue_notify w c).1 c (some b)).1.world,
          by simp, ?_⟩
        have hc := check_message_token_body fuel (queue_dequeue_notify w c).1 c b
        rw [hc.1]
        cases ht : (w.cowns c).status.has_token with
        | true =>
          rw [hc.2.1 (by rw [h1]; exact ht), h2, hinv2, ht]
        | false =>
          rw [hc.2.2 (by rw [h1]; exact ht), h2, List.filter_append, List.length_append, hinv2, ht]
          simp

theorem queue_ops_invariant (fuel : Nat) (c : CownPtr) (ops : List QueueOp) :
    ∀ w : World, (∀ op ∈ ops, op.carries_body = true) → token_invariant w c →
      ∃ v, queue_ops fuel c ops w = some v ∧ token_invariant v c := by
  induction ops with
  | nil =>
    intro w _ h
    exact ⟨w, rfl, h⟩
  | cons op rest ih =>
    intro w hops hinv
    obtain ⟨v, hv, hvi⟩ := queue_op_invariant fuel c w op (hops op (List.mem_cons_self _ _)) hinv
    obtain ⟨u, hu, hui⟩ := ih v (fun o ho => hops o (List.mem_cons_of_mem _ ho)) hvi
    refine ⟨u, ?_, hui⟩
    unfold queue_ops
    rw [hv]
    exact hu

/-- C20. Token uniqueness.  Start from a cown whose has-token flag is clear
and whose queue holds no token, and apply any sequence of queue operations:
nodes with a body arriving from producers, and the run loop dequeuing the
oldest node and passing its body to `check_message_token`.  The sequence runs
through without the assertion `has_token` failing at a dequeued token, and
afterwards the queue holds at most one token and the has-token flag is set
exactly when one token is queued. -/
theorem token_uniqueness (fuel : Nat) (c : CownPtr) (ops : List QueueOp) (w : World)
    (hflag : (w.cowns c).status.has_token = false)
    (hqueue : token_count (w.cowns c).queue = 0)
    (hops : ∀ op ∈ ops, op.carries_body = true) :
    ∃ v, queue_ops fuel c ops w = some v ∧
      token_count (v.cowns c).queue ≤ 1 ∧
      ((v.cowns c).status.has_token = true ↔ token_count (v.cowns c).queue = 1) := by
  have hinv : token_invariant w c := by
    unfold token_invariant
    rw [hqueue, hflag]
    simp
  obtain ⟨v, hv, hvi⟩ := queue_ops_invariant fuel c ops w hops hinv
  refine ⟨v, hv, ?_, ?_⟩
  · unfold token_invariant at hvi
    rw [hvi]
    split <;> omega
  · unfold token_invariant at hvi
    rw [hvi]
    cases (v.cowns c).status.has_token <;> simp

/-! ## C18: `run` on an empty queue -/

theorem backpressure_transition_not_low (w : World) (c : CownPtr) (state : Priority)
    (exact : Bool) (h : priority w c ≠ Priority.Low) :
    ((backpressure_transition w c state exact).1.cowns c).rc = (w.cowns c).rc ∧
    ((backpressure_transition w c state exact).1.cowns c).queue = (w.cowns c).queue ∧
    (backpressure_transition w c state exact).1.should_scan = w.should_scan := by
  unfold backpressure_transition priority at *
  simp only
  split_ifs <;> simp_all [set_cown_cowns, World.set_cown]

theorem foldl_enqueue_cown (c : CownPtr) (arrivals : List MultiMessage) :
    ∀ w : World,
      ((arrivals.foldl (fun v m => (queue_enqueue v c m).1) w).cowns c).rc = (w.cowns c).rc ∧
      ((arrivals.foldl (fun v m => (queue_enqueue v c m).1) w).cowns c).bp_state =
        (w.cowns c).bp_state ∧
      ((arrivals.foldl (fun v m => (queue_enqueue v c m).1) w).cowns c).queue.msgs =
        (w.cowns c).queue.msgs ++ arrivals ∧
      ((arrivals.foldl (fun v m => (queue_enqueue v c m).1) w).cowns c).queue.notified =
        (w.cowns c).queue.notified := by
  induction arrivals with
  | nil => intro w; simp
  | cons m rest ih =>
    intro w
    obtain ⟨h1, h2, h3, h4⟩ := ih (queue_enqueue w c m).1
    simp only [List.foldl_cons]
    rw [h1, h2, h3, h4]
    simp [queue_enqueue, MPSCQ.enqueue, set_cown_cowns]

theorem batch_limit_pos (t : Nat) : ∃ k, batch_limit t = k + 1 := by
  have h : 100 ≤ batch_limit t :=
    Nat.le_of_testBit (by simp [batch_limit]; intro i hi; simp [hi])
  exact ⟨batch_limit t - 1, by omega⟩

theorem run_first_dequeue_empty (ext : Externals) (fuel : Nat) (arrivals : List MultiMessage)
    (w : World) (c : CownPtr) (hq : (w.cowns c).queue.msgs = [])
    (hn : (w.cowns c).queue.notified = false) (hs : w.should_scan = false) :
    run ext fuel arrivals w c =
      if (queue_mark_sleeping (run_at_mark_sleeping arrivals w c) c).2.1 = false then
        (if (queue_mark_sleeping (run_at_mark_sleeping arrivals w c) c).2.2 = true then
          cown_notified (queue_mark_sleeping (run_at_mark_sleeping arrivals w c) c).1 c
        else some (queue_mark_sleeping (run_at_mark_sleeping arrivals w c) c).1).map
          (fun v => (⟨v, true⟩, true))
      else some (⟨release (queue_mark_sleeping (run_at_mark_sleeping arrivals w c) c).1 c, true⟩,
        false) := by
  obtain ⟨k, hk⟩ := batch_limit_pos (ext.total_load (w.cowns c).status)
  have hd1 : (queue_dequeue_notify w c).2.1 = none := by
    simp [queue_dequeue_notify, MPSCQ.dequeue_notify, MPSCQ.dequeue, hq]
  have hd2 : (queue_dequeue_notify w c).2.2 = false := by
    simp [queue_dequeue_notify, MPSCQ.dequeue_notify, hn]
  have hd3 : (queue_dequeue_notify w c).1.should_scan = false := by
    simp [queue_dequeue_notify, World.set_cown, hs]
  unfold run
  simp only
  rw [hk]
  unfold run_loop
  simp only [hd1, hd2, hd3, run_at_mark_sleeping]
  simp only [Bool.and_false, Bool.false_eq_true, if_false, ne_eq, not_true_eq_false]
  split_ifs <;> simp_all
  cases cown_notified (queue_mark_sleeping
    (List.foldl (fun v m => (queue_enqueue v c m).1)
      (backpressure_transition (queue_dequeue_notify w c).1 c Priority.Normal true).1 arrivals)
    c).1 c <;> rfl

theorem run_at_mark_sleeping_cown (arrivals : List MultiMessage) (w : World) (c : CownPtr)
    (hp : priority w c ≠ Priority.Low) (hq : (w.cowns c).queue.msgs = []) :
    ((run_at_mark_sleeping arrivals w c).cowns c).rc = (w.cowns c).rc ∧
    ((run_at_mark_sleeping arrivals w c).cowns c).bp_state =
      ⟨blocker w c, Priority.Normal⟩ ∧
    ((run_at_mark_sleeping arrivals w c).cowns c).queue.msgs = arrivals ∧
    ((run_at_mark_sleeping arrivals w c).cowns c).queue.notified = false := by
  have hdq : (queue_dequeue_notify w c).1.cowns c =
      { w.cowns c with queue := { (w.cowns c).queue with notified := false } } := by
    simp [queue_dequeue_notify, MPSCQ.dequeue_notify, MPSCQ.dequeue, hq, set_cown_cowns]
  have hpd : priority (queue_dequeue_notify w c).1 c ≠ Priority.Low := by
    unfold priority at *
    rw [hdq]
    exact hp
  obtain ⟨h1, h2, _⟩ := backpressure_transition_not_low (queue_dequeue_notify w c).1 c
    Priority.Normal true hpd
  have h3 := backpressure_transition_priority (queue_dequeue_notify w c).1 c
    Priority.Normal true (by simp)
  have h4 := backpressure_transition_blocker (queue_dequeue_notify w c).1 c
    Priority.Normal true c
  obtain ⟨f1, f2, f3, f4⟩ := foldl_enqueue_cown c arrivals
    (backpressure_transition (queue_dequeue_notify w c).1 c Priority.Normal true).1
  unfold run_at_mark_sleeping
  unfold priority at h3
  unfold blocker at h4 ⊢
  rw [f1, f2, f3, f4, h1, h2, hdq]
  refine ⟨rfl, ?_, by simp [hq], rfl⟩
  rw [hdq] at h4
  cases hb : ((backpressure_transition (queue_dequeue_notify w c).1 c
    Priority.Normal true).1.cowns c).bp_state with
  | mk b p =>
    rw [hb] at h3 h4
    simp only at h3 h4
    rw [h3, h4]

/-- C18. `run` on a cown whose priority is not `Low`, whose first dequeue
finds no node and no notification, with no scan pending, and which holds the
strong reference of the scheduler.  `mark_sleeping` succeeds exactly when no
producer enqueued in the meantime.  When it succeeds `run` returns false (do
not reschedule) with the queue sleeping, the priority `Normal` whatever it was
before, the blocker unchanged and the strong count one lower.  When it fails
`run` returns true (reschedule) and the strong count is unchanged. -/
theorem run_empty_queue (ext : Externals) (fuel : Nat) (arrivals : List MultiMessage)
    (w : World) (c : CownPtr) (hp : priority w c ≠ Priority.Low)
    (hq : (w.cowns c).queue.msgs = []) (hn : (w.cowns c).queue.notified = false)
    (hs : w.should_scan = false) (hrc : 0 < (w.cowns c).rc) :
    ((queue_mark_sleeping (run_at_mark_sleeping arrivals w c) c).2.1 = true ↔ arrivals = []) ∧
    ((queue_mark_sleeping (run_at_mark_sleeping arrivals w c) c).2.1 = true →
      ∃ v, run ext fuel arrivals w c = some (⟨v, true⟩, false) ∧
        (v.cowns c).queue.sleeping = true ∧
        priority v c = Priority.Normal ∧
        blocker v c = blocker w c ∧
        (v.cowns c).rc + 1 = (w.cowns c).rc) ∧
    ((queue_mark_sleeping (run_at_mark_sleeping arrivals w c) c).2.1 = false →
      ∃ v, run ext fuel arrivals w c = some (⟨v, true⟩, true) ∧
        (v.cowns c).rc = (w.cowns c).rc) := by
  obtain ⟨p1, p2, p3, p4⟩ := run_at_mark_sleeping_cown arrivals w c hp hq
  have hrun := run_first_dequeue_empty ext fuel arrivals w c hq hn hs
  have hms : queue_mark_sleeping (run_at_mark_sleeping arrivals w c) c =
      if arrivals ≠ [] then
        ((run_at_mark_sleeping arrivals w c).set_cown c
          ((run_at_mark_sleeping arrivals w c).cowns c), false, false)
      else
        ((run_at_mark_sleeping arrivals w c).set_cown c
          { (run_at_mark_sleeping arrivals w c).cowns c with
            queue := { ((run_at_mark_sleeping arrivals w c).cowns c).queue with
              sleeping := true } }, true, false) := by
    unfold queue_mark_sleeping MPSCQ.mark_sleeping
    simp only [p3, p4]
    by_cases h : arrivals = [] <;> simp [h]
  refine ⟨?_, ?_, ?_⟩
  · rw [hms]
    split_ifs <;> simp_all
  · intro hslept
    have harr : arrivals = [] := by
      rw [hms] at hslept
      by_contra hne
      simp [hne] at hslept
    rw [hrun, if_neg (by simp [hslept])]
    refine ⟨_, rfl, ?_, ?_, ?_, ?_⟩
    · rw [(release_frame _ c).queue c, hms]
      simp [harr, decref_cown, set_cown_cowns]
    · unfold priority
      rw [(release_frame _ c).bp_state c, hms]
      simp [harr, decref_cown, set_cown_cowns]
      rw [← harr, p2]
    · unfold blocker
      rw [(release_frame _ c).bp_state c, hms]
      simp [harr, decref_cown, set_cown_cowns]
      rw [← harr, p2]
      rfl
    · rw [release_rc _ c, hms]
      simp [harr, set_cown_cowns]
      rw [← harr, p1]
      omega
  · intro hfail
    have harr : arrivals ≠ [] := by
      rw [hms] at hfail
      intro he
      simp [he] at hfail
    rw [hrun, if_pos hfail, hms]
    simp only [harr, ne_eq, not_false_eq_true, if_true, Bool.false_eq_true, if_false,
      Option.map_some]
    exact ⟨_, rfl, by simp [set_cown_cowns, p1]⟩

/-! ## The loop of `fast_send`, one iteration at a time -/

theorem fast_send_loop_succ (high : Priority → Bool) (fuel : Nat) (body : BodyPtr)
    (epoch : EpochMark) (last n : Nat) (w : World) (hp : Bool) :
    fast_send_loop high fuel body epoch last (n + 1) w hp =
      if h : (w.bodies body).index < (w.bodies body).cowns.length then
        if !(fast_send_sent high w body epoch hp h).2 then
          if !(fast_send_hop high w body epoch hp h).2 then
            ⟨(fast_send_sent high w body epoch hp h).1, true⟩
          else backpressure_unblock fuel (fast_send_sent high w body epoch hp h).1
            (some (fast_send_next w body h))
        else if (w.bodies body).index = last then
          ⟨schedule (fast_send_sent high w body epoch hp h).1 (fast_send_next w body h), true⟩
        else
          fast_send_loop high fuel body epoch last n
            (advance_index (queue_dequeue (fast_send_sent high w body epoch hp h).1
              (fast_send_next w body h)).1 body)
            (fast_send_hop high w body epoch hp h).2
      else ⟨w, true⟩ := by
  rw [fast_send_loop]
  simp only [fast_send_sent, fast_send_next, fast_send_hop, advance_index, make_message]

theorem fast_send_hop_frame (high : Priority → Bool) (w : World) (body : BodyPtr)
    (epoch : EpochMark) (hp : Bool) (h : (w.bodies body).index < (w.bodies body).cowns.length) :
    (fast_send_hop high w body epoch hp h).1.bodies = w.bodies ∧
    (fast_send_hop high w body epoch hp h).1.next_addr = w.next_addr + 1 ∧
    (fast_send_hop high w body epoch hp h).1.trace = w.trace ∧
    (fast_send_hop high w body epoch hp h).1.sched = w.sched ∧
    (∀ x, (fast_send_hop high w body epoch hp h).1.cowns x =
      { w.cowns x with bp_state :=
        ⟨blocker (fast_send_hop high w body epoch hp h).1 x, priority w x⟩ }) ∧
    (∀ x, blocker (fast_send_hop high w body epoch hp h).1 x = blocker w x ∨
      (0 < (w.bodies body).index ∧
        (w.bodies body).cowns[(w.bodies body).index - 1]? = some x ∧
        blocker (fast_send_hop high w body epoch hp h).1 x =
          some (fast_send_next w body h))) ∧
    (∀ x, (w.bodies body).cowns[(w.bodies body).index - 1]? ≠ some x →
      (fast_send_hop high w body epoch hp h).1.cowns x = w.cowns x) ∧
    ((fast_send_hop high w body epoch hp h).2 = true →
      hp = true ∨ ∃ x ∈ (w.bodies body).cowns, high (priority w x) = true) := by
  unfold fast_send_hop
  split_ifs with h0 h1
  · have hlt : (w.bodies body).index - 1 < (w.bodies body).cowns.length := by omega
    refine ⟨rfl, rfl, rfl, rfl, ?_, ?_, ?_, ?_⟩
    · intro x
      simp only [set_blocker, make_message, blocker, priority, set_cown_cowns]
      split <;> simp_all
    · intro x
      by_cases hx : x = (w.bodies body).cowns[(w.bodies body).index - 1]
      · right
        refine ⟨h0, ?_, ?_⟩
        · rw [hx]
          exact List.getElem?_eq_getElem hlt
        · simp [set_blocker, make_message, blocker, set_cown_cowns, hx, fast_send_next]
      · left
        simp [set_blocker, make_message, blocker, set_cown_cowns, hx]
    · intro x hx
      have hne : x ≠ (w.bodies body).cowns[(w.bodies body).index - 1] := by
        intro he
        apply hx
        rw [he]
        exact List.getElem?_eq_getElem hlt
      simp [set_blocker, make_message, set_cown_cowns, hne]
    · intro hres
      right
      refine ⟨(w.bodies body).cowns[(w.bodies body).index - 1], List.getElem_mem _, ?_⟩
      simpa [set_blocker, make_message, priority] using hres
  · refine ⟨rfl, rfl, rfl, rfl, fun x => rfl, fun x => Or.inl rfl, fun x _ => rfl, ?_⟩
    intro hres
    simp only [Bool.not_eq_true, Bool.not_eq_eq_eq_not, Bool.not_true, Bool.or_eq_false_iff,
      not_and, Bool.not_eq_false] at h1
    simp only [Bool.or_eq_true] at hres
    rcases hres with hres | hres
    · exact Or.inl hres
    · right
      have hlt : (w.bodies body).index - 1 < (w.bodies body).cowns.length := by omega
      exact ⟨(w.bodies body).cowns[(w.bodies body).index - 1], List.getElem_mem _,
        by simpa [make_message, priority] using hres⟩
  · exact ⟨rfl, rfl, rfl, rfl, fun x => rfl, fun x => Or.inl rfl, fun x _ => rfl,
      fun hres => Or.inl hres⟩

theorem send_fast_sleeping (w : World) (c : CownPtr) (m : MultiMessage)
    (hs : (w.cowns c).queue.sleeping = true) :
    send TransferOwnership.YesTransfer TryFastSend.YesTryFast w c m =
      ((queue_enqueue w c m).1, true) := by
  simp [send, queue_enqueue, MPSCQ.enqueue, hs]

theorem send_fast_awake (w : World) (c : CownPtr) (m : MultiMessage)
    (hs : (w.cowns c).queue.sleeping = false) :
    send TransferOwnership.YesTransfer TryFastSend.YesTryFast w c m =
      (release (queue_enqueue w c m).1 c, false) := by
  simp [send, queue_enqueue, MPSCQ.enqueue, hs]

theorem send_bp_state (transfer : TransferOwnership) (try_fast : TryFastSend) (w : World)
    (c : CownPtr) (m : MultiMessage) (x : CownPtr) :
    ((send transfer try_fast w c m).1.cowns x).bp_state = (w.cowns x).bp_state := by
  have hrel := (release_frame (queue_enqueue w c m).1 c).bp_state x
  unfold send
  simp only
  split_ifs <;>
    simp_all [schedule_cowns, acquire, queue_enqueue, decref_cown, set_cown_cowns] <;>
    split <;> simp_all

theorem backpressure_unblock_blocker (fuel : Nat) :
    ∀ (w : World) (p : Option CownPtr) (x : CownPtr),
      blocker (backpressure_unblock fuel w p).world x = blocker w x := by
  induction fuel with
  | zero =>
    intro w p x
    cases p <;> rfl
  | succ f ih =>
    intro w p x
    cases p with
    | none => rfl
    | some c =>
      show blocker (backpressure_unblock f _ _).world x = blocker w x
      rw [ih, backpressure_transition_blocker]

theorem fast_send_sent_frame (high : Priority → Bool) (w : World) (body : BodyPtr)
    (epoch : EpochMark) (hp : Bool) (h : (w.bodies body).index < (w.bodies body).cowns.length) :
    (fast_send_sent high w body epoch hp h).1.bodies = w.bodies ∧
    (∀ x, blocker (fast_send_sent high w body epoch hp h).1 x =
      blocker (fast_send_hop high w body epoch hp h).1 x) ∧
    (∀ x, priority (fast_send_sent high w body epoch hp h).1 x = priority w x) := by
  obtain ⟨h1, _, _, _, h5, _, _, _⟩ := fast_send_hop_frame high w body epoch hp h
  unfold fast_send_sent
  refine ⟨by rw [send_bodies, h1], ?_, ?_⟩
  · intro x
    unfold blocker
    rw [send_bp_state]
  · intro x
    unfold priority
    rw [send_bp_state, h5 x]
    rfl

theorem advance_index_body (w : World) (body : BodyPtr) :
    ((advance_index w body).bodies body).cowns = (w.bodies body).cowns ∧
    ((advance_index w body).bodies body).index = (w.bodies body).index + 1 ∧
    (advance_index w body).cowns = w.cowns ∧
    (advance_index w body).trace = w.trace ∧
    (advance_index w body).next_addr = w.next_addr := by
  simp [advance_index]

theorem fast_send_loop_blockers (high : Priority → Bool) (fuel : Nat) (body : BodyPtr)
    (epoch : EpochMark) (last : Nat) (cowns : List CownPtr) :
    ∀ (n : Nat) (w : World) (hp : Bool), (w.bodies body).cowns = cowns →
      (w.bodies body).index ≤
        ((fast_send_loop high fuel body epoch last n w hp).world.bodies body).index ∧
      ∀ x, blocker (fast_send_loop high fuel body epoch last n w hp).world x = blocker w x ∨
        ∃ k y, cowns[k]? = some x ∧ cowns[k + 1]? = some y ∧
          blocker (fast_send_loop high fuel body epoch last n w hp).world x = some y := by
  intro n
  induction n with
  | zero =>
    intro w hp _
    exact ⟨le_refl _, fun x => Or.inl rfl⟩
  | succ n ih =>
    intro w hp hc
    rw [fast_send_loop_succ]
    split
    · rename_i h
      obtain ⟨_, _, _, _, _, g6, _, _⟩ := fast_send_hop_frame high w body epoch hp h
      obtain ⟨s1, s2, _⟩ := fast_send_sent_frame high w body epoch hp h
      have hblk : ∀ x, blocker (fast_send_sent high w body epoch hp h).1 x = blocker w x ∨
          ∃ k y, cowns[k]? = some x ∧ cowns[k + 1]? = some y ∧
            blocker (fast_send_sent high w body epoch hp h).1 x = some y := by
        intro x
        rw [s2 x]
        rcases g6 x with g | ⟨g0, g1, g2⟩
        · exact Or.inl g
        · right
          refine ⟨(w.bodies body).index - 1, fast_send_next w body h, by rw [← hc]; exact g1, ?_, g2⟩
          rw [← hc, Nat.sub_add_cancel g0]
          exact List.getElem?_eq_getElem h
      split_ifs
      · exact ⟨by rw [s1], hblk⟩
      · refine ⟨by rw [backpressure_unblock_bodies, s1], ?_⟩
        intro x
        rw [backpressure_unblock_blocker]
        exact hblk x
      · refine ⟨by rw [schedule_bodies, s1], ?_⟩
        intro x
        unfold blocker
        rw [schedule_cowns]
        exact hblk x
      · obtain ⟨a1, a2, a3, _, _⟩ := advance_index_body (queue_dequeue
          (fast_send_sent high w body epoch hp h).1 (fast_send_next w body h)).1 body
        have hc2 : ((advance_index (queue_dequeue (fast_send_sent high w body epoch hp h).1
            (fast_send_next w body h)).1 body).bodies body).cowns = cowns := by
          rw [a1, queue_dequeue_bodies, s1, hc]
        obtain ⟨i1, i2⟩ := ih _ (fast_send_hop high w body epoch hp h).2 hc2
        rw [a2, queue_dequeue_bodies, s1] at i1
        refine ⟨by omega, ?_⟩
        intro x
        have hsame : blocker (advance_index (queue_dequeue
            (fast_send_sent high w body epoch hp h).1 (fast_send_next w body h)).1 body) x =
            blocker (fast_send_sent high w body epoch hp h).1 x := by
          unfold blocker
          rw [a3]
          simp only [queue_dequeue, set_cown_cowns]
          split <;> simp_all
        rcases i2 x with i | i
        · rw [i, hsame]
          exact hblk x
        · exact Or.inr i
    · exact ⟨le_refl _, fun x => Or.inl rfl⟩

/-! ## The blocks of `run_step` -/

theorem BpFrame.same (w : World) : BpFrame w w := ⟨fun _ => rfl, rfl, rfl, rfl⟩

theorem BpFrame.chain {w v u : World} (h1 : BpFrame w v) (h2 : BpFrame v u) : BpFrame w u :=
  ⟨fun x => (h2.bp_state x).trans (h1.bp_state x), h2.bodies.trans h1.bodies,
    h2.sched.trans h1.sched, h2.should_scan.trans h1.should_scan⟩

theorem set_epoch_mark_frame (w : World) (c : CownPtr) (e : EpochMark) :
    BpFrame w (set_epoch_mark w c e) := by
  refine ⟨?_, rfl, rfl, rfl⟩
  intro x
  simp only [set_epoch_mark, set_cown_cowns]
  split <;> simp_all

theorem scan_frame (ext : Externals) (w : World) (c : CownPtr) (e : EpochMark) :
    BpFrame w (scan ext w c e) := by
  unfold scan
  split
  · refine ⟨?_, rfl, rfl, rfl⟩
    intro x
    simp only [World.log, set_cown_cowns]
    split <;> simp_all
  · exact BpFrame.same w

theorem run_step_scan_frame (ext : Externals) (e : EpochMark) (l : List CownPtr) :
    ∀ w : World, BpFrame w (run_step_scan ext e l w) := by
  induction l with
  | nil => intro w; exact BpFrame.same w
  | cons c rest ih => intro w; exact (scan_frame ext w c e).chain (ih _)

theorem run_step_clear_spec (high : Priority → Bool) (l : List CownPtr) :
    ∀ w : World,
      (∀ x ∈ l, blocker (run_step_clear high l w) x = none) ∧
      (∀ x, x ∉ l → blocker (run_step_clear high l w) x = blocker w x) ∧
      (∀ x, priority (run_step_clear high l w) x = priority w x) ∧
      (run_step_clear high l w).sched = w.sched ∧
      (run_step_clear high l w).bodies = w.bodies := by
  induction l with
  | nil =>
    intro w
    exact ⟨fun x hx => (by cases hx), fun _ _ => rfl, fun _ => rfl, rfl, rfl⟩
  | cons c rest ih =>
    intro w
    obtain ⟨h1, h2, h3, h4, h5⟩ := ih (set_blocker high w c none).1
    have hb : ∀ x, blocker (set_blocker high w c none).1 x =
        if x = c then none else blocker w x := by
      intro x
      simp only [set_blocker, blocker, set_cown_cowns]
      split <;> simp_all
    have hpr : ∀ x, priority (set_blocker high w c none).1 x = priority w x := by
      intro x
      simp only [set_blocker, priority, set_cown_cowns]
      split <;> simp_all
    refine ⟨?_, ?_, ?_, h4, h5⟩
    · intro x hx
      by_cases hxr : x ∈ rest
      · exact h1 x hxr
      · have hxc : x = c := by
          rcases List.mem_cons.mp hx with h | h
          · exact h
          · exact absurd h hxr
        show blocker (run_step_clear high rest _) x = none
        rw [h2 x hxr, hb x, if_pos hxc]
    · intro x hx
      have hxc : x ≠ c := fun e => hx (e ▸ List.mem_cons_self _ _)
      have hxr : x ∉ rest := fun e => hx (List.mem_cons_of_mem _ e)
      show blocker (run_step_clear high rest _) x = blocker w x
      rw [h2 x hxr, hb x, if_neg hxc]
    · intro x
      show priority (run_step_clear high rest _) x = priority w x
      rw [h3 x, hpr x]

theorem log_frame (w : World) (e : Event) : BpFrame w (w.log e) := ⟨fun _ => rfl, rfl, rfl, rfl⟩

theorem record_inflight_frame (w : World) : BpFrame w (record_inflight_message w) :=
  ⟨fun _ => rfl, rfl, rfl, rfl⟩

theorem recv_inflight_frame (w : World) : BpFrame w (recv_inflight_message w) :=
  ⟨fun _ => rfl, rfl, rfl, rfl⟩

theorem run_step_prescan_frame (ext : Externals) (w : World) (cown : CownPtr)
    (e se : EpochMark) : BpFrame w (run_step_prescan ext w cown e se) := by
  unfold run_step_prescan
  split_ifs
  · exact (scan_frame ext w cown se).chain (set_epoch_mark_frame _ cown se)
  · exact BpFrame.same w
  · exact BpFrame.same w

theorem run_step_inflight_frame (w : World) (cown : CownPtr) (e se : EpochMark) :
    BpFrame w (run_step_inflight w cown e se).1 := by
  unfold run_step_inflight
  split_ifs <;> first | exact BpFrame.same w | exact record_inflight_frame w

theorem run_step_trace_frame (ext : Externals) (w : World) (e se : EpochMark)
    (b : MultiMessageBody) : BpFrame w (run_step_trace ext w e se b) := by
  unfold run_step_trace
  simp only
  split_ifs <;>
    first
    | exact BpFrame.same w
    | exact recv_inflight_frame w
    | exact (run_step_scan_frame ext se b.cowns w).chain (log_frame _ _)
    | exact (recv_inflight_frame w).chain
        ((run_step_scan_frame ext se b.cowns _).chain (log_frame _ _))

theorem run_step_last_eq (ext : Externals) (fuel : Nat) (w : World) (m : MultiMessage)
    (body : BodyPtr) (t : SchedulerThread) (hb : m.body = some body) (hs : w.sched = some t)
    (hidx : (w.bodies body).index < (w.bodies body).cowns.length)
    (hlast : ¬ (w.bodies body).index < ((w.bodies body).count + 2 ^ 64 - 1) % 2 ^ 64) :
    run_step ext fuel w m =
      some (⟨ext.behaviour (w.bodies body).behaviour
        (run_step_clear ext.high (w.bodies body).cowns
          (set_message_body (run_step_trace ext
            (run_step_prescan ext w (fast_send_next w body hidx)
              m.epoch t.send_epoch) m.epoch t.send_epoch (w.bodies body)) body)),
        true⟩, true) := by
  unfold run_step
  rw [hb, hs]
  simp only
  rw [dif_pos hidx, if_neg hlast]
  rfl

theorem run_step_next_eq (ext : Externals) (fuel : Nat) (w : World) (m : MultiMessage)
    (body : BodyPtr) (t : SchedulerThread) (hb : m.body = some body) (hs : w.sched = some t)
    (hidx : (w.bodies body).index < (w.bodies body).cowns.length)
    (hlast : (w.bodies body).index < ((w.bodies body).count + 2 ^ 64 - 1) % 2 ^ 64) :
    run_step ext fuel w m =
      some (fast_send ext.high fuel
        (advance_index (run_step_inflight
          (run_step_prescan ext w (fast_send_next w body hidx)
            m.epoch t.send_epoch)
          (fast_send_next w body hidx) m.epoch t.send_epoch).1 body) body
        (run_step_inflight
          (run_step_prescan ext w (fast_send_next w body hidx)
            m.epoch t.send_epoch)
          (fast_send_next w body hidx) m.epoch t.send_epoch).2, false) := by
  unfold run_step
  rw [hb, hs]
  simp only
  rw [dif_pos hidx, if_pos hlast]
  rfl

theorem fast_send_blockers (high : Priority → Bool) (fuel : Nat) (w : World) (body : BodyPtr)
    (epoch : EpochMark) :
    (w.bodies body).index ≤ ((fast_send high fuel w body epoch).world.bodies body).index ∧
    ∀ x, blocker (fast_send high fuel w body epoch).world x = blocker w x ∨
      ∃ k y, (w.bodies body).cowns[k]? = some x ∧ (w.bodies body).cowns[k + 1]? = some y ∧
        blocker (fast_send high fuel w body epoch).world x = some y := by
  unfold fast_send
  exact fast_send_loop_blockers high fuel body epoch _ (w.bodies body).cowns _ w _ rfl

/-! ## C16: blockers name cowns of greater address -/

theorem sorted_succ_lt {l : List CownPtr} (hs : List.Sorted (fun a b => a < b) l) {k : Nat}
    {x y : CownPtr} (hx : l[k]? = some x) (hy : l[k + 1]? = some y) : x < y := by
  obtain ⟨hx1, hx2⟩ := List.getElem?_eq_some_iff.mp hx
  obtain ⟨hy1, hy2⟩ := List.getElem?_eq_some_iff.mp hy
  have h := List.pairwise_iff_getElem.mp hs k (k + 1) hx1 hy1 (Nat.lt_succ_self k)
  rw [hx2, hy2] at h
  exact h

theorem fast_send_ascend (high : Priority → Bool) (fuel : Nat) (w : World) (body : BodyPtr)
    (epoch : EpochMark) (hs : List.Sorted (fun a b => a < b) (w.bodies body).cowns)
    (h : BlockersAscend w) : BlockersAscend (fast_send high fuel w body epoch).world := by
  intro c b hb
  rcases (fast_send_blockers high fuel w body epoch).2 c with h1 | ⟨k, y, hk, hy, h1⟩
  · rw [h1] at hb
    exact h c b hb
  · rw [h1] at hb
    cases hb
    exact sorted_succ_lt hs hk hy

theorem set_blocker_null_ascend (high : Priority → Bool) (w : World) (c : CownPtr)
    (h : BlockersAscend w) : BlockersAscend (set_blocker high w c none).1 := by
  intro x b hb
  by_cases hx : x = c
  · simp [set_blocker, blocker, set_cown_cowns, hx] at hb
  · apply h x b
    simpa [set_blocker, blocker, set_cown_cowns, hx] using hb

theorem backpressure_transition_ascend (w : World) (c : CownPtr) (state : Priority)
    (exact : Bool) (h : BlockersAscend w) :
    BlockersAscend (backpressure_transition w c state exact).1 := by
  intro x b hb
  rw [backpressure_transition_blocker] at hb
  exact h x b hb

theorem run_step_ascend (ext : Externals) (fuel : Nat) (w : World) (m : MultiMessage)
    (body : BodyPtr) (t : SchedulerThread) (hb : m.body = some body) (hs : w.sched = some t)
    (hidx : (w.bodies body).index < (w.bodies body).cowns.length)
    (hsort : List.Sorted (fun a b => a < b) (w.bodies body).cowns)
    (hbe : ∀ be u, BlockersAscend u → BlockersAscend (ext.behaviour be u))
    (h : BlockersAscend w) :
    ∃ o r, run_step ext fuel w m = some (o, r) ∧ BlockersAscend o.world := by
  by_cases hlast : (w.bodies body).index < ((w.bodies body).count + 2 ^ 64 - 1) % 2 ^ 64
  · refine ⟨_, _, run_step_next_eq ext fuel w m body t hb hs hidx hlast, ?_⟩
    have hfr := (run_step_prescan_frame ext w (fast_send_next w body hidx) m.epoch
      t.send_epoch).chain (run_step_inflight_frame _ (fast_send_next w body hidx) m.epoch
      t.send_epoch)
    obtain ⟨a1, _, a3, _, _⟩ := advance_index_body (run_step_inflight
      (run_step_prescan ext w (fast_send_next w body hidx) m.epoch t.send_epoch)
      (fast_send_next w body hidx) m.epoch t.send_epoch).1 body
    apply fast_send_ascend
    · rw [a1, hfr.bodies]
      exact hsort
    · intro c b hcb
      apply h c b
      unfold blocker at hcb ⊢
      rw [a3, hfr.bp_state c] at hcb
      exact hcb
  · refine ⟨_, _, run_step_last_eq ext fuel w m body t hb hs hidx hlast, ?_⟩
    have hfr := (run_step_prescan_frame ext w (fast_send_next w body hidx) m.epoch
      t.send_epoch).chain (run_step_trace_frame ext _ m.epoch t.send_epoch (w.bodies body))
    obtain ⟨c1, c2, _, _, _⟩ := run_step_clear_spec ext.high (w.bodies body).cowns
      (set_message_body (run_step_trace ext (run_step_prescan ext w
        (fast_send_next w body hidx) m.epoch t.send_epoch) m.epoch t.send_epoch
        (w.bodies body)) body)
    apply hbe
    intro c b hcb
    by_cases hc : c ∈ (w.bodies body).cowns
    · rw [c1 c hc] at hcb
      cases hcb
    · rw [c2 c hc] at hcb
      apply h c b
      unfold blocker at hcb ⊢
      rw [← hfr.bp_state c]
      exact hcb

theorem blocker_chain_exists (w : World) (N : Nat) (h : BlockersAscend w)
    (hN : ∀ c b, blocker w c = some b → b < N) :
    ∀ (d : Nat) (c : Nat), N - c ≤ d → ∃ l, BlockerChain w (some c) l := by
  intro d
  induction d with
  | zero =>
    intro c hc
    cases hb : blocker w c with
    | none => exact ⟨[c], BlockerChain.step c [] (by rw [hb]; exact BlockerChain.null)⟩
    | some b =>
      have h1 : c < (b : Nat) := h c b hb
      have h2 : N > b := hN c b hb
      exfalso
      omega
  | succ d ih =>
    intro c hc
    cases hb : blocker w c with
    | none => exact ⟨[c], BlockerChain.step c [] (by rw [hb]; exact BlockerChain.null)⟩
    | some b =>
      have h1 : c < (b : Nat) := h c b hb
      have h2 : N > b := hN c b hb
      obtain ⟨l, hl⟩ := ih b (by omega)
      exact ⟨c :: l, BlockerChain.step c l (by rw [hb]; exact hl)⟩

/-! ## C17: `run_step`, and when the fast path it enters returns -/

theorem blocker_chain_bounded (w : World) (N : Nat) (h : BlockersAscend w)
    (hN : ∀ c b, blocker w c = some b → b < N) :
    ∀ (d : Nat) (c : Nat), c < N → N - c ≤ d →
      ∃ l, BlockerChain w (some c) l ∧ l.length ≤ d := by
  intro d
  induction d with
  | zero =>
    intro c hc hd
    omega
  | succ d ih =>
    intro c hc hd
    cases hb : blocker w c with
    | none =>
      exact ⟨[c], BlockerChain.step c [] (by rw [hb]; exact BlockerChain.null), by simp⟩
    | some b =>
      have h1 : c < (b : Nat) := h c b hb
      have h2 : (b : Nat) < N := hN c b hb
      obtain ⟨l, hl, hlen⟩ := ih b h2 (by omega)
      exact ⟨c :: l, BlockerChain.step c l (by rw [hb]; exact hl), by simp; omega⟩

theorem queue_dequeue_blocker (w : World) (c x : CownPtr) :
    blocker (queue_dequeue w c).1 x = blocker w x := by
  unfold blocker queue_dequeue
  simp only [set_cown_cowns]
  split <;> simp_all

theorem fast_send_loop_returned (high : Priority → Bool) (fuel : Nat) (body : BodyPtr)
    (epoch : EpochMark) (last N : Nat) (cowns : List CownPtr)
    (hsort : List.Sorted (fun a b => a < b) cowns) (hcN : ∀ x ∈ cowns, x < N)
    (hfuel : N ≤ fuel) :
    ∀ (n : Nat) (w : World) (hp : Bool), (w.bodies body).cowns = cowns →
      BlockersAscend w → (∀ c b, blocker w c = some b → b < N) →
      (w.bodies body).cowns.length ≤ n + (w.bodies body).index →
      (fast_send_loop high fuel body epoch last n w hp).returned = true := by
  intro n
  induction n with
  | zero =>
    intro w hp _ _ _ hlen
    rw [fast_send_loop]
    simp only [decide_eq_true_eq]
    unfold MultiMessageBody.count
    omega
  | succ n ih =>
    intro w hp hc hasc hbN hlen
    rw [fast_send_loop_succ]
    split
    · rename_i h
      obtain ⟨g1, _, _, _, _, g6, _, _⟩ := fast_send_hop_frame high w body epoch hp h
      obtain ⟨s1, s2, _⟩ := fast_send_sent_frame high w body epoch hp h
      have hnext : fast_send_next w body h ∈ cowns := by
        rw [← hc]
        exact List.getElem_mem _
      have hsent : ∀ x b, blocker (fast_send_sent high w body epoch hp h).1 x = some b →
          x < b ∧ b < N := by
        intro x b hb
        rw [s2 x] at hb
        rcases g6 x with g | ⟨g0, g2, g3⟩
        · rw [g] at hb
          exact ⟨hasc x b hb, hbN x b hb⟩
        · rw [g3] at hb
          cases hb
          refine ⟨?_, hcN _ hnext⟩
          have hk : cowns[(w.bodies body).index - 1]? = some x := by rw [← hc]; exact g2
          have hk1 : cowns[(w.bodies body).index - 1 + 1]? = some (fast_send_next w body h) := by
            rw [← hc, Nat.sub_add_cancel g0]
            exact List.getElem?_eq_getElem h
          exact sorted_succ_lt hsort hk hk1
      split_ifs
      · rfl
      · obtain ⟨l, hl, hll⟩ := blocker_chain_bounded (fast_send_sent high w body epoch hp h).1 N
          (fun x b hb => (hsent x b hb).1) (fun x b hb => (hsent x b hb).2)
          (N - fast_send_next w body h) (fast_send_next w body h) (hcN _ hnext) (le_refl _)
        exact (backpressure_unblock_walk l _ _ fuel hl (by omega)).1
      · rfl
      · obtain ⟨a1, a2, a3, _, _⟩ := advance_index_body
          (queue_dequeue (fast_send_sent high w body epoch hp h).1 (fast_send_next w body h)).1
          body
        have hblk : ∀ x, blocker (advance_index (queue_dequeue
            (fast_send_sent high w body epoch hp h).1 (fast_send_next w body h)).1 body) x =
            blocker (fast_send_sent high w body epoch hp h).1 x := by
          intro x
          rw [← queue_dequeue_blocker (fast_send_sent high w body epoch hp h).1
            (fast_send_next w body h) x]
          unfold blocker
          rw [a3]
        apply ih
        · rw [a1, queue_dequeue_bodies, s1]
          exact hc
        · intro x b hb
          rw [hblk x] at hb
          exact (hsent x b hb).1
        · intro x b hb
          rw [hblk x] at hb
          exact (hsent x b hb).2
        · rw [a1, a2, queue_dequeue_bodies, s1]
          omega
    · rfl

theorem fast_send_returned (high : Priority → Bool) (fuel : Nat) (w : World) (body : BodyPtr)
    (epoch : EpochMark) (N : Nat) (hasc : BlockersAscend w)
    (hsort : List.Sorted (fun a b => a < b) (w.bodies body).cowns)
    (hbN : ∀ c b, blocker w c = some b → b < N) (hcN : ∀ x ∈ (w.bodies body).cowns, x < N)
    (hfuel : N ≤ fuel) : (fast_send high fuel w body epoch).returned = true := by
  unfold fast_send
  apply fast_send_loop_returned high fuel body epoch _ N (w.bodies body).cowns hsort hcN hfuel
    _ w _ rfl hasc hbN
  unfold MultiMessageBody.count
  omega

/-- C17. `run_step` on a message that surfaced at `cowns[index]` of its body,
on a worker thread.  When `index` is `count - 1` the call returns true after
running the behaviour once, and in the world in which the behaviour is invoked
every participant's blocker is null, every priority is what it was before the
call and the worker's `message_body` slot holds the body of the message.  When
`index` is below `count - 1` the value is false, the result does not depend on
what the behaviour does (it is not run), no blocker that was set is null
afterwards and `index` is greater than before; and the call returns when the
blocker chains are finite: every non-null blocker names a cown of greater
address, the participants are strictly increasing, and the addresses of the
participants and of the blockers are below a bound `N` that the bound `fuel`
on the blocker walk covers. -/
theorem run_step_contract (ext : Externals) (fuel : Nat) (w : World) (m : MultiMessage)
    (body : BodyPtr) (t : SchedulerThread) (hb : m.body = some body) (hs : w.sched = some t)
    (hidx : (w.bodies body).index < (w.bodies body).count)
    (hcnt : (w.bodies body).count < 2 ^ 64) :
    ((w.bodies body).index = (w.bodies body).count - 1 →
      ∃ v, run_step ext fuel w m =
          some (⟨ext.behaviour (w.bodies body).behaviour v, true⟩, true) ∧
        (∀ x ∈ (w.bodies body).cowns, blocker v x = none) ∧
        (∀ x, priority v x = priority w x) ∧
        v.sched = some { t with message_body := some body }) ∧
    ((w.bodies body).index < (w.bodies body).count - 1 →
      ∃ o, (∀ g, run_step { ext with behaviour := g } fuel w m = some (o, false)) ∧
        (∀ x, blocker w x ≠ none → blocker o.world x ≠ none) ∧
        (w.bodies body).index < (o.world.bodies body).index ∧
        (∀ N, BlockersAscend w → List.Sorted (fun a b => a < b) (w.bodies body).cowns →
          (∀ c b, blocker w c = some b → b < N) → (∀ x ∈ (w.bodies body).cowns, x < N) →
          N ≤ fuel → o.returned = true)) := by
  unfold MultiMessageBody.count at hidx hcnt ⊢
  constructor
  · intro hl
    have hlast : ¬ (w.bodies body).index <
        ((w.bodies body).count + 2 ^ 64 - 1) % 2 ^ 64 := by
      unfold MultiMessageBody.count
      omega
    have hfr := (run_step_prescan_frame ext w (fast_send_next w body hidx) m.epoch
      t.send_epoch).chain (run_step_trace_frame ext _ m.epoch t.send_epoch (w.bodies body))
    obtain ⟨c1, _, c3, c4, _⟩ := run_step_clear_spec ext.high (w.bodies body).cowns
      (set_message_body (run_step_trace ext (run_step_prescan ext w
        (fast_send_next w body hidx) m.epoch t.send_epoch) m.epoch t.send_epoch
        (w.bodies body)) body)
    refine ⟨_, run_step_last_eq ext fuel w m body t hb hs hidx hlast, c1, ?_, ?_⟩
    · intro x
      rw [c3 x]
      unfold priority
      exact congrArg BpState.priority (hfr.bp_state x)
    · rw [c4]
      show Option.map _ _ = _
      rw [hfr.sched, hs]
      rfl
  · intro hl
    have hlast : (w.bodies body).index <
        ((w.bodies body).count + 2 ^ 64 - 1) % 2 ^ 64 := by
      unfold MultiMessageBody.count
      omega
    have hfr := (run_step_prescan_frame ext w (fast_send_next w body hidx) m.epoch
      t.send_epoch).chain (run_step_inflight_frame _ (fast_send_next w body hidx) m.epoch
      t.send_epoch)
    obtain ⟨a1, a2, a3, _, _⟩ := advance_index_body (run_step_inflight
      (run_step_prescan ext w (fast_send_next w body hidx) m.epoch t.send_epoch)
      (fast_send_next w body hidx) m.epoch t.send_epoch).1 body
    obtain ⟨f1, f2⟩ := fast_send_blockers ext.high fuel (advance_index (run_step_inflight
      (run_step_prescan ext w (fast_send_next w body hidx) m.epoch t.send_epoch)
      (fast_send_next w body hidx) m.epoch t.send_epoch).1 body) body (run_step_inflight
      (run_step_prescan ext w (fast_send_next w body hidx) m.epoch t.send_epoch)
      (fast_send_next w body hidx) m.epoch t.send_epoch).2
    have hsame : ∀ x, blocker (advance_index (run_step_inflight
        (run_step_prescan ext w (fast_send_next w body hidx) m.epoch t.send_epoch)
        (fast_send_next w body hidx) m.epoch t.send_epoch).1 body) x = blocker w x := by
      intro x
      unfold blocker
      rw [a3]
      exact congrArg BpState.blocker (hfr.bp_state x)
    refine ⟨fast_send ext.high fuel (advance_index (run_step_inflight
      (run_step_prescan ext w (fast_send_next w body hidx) m.epoch t.send_epoch)
      (fast_send_next w body hidx) m.epoch t.send_epoch).1 body) body (run_step_inflight
      (run_step_prescan ext w (fast_send_next w body hidx) m.epoch t.send_epoch)
      (fast_send_next w body hidx) m.epoch t.send_epoch).2, fun g => ?_, ?_, ?_, ?_⟩
    · rw [run_step_next_eq { ext with behaviour := g } fuel w m body t hb hs hidx hlast]
      rfl
    · intro x hx
      rcases f2 x with h | ⟨k, y, _, _, h⟩
      · show blocker (fast_send _ _ _ _ _).world x ≠ none
        rw [h, hsame]
        exact hx
      · show blocker (fast_send _ _ _ _ _).world x ≠ none
        rw [h]
        simp
    · rw [a2, hfr.bodies] at f1
      show _ < ((fast_send _ _ _ _ _).world.bodies body).index
      omega
    · intro N hasc hsort hbN hcN hfuel
      apply fast_send_returned ext.high fuel _ body _ N
      · intro c b hcb
        rw [hsame c] at hcb
        exact hasc c b hcb
      · rw [a1, hfr.bodies]
        exact hsort
      · intro c b hcb
        rw [hsame c] at hcb
        exact hbN c b hcb
      · rw [a1, hfr.bodies]
        exact hcN
      · exact hfuel


/-! ## C16: the blocker chain ends -/

/-- C16. Blocker-chain acyclicity.  For a body whose participants are strictly
increasing by address, every blocker that `fast_send` leaves changed stands on
some `cowns[k]` and names `cowns[k+1]`, a cown of strictly greater address.
Hence the predicate that every non-null blocker names a cown of greater address
is preserved by `fast_send`, by `run_step` (for behaviours that preserve it),
by `set_blocker(null)` and by `backpressure_transition`; and under this
predicate, with addresses bounded by the size `N` of the address space, the
walk along `blocker()` from any cown reaches null, so that
`backpressure_unblock` returns. -/
theorem blockers_ascend (ext : Externals) (fuel : Nat) (w : World) (body : BodyPtr)
    (epoch : EpochMark) (hsort : List.Sorted (fun a b => a < b) (w.bodies body).cowns) :
    (∀ x, blocker (fast_send ext.high fuel w body epoch).world x = blocker w x ∨
      ∃ k y, (w.bodies body).cowns[k]? = some x ∧ (w.bodies body).cowns[k + 1]? = some y ∧
        blocker (fast_send ext.high fuel w body epoch).world x = some y ∧ x < y) ∧
    (BlockersAscend w → BlockersAscend (fast_send ext.high fuel w body epoch).world) ∧
    (∀ (m : MultiMessage) (t : SchedulerThread), m.body = some body → w.sched = some t →
      (w.bodies body).index < (w.bodies body).count →
      (∀ be u, BlockersAscend u → BlockersAscend (ext.behaviour be u)) →
      BlockersAscend w →
      ∃ o r, run_step ext fuel w m = some (o, r) ∧ BlockersAscend o.world) ∧
    (∀ c, BlockersAscend w → BlockersAscend (set_blocker ext.high w c none).1) ∧
    (∀ c state exact, BlockersAscend w →
      BlockersAscend (backpressure_transition w c state exact).1) ∧
    (∀ N, BlockersAscend w → (∀ c b, blocker w c = some b → b < N) →
      ∀ c, ∃ l, BlockerChain w (some c) l ∧
        ∀ steps, l.length ≤ steps → (backpressure_unblock steps w (some c)).returned = true) := by
  refine ⟨?_, fast_send_ascend ext.high fuel w body epoch hsort, ?_,
    fun c h => set_blocker_null_ascend ext.high w c h,
    fun c state exact h => backpressure_transition_ascend w c state exact h, ?_⟩
  · intro x
    rcases (fast_send_blockers ext.high fuel w body epoch).2 x with h1 | ⟨k, y, hk, hy, h1⟩
    · exact Or.inl h1
    · exact Or.inr ⟨k, y, hk, hy, h1, sorted_succ_lt hsort hk hy⟩
  · intro m t hb hs hidx hbe h
    exact run_step_ascend ext fuel w m body t hb hs hidx hsort hbe h
  · intro N h hN c
    obtain ⟨l, hl⟩ := blocker_chain_exists w N h hN (N - c) c (le_refl _)
    exact ⟨l, hl, fun steps hsteps => (backpressure_unblock_walk l w (some c) steps hl hsteps).1⟩

/-! ## C15: what the fast path leaves behind -/

theorem drop_cons_parts {l : List CownPtr} {k : Nat} {x : CownPtr} {rest : List CownPtr}
    (hd : l.drop k = x :: rest) :
    ∃ h : k < l.length, l[k] = x ∧ l.drop (k + 1) = rest := by
  have hk : k < l.length := by
    by_contra hge
    rw [List.drop_eq_nil_iff.mpr (by omega)] at hd
    cases hd
  rw [List.drop_eq_getElem_cons hk] at hd
  injection hd with h1 h2
  exact ⟨hk, h1, h2⟩

theorem nodup_drop_distinct {l : List CownPtr} (hn : l.Nodup) {k : Nat} {x : CownPtr}
    {rest : List CownPtr} (hd : l.drop k = x :: rest) :
    ∀ y ∈ rest, y ≠ x ∧ l[k - 1]? ≠ some y := by
  obtain ⟨hk, hx, hrest⟩ := drop_cons_parts hd
  intro y hy
  rw [← hrest] at hy
  obtain ⟨j, hj⟩ := List.getElem?_of_mem hy
  rw [List.getElem?_drop] at hj
  have hlt : k + 1 + j < l.length := (List.getElem?_eq_some_iff.mp hj).1
  constructor
  · intro hyx
    have h2 : l[k + 1 + j]? = l[k]? := by
      rw [hj, List.getElem?_eq_getElem hk, hx, hyx]
    have := List.getElem?_inj hlt hn h2
    omega
  · intro hprev
    have h2 : l[k + 1 + j]? = l[k - 1]? := by rw [hj, hprev]
    have := List.getElem?_inj hlt hn h2
    omega

theorem fast_send_hop_mode (high : Priority → Bool) (w : World) (body : BodyPtr)
    (epoch : EpochMark) (hp : Bool) (h : (w.bodies body).index < (w.bodies body).cowns.length) :
    (fast_send_hop high w body epoch hp h).2 = (hp || fast_send_cur_high high w body) := by
  unfold fast_send_hop fast_send_cur_high
  split_ifs with h0 h1
  · have hlt : (w.bodies body).index - 1 < (w.bodies body).cowns.length := by omega
    rw [List.getElem?_eq_getElem hlt]
    simp only [Bool.not_eq_true, Bool.not_eq_eq_eq_not, Bool.not_true] at h1
    simp only [set_blocker, h0, decide_True, Bool.true_and]
    simp only [Bool.or_eq_false_iff] at h1
    rw [h1.1]
    simp [make_message, priority] at h1 ⊢
  · have hlt : (w.bodies body).index - 1 < (w.bodies body).cowns.length := by omega
    rw [List.getElem?_eq_getElem hlt]
    simp [h0, make_message, priority]
  · simp [h0]

theorem fast_send_step (high : Priority → Bool) (fuel : Nat) (body : BodyPtr)
    (epoch : EpochMark) (last n : Nat) (w : World) (hp : Bool)
    (h : (w.bodies body).index < (w.bodies body).cowns.length)
    (hs : (w.cowns (fast_send_next w body h)).queue.sleeping = true)
    (hm : (w.cowns (fast_send_next w body h)).queue.msgs = [])
    (hl : (w.bodies body).index ≠ last) :
    ∃ v hp1,
      fast_send_loop high fuel body epoch last (n + 1) w hp =
        fast_send_loop high fuel body epoch last n v hp1 ∧
      (queue_dequeue (fast_send_sent high w body epoch hp h).1 (fast_send_next w body h)).2 =
        some ⟨w.next_addr, some body, epoch⟩ ∧
      (v.bodies body).cowns = (w.bodies body).cowns ∧
      (v.bodies body).index = (w.bodies body).index + 1 ∧
      v.next_addr = w.next_addr + 1 ∧
      v.trace = w.trace ∧
      (v.cowns (fast_send_next w body h)).queue.msgs = [] ∧
      (v.cowns (fast_send_next w body h)).queue.sleeping = false ∧
      (∀ y, y ≠ fast_send_next w body h → (v.cowns y).queue = (w.cowns y).queue) ∧
      (∀ y, y ≠ fast_send_next w body h →
        (w.bodies body).cowns[(w.bodies body).index - 1]? ≠ some y → v.cowns y = w.cowns y) ∧
      (∀ y, priority v y = priority w y) ∧
      hp1 = (hp || fast_send_cur_high high w body) := by
  obtain ⟨g1, g2, g3, _, g5, _, g7, _⟩ := fast_send_hop_frame high w body epoch hp h
  have g8 := fast_send_hop_mode high w body epoch hp h
  have hq : ∀ y, ((fast_send_hop high w body epoch hp h).1.cowns y).queue = (w.cowns y).queue := by
    intro y
    rw [g5 y]
  have hsent : fast_send_sent high w body epoch hp h =
      ((queue_enqueue (fast_send_hop high w body epoch hp h).1 (fast_send_next w body h)
        ⟨w.next_addr, some body, epoch⟩).1, true) := by
    unfold fast_send_sent
    exact send_fast_sleeping _ _ _ (by rw [hq]; exact hs)
  refine ⟨advance_index (queue_dequeue (fast_send_sent high w body epoch hp h).1
    (fast_send_next w body h)).1 body, (fast_send_hop high w body epoch hp h).2, ?_, ?_, ?_, ?_,
    ?_, ?_, ?_, ?_, ?_, ?_, ?_, g8⟩
  · rw [fast_send_loop_succ, dif_pos h, hsent]
    simp only [Bool.not_true, Bool.false_eq_true, if_false, if_neg hl]
  · rw [hsent]
    simp [queue_dequeue, queue_enqueue, MPSCQ.enqueue, MPSCQ.dequeue, set_cown_cowns, hq, hm]
  · rw [(advance_index_body _ body).1, queue_dequeue_bodies, hsent]
    show ((fast_send_hop high w body epoch hp h).1.bodies body).cowns = _
    rw [g1]
  · rw [(advance_index_body _ body).2.1, queue_dequeue_bodies, hsent]
    show ((fast_send_hop high w body epoch hp h).1.bodies body).index + 1 = _
    rw [g1]
  · rw [hsent]
    exact g2
  · rw [hsent]
    exact g3
  · rw [hsent]
    simp [advance_index, queue_dequeue, queue_enqueue, MPSCQ.enqueue, MPSCQ.dequeue,
      set_cown_cowns, hq, hm]
  · rw [hsent]
    simp [advance_index, queue_dequeue, queue_enqueue, MPSCQ.enqueue, MPSCQ.dequeue,
      set_cown_cowns, hq, hm]
  · intro y hy
    rw [hsent]
    simp [advance_index, queue_dequeue, queue_enqueue, set_cown_cowns, hy, hq]
  · intro y hy hprev
    rw [hsent]
    simp [advance_index, queue_dequeue, queue_enqueue, set_cown_cowns, hy, g7 y hprev]
  · intro y
    have hbp : ((fast_send_hop high w body epoch hp h).1.cowns y).bp_state.priority =
        (w.cowns y).bp_state.priority := by
      rw [g5 y]
      rfl
    rw [hsent]
    unfold priority
    by_cases hy : y = fast_send_next w body h
    · subst hy
      simpa [advance_index, queue_dequeue, queue_enqueue, set_cown_cowns] using hbp
    · simpa [advance_index, queue_dequeue, queue_enqueue, set_cown_cowns, hy] using hbp

theorem fast_send_stop_here (high : Priority → Bool) (fuel : Nat) (body : BodyPtr)
    (epoch : EpochMark) (last n : Nat) (w : World) (hp : Bool)
    (h : (w.bodies body).index < (w.bodies body).cowns.length)
    (hs : (w.cowns (fast_send_next w body h)).queue.sleeping = false) :
    ∃ v hpf,
      fast_send_loop high fuel body epoch last (n + 1) w hp =
        (if hpf = true then backpressure_unblock fuel v (some (fast_send_next w body h))
          else ⟨v, true⟩) ∧
      v.bodies = w.bodies ∧
      (v.cowns (fast_send_next w body h)).queue.msgs =
        (w.cowns (fast_send_next w body h)).queue.msgs ++ [⟨w.next_addr, some body, epoch⟩] ∧
      (1 < (w.cowns (fast_send_next w body h)).rc →
        ∀ y, y ≠ fast_send_next w body h →
          (w.bodies body).cowns[(w.bodies body).index - 1]? ≠ some y →
          v.cowns y = w.cowns y) ∧
      (∀ y, schedule_count v y = schedule_count w y) ∧
      (∀ y, y ≠ fast_send_next w body h → (v.cowns y).queue = (w.cowns y).queue) ∧
      (∀ y, priority v y = priority w y) ∧
      hpf = (hp || fast_send_cur_high high w body) ∧
      (∀ y, (v.cowns y).status = (w.cowns y).status) ∧
      (∀ y, (0 < (w.bodies body).index →
          (w.bodies body).cowns[(w.bodies body).index - 1]? ≠ some y) →
        (v.cowns y).bp_state = (w.cowns y).bp_state) := by
  obtain ⟨g1, _, g3, _, g5, _, g7, _⟩ := fast_send_hop_frame high w body epoch hp h
  have g8 := fast_send_hop_mode high w body epoch hp h
  have hq : ∀ y, ((fast_send_hop high w body epoch hp h).1.cowns y).queue = (w.cowns y).queue := by
    intro y
    rw [g5 y]
  have hsent : fast_send_sent high w body epoch hp h =
      (release (queue_enqueue (fast_send_hop high w body epoch hp h).1 (fast_send_next w body h)
        ⟨w.next_addr, some body, epoch⟩).1 (fast_send_next w body h), false) := by
    unfold fast_send_sent
    exact send_fast_awake _ _ _ (by rw [hq]; exact hs)
  have hfr := release_frame (queue_enqueue (fast_send_hop high w body epoch hp h).1
    (fast_send_next w body h) ⟨w.next_addr, some body, epoch⟩).1 (fast_send_next w body h)
  refine ⟨(fast_send_sent high w body epoch hp h).1, (fast_send_hop high w body epoch hp h).2,
    ?_, ?_, ?_, ?_, ?_, ?_, ?_, g8, ?_, ?_⟩
  · rw [fast_send_loop_succ, dif_pos h]
    simp only [hsent, Bool.not_false, if_true]
    cases (fast_send_hop high w body epoch hp h).2 <;> simp
  · rw [hsent]
    show (release _ _).bodies = _
    rw [hfr.bodies]
    exact g1
  · rw [hsent]
    show ((release _ _).cowns _).queue.msgs = _
    rw [hfr.queue]
    simp [decref_cown, queue_enqueue, MPSCQ.enqueue, set_cown_cowns, hq]
  · intro hrc y hy hprev
    rw [hsent]
    show (release _ _).cowns y = _
    rw [release_alive _ _ (by simpa [queue_enqueue, set_cown_cowns, g5] using hrc),
      decref_cown_other _ _ y hy]
    simp [queue_enqueue, set_cown_cowns, hy, g7 y hprev]
  · intro y
    rw [hsent]
    show schedule_count (release _ _) y = _
    rw [hfr.schedule_count y]
    simp [schedule_count, decref_cown, queue_enqueue, World.set_cown, g3]
  · intro y hy
    rw [hsent]
    show ((release _ _).cowns y).queue = _
    rw [hfr.queue]
    simp [decref_cown, queue_enqueue, set_cown_cowns, hy, hq]
  · intro y
    have hbp : ((fast_send_hop high w body epoch hp h).1.cowns y).bp_state.priority =
        (w.cowns y).bp_state.priority := by
      rw [g5 y]
      rfl
    rw [hsent]
    unfold priority
    show ((release _ _).cowns y).bp_state.priority = _
    rw [hfr.bp_state]
    by_cases hy : y = fast_send_next w body h
    · subst hy
      simpa [decref_cown, queue_enqueue, set_cown_cowns] using hbp
    · simpa [decref_cown, queue_enqueue, set_cown_cowns, hy] using hbp
  · intro y
    have hst : ((fast_send_hop high w body epoch hp h).1.cowns y).status =
        (w.cowns y).status := by
      rw [g5 y]
    rw [hsent]
    show ((release _ _).cowns y).status = _
    rw [hfr.status]
    by_cases hy : y = fast_send_next w body h
    · subst hy
      simpa [decref_cown, queue_enqueue, set_cown_cowns] using hst
    · simpa [decref_cown, queue_enqueue, set_cown_cowns, hy] using hst
  · intro y hprev
    have hbp : ((fast_send_hop high w body epoch hp h).1.cowns y).bp_state =
        (w.cowns y).bp_state := by
      by_cases h0 : 0 < (w.bodies body).index
      · rw [g7 y (hprev h0)]
      · simp [fast_send_hop, h0, make_message]
    rw [hsent]
    show ((release _ _).cowns y).bp_state = _
    rw [hfr.bp_state]
    by_cases hy : y = fast_send_next w body h
    · subst hy
      simpa [decref_cown, queue_enqueue, set_cown_cowns] using hbp
    · simpa [decref_cown, queue_enqueue, set_cown_cowns, hy] using hbp

theorem fast_send_last_here (high : Priority → Bool) (fuel : Nat) (body : BodyPtr)
    (epoch : EpochMark) (last n : Nat) (w : World) (hp : Bool)
    (h : (w.bodies body).index < (w.bodies body).cowns.length)
    (hs : (w.cowns (fast_send_next w body h)).queue.sleeping = true)
    (hm : (w.cowns (fast_send_next w body h)).queue.msgs = [])
    (hl : (w.bodies body).index = last) :
    ∃ v,
      fast_send_loop high fuel body epoch last (n + 1) w hp = ⟨v, true⟩ ∧
      v.bodies = w.bodies ∧
      (v.cowns (fast_send_next w body h)).queue.msgs = [⟨w.next_addr, some body, epoch⟩] ∧
      (v.cowns (fast_send_next w body h)).queue.sleeping = false ∧
      (∀ y, schedule_count v y =
        schedule_count w y + if y = fast_send_next w body h then 1 else 0) ∧
      (∀ y, y ≠ fast_send_next w body h → (v.cowns y).queue = (w.cowns y).queue) := by
  obtain ⟨g1, _, g3, g4, g5, _, _, _⟩ := fast_send_hop_frame high w body epoch hp h
  have hq : ∀ y, ((fast_send_hop high w body epoch hp h).1.cowns y).queue = (w.cowns y).queue := by
    intro y
    rw [g5 y]
  have hsent : fast_send_sent high w body epoch hp h =
      ((queue_enqueue (fast_send_hop high w body epoch hp h).1 (fast_send_next w body h)
        ⟨w.next_addr, some body, epoch⟩).1, true) := by
    unfold fast_send_sent
    exact send_fast_sleeping _ _ _ (by rw [hq]; exact hs)
  refine ⟨schedule (fast_send_sent high w body epoch hp h).1 (fast_send_next w body h),
    ?_, ?_, ?_, ?_, ?_, ?_⟩
  · rw [fast_send_loop_succ, dif_pos h, hsent]
    simp only [Bool.not_true, Bool.false_eq_true, if_false, if_pos hl]
  · rw [schedule_bodies, hsent]
    exact g1
  · rw [schedule_cowns, hsent]
    simp [queue_enqueue, MPSCQ.enqueue, set_cown_cowns, hq, hm]
  · rw [schedule_cowns, hsent]
    simp [queue_enqueue, MPSCQ.enqueue, set_cown_cowns, hq, hm]
  · intro y
    rw [hsent]
    have ht : (schedule (queue_enqueue (fast_send_hop high w body epoch hp h).1
        (fast_send_next w body h) ⟨w.next_addr, some body, epoch⟩).1
        (fast_send_next w body h)).trace =
        w.trace ++ [schedule_event w (fast_send_next w body h)] := by
      rw [schedule_trace]
      simp [queue_enqueue, World.set_cown, g3, g4, schedule_event]
    simp only [schedule_count, ht, List.filter_append, List.length_append, List.filter_cons,
      List.filter_nil, schedules_schedule_event]
    by_cases hy : fast_send_next w body h = y
    · simp [hy]
    · have hy2 : ¬ y = fast_send_next w body h := fun e => hy e.symm
      simp [hy, hy2]
  · intro y hy
    rw [schedule_cowns, hsent]
    simp [queue_enqueue, set_cown_cowns, hy, hq]

theorem fast_send_loop_stop (high : Priority → Bool) (fuel : Nat) (body : BodyPtr)
    (epoch : EpochMark) (last : Nat) (c : CownPtr) (post : List CownPtr) :
    ∀ (pre : List CownPtr) (w : World) (hp : Bool) (n : Nat),
      (w.bodies body).cowns.Nodup →
      (w.bodies body).cowns.drop (w.bodies body).index = pre ++ c :: post →
      (∀ x ∈ pre, (w.cowns x).queue.sleeping = true ∧ (w.cowns x).queue.msgs = []) →
      (w.cowns c).queue.sleeping = false →
      last = (w.bodies body).cowns.length - 1 →
      pre.length < n →
      ∃ v hpf,
        fast_send_loop high fuel body epoch last n w hp =
          (if hpf = true then backpressure_unblock fuel v (some c) else ⟨v, true⟩) ∧
        (v.bodies body).index = (w.bodies body).index + pre.length ∧
        (v.bodies body).cowns = (w.bodies body).cowns ∧
        (v.cowns c).queue.msgs =
          (w.cowns c).queue.msgs ++ [⟨w.next_addr + pre.length, some body, epoch⟩] ∧
        (∀ x ∈ pre, (v.cowns x).queue.msgs = [] ∧ (v.cowns x).queue.sleeping = false) ∧
        (1 < (w.cowns c).rc → ∀ x ∈ post, v.cowns x = w.cowns x) ∧
        (∀ y, schedule_count v y = schedule_count w y) ∧
        (∀ y, y ∉ pre → y ≠ c → (v.cowns y).queue = (w.cowns y).queue) ∧
        (∀ y, priority v y = priority w y) ∧
        hpf = (hp || fast_send_cur_high high w body ||
          pre.any (fun x => high (priority w x))) ∧
        (∀ x ∈ post, (v.cowns x).status = (w.cowns x).status ∧
          (v.cowns x).bp_state = (w.cowns x).bp_state) ∧
        (v.cowns c).bp_state = (w.cowns c).bp_state := by
  intro pre
  induction pre with
  | nil =>
    intro w hp n hnd hdrop _ hc _ hn
    obtain ⟨h, hx, _⟩ := drop_cons_parts hdrop
    have hdist := nodup_drop_distinct hnd hdrop
    obtain ⟨k, hk⟩ : ∃ k, n = k + 1 := ⟨n - 1, by simp only [List.length_nil] at hn; omega⟩
    subst hk
    have hnext : fast_send_next w body h = c := hx
    obtain ⟨v, hpf, e1, e2, e3, e4, e5, e6, e7, e8, e9, e10⟩ :=
      fast_send_stop_here high fuel body epoch last k w hp h (by rw [hnext]; exact hc)
    rw [hnext] at e1 e3 e4 e6
    have hprevc : 0 < (w.bodies body).index →
        (w.bodies body).cowns[(w.bodies body).index - 1]? ≠ some c := by
      intro h0 hprev
      have h2 : (w.bodies body).cowns[(w.bodies body).index - 1]? =
          (w.bodies body).cowns[(w.bodies body).index]? := by
        rw [hprev, List.getElem?_eq_getElem h, hx]
      have := List.getElem?_inj (by omega) hnd h2
      omega
    refine ⟨v, hpf, e1, by rw [e2]; rfl, by rw [e2], by simpa using e3, ?_, ?_, e5, ?_, e7,
      by simp [e8], ?_, e10 c hprevc⟩
    · intro x hx
      cases hx
    · intro hrc x hx
      exact e4 hrc x (hdist x hx).1 (hdist x hx).2
    · intro y _ hy
      exact e6 y hy
    · intro x hx
      exact ⟨e9 x, e10 x (fun _ => (hdist x hx).2)⟩
  | cons x pre ih =>
    intro w hp n hnd hdrop hsl hc hlast hn
    have hdrop2 : (w.bodies body).cowns.drop (w.bodies body).index =
        x :: (pre ++ c :: post) := hdrop
    obtain ⟨h, hx, hrest⟩ := drop_cons_parts hdrop2
    have hdist := nodup_drop_distinct hnd hdrop2
    obtain ⟨k, hk⟩ : ∃ k, n = k + 1 := ⟨n - 1, by simp only [List.length_cons] at hn; omega⟩
    subst hk
    have hnext : fast_send_next w body h = x := hx
    have hlen := congrArg List.length hdrop2
    simp only [List.length_drop, List.length_cons, List.length_append] at hlen
    have hl : (w.bodies body).index ≠ last := by omega
    obtain ⟨w1, hp1, s1, _, s3, s4, s5, s6, s7, s8, s9, s10, s11, s12⟩ :=
      fast_send_step high fuel body epoch last k w hp h
        (by rw [hnext]; exact (hsl x (List.mem_cons_self _ _)).1)
        (by rw [hnext]; exact (hsl x (List.mem_cons_self _ _)).2) hl
    rw [hnext] at s7 s8 s9 s10
    have hsame : ∀ y ∈ pre ++ c :: post, w1.cowns y = w.cowns y := fun y hy =>
      s10 y (hdist y hy).1 (hdist y hy).2
    obtain ⟨v, hpf, e1, e2, e3, e4, e5, e6, e7, e8, e9, e10, e11, e12⟩ := ih w1 hp1 k
      (by rw [s3]; exact hnd)
      (by rw [s3, s4]; exact hrest)
      (fun y hy => by
        rw [hsame y (List.mem_append_left _ hy)]
        exact hsl y (List.mem_cons_of_mem _ hy))
      (by rw [hsame c (List.mem_append_right _ (List.mem_cons_self _ _))]; exact hc)
      (by rw [s3]; exact hlast)
      (by simp only [List.length_cons] at hn; omega)
    have hxpre : x ∉ pre := fun hm => (hdist x (List.mem_append_left _ hm)).1 rfl
    have hxc : x ≠ c := fun e =>
      (hdist c (List.mem_append_right _ (List.mem_cons_self _ _))).1 e.symm
    refine ⟨v, hpf, by rw [s1]; exact e1, ?_, by rw [e3, s3], ?_, ?_, ?_, ?_, ?_, ?_, ?_, ?_,
      by rw [e12, hsame c (List.mem_append_right _ (List.mem_cons_self _ _))]⟩
    · rw [e2, s4]
      simp only [List.length_cons]
      omega
    · rw [e4, hsame c (List.mem_append_right _ (List.mem_cons_self _ _)), s5]
      simp only [List.length_cons]
      rw [Nat.add_assoc, Nat.add_comm 1]
    · intro y hy
      rcases List.mem_cons.mp hy with hyx | hyp
      · subst hyx
        rw [e8 y hxpre hxc]
        exact ⟨s7, s8⟩
      · exact e5 y hyp
    · intro hrc y hy
      rw [e6 (by rw [hsame c (List.mem_append_right _ (List.mem_cons_self _ _))]; exact hrc)
        y hy]
      exact hsame y (List.mem_append_right _ (List.mem_cons_of_mem _ hy))
    · intro y
      rw [e7 y]
      simp only [schedule_count, s6]
    · intro y hy hyc
      have hyx : y ≠ x := fun e => hy (e ▸ List.mem_cons_self _ _)
      have hyp : y ∉ pre := fun e => hy (List.mem_cons_of_mem _ e)
      rw [e8 y hyp hyc, s9 y hyx]
    · intro y
      rw [e9 y, s11 y]
    · have hcur : fast_send_cur_high high w1 body = high (priority w x) := by
        unfold fast_send_cur_high
        rw [s3, s4, Nat.add_sub_cancel, List.getElem?_eq_getElem h]
        simp only [Nat.zero_lt_succ, decide_True, Bool.true_and]
        rw [s11 _]
        exact congrArg (fun y => high (priority w y)) hnext
      have hany : pre.any (fun y => high (priority w1 y)) =
          pre.any (fun y => high (priority w y)) := by
        congr 1
        funext y
        rw [s11 y]
      rw [e10, s12, hcur, hany, List.any_cons]
      simp only [Bool.or_assoc]
    · intro y hy
      rw [(e11 y hy).1, (e11 y hy).2,
        hsame y (List.mem_append_right _ (List.mem_cons_of_mem _ hy))]
      exact ⟨rfl, rfl⟩

theorem fast_send_loop_all (high : Priority → Bool) (fuel : Nat) (body : BodyPtr)
    (epoch : EpochMark) (last : Nat) (z : CownPtr) :
    ∀ (pre : List CownPtr) (w : World) (hp : Bool) (n : Nat),
      (w.bodies body).cowns.Nodup →
      (w.bodies body).cowns.drop (w.bodies body).index = pre ++ [z] →
      (∀ x ∈ pre ++ [z], (w.cowns x).queue.sleeping = true ∧ (w.cowns x).queue.msgs = []) →
      last = (w.bodies body).cowns.length - 1 →
      pre.length < n →
      ∃ v,
        fast_send_loop high fuel body epoch last n w hp = ⟨v, true⟩ ∧
        (v.bodies body).index = (w.bodies body).index + pre.length ∧
        (v.bodies body).cowns = (w.bodies body).cowns ∧
        (v.cowns z).queue.msgs = [⟨w.next_addr + pre.length, some body, epoch⟩] ∧
        (v.cowns z).queue.sleeping = false ∧
        (∀ x ∈ pre, (v.cowns x).queue.msgs = [] ∧ (v.cowns x).queue.sleeping = false) ∧
        (∀ y, schedule_count v y = schedule_count w y + if y = z then 1 else 0) ∧
        (∀ y, y ∉ pre → y ≠ z → (v.cowns y).queue = (w.cowns y).queue) := by
  intro pre
  induction pre with
  | nil =>
    intro w hp n _ hdrop hsl hlast hn
    have hdrop2 : (w.bodies body).cowns.drop (w.bodies body).index = z :: [] := hdrop
    obtain ⟨h, hx, _⟩ := drop_cons_parts hdrop2
    obtain ⟨k, hk⟩ : ∃ k, n = k + 1 := ⟨n - 1, by simp only [List.length_nil] at hn; omega⟩
    subst hk
    have hnext : fast_send_next w body h = z := hx
    have hlen := congrArg List.length hdrop2
    simp only [List.length_drop, List.length_cons, List.length_nil] at hlen
    have hz := hsl z (by simp)
    obtain ⟨v, e1, e2, e3, e4, e5, e6⟩ := fast_send_last_here high fuel body epoch last k w hp h
      (by rw [hnext]; exact hz.1) (by rw [hnext]; exact hz.2) (by omega)
    rw [hnext] at e3 e4 e5 e6
    exact ⟨v, e1, by rw [e2]; rfl, by rw [e2], by simpa using e3, e4,
      fun x hx => (by cases hx), e5, fun y _ hy => e6 y hy⟩
  | cons x pre ih =>
    intro w hp n hnd hdrop hsl hlast hn
    have hdrop2 : (w.bodies body).cowns.drop (w.bodies body).index =
        x :: (pre ++ [z]) := hdrop
    obtain ⟨h, hx, hrest⟩ := drop_cons_parts hdrop2
    have hdist := nodup_drop_distinct hnd hdrop2
    obtain ⟨k, hk⟩ : ∃ k, n = k + 1 := ⟨n - 1, by simp only [List.length_cons] at hn; omega⟩
    subst hk
    have hnext : fast_send_next w body h = x := hx
    have hlen := congrArg List.length hdrop2
    simp only [List.length_drop, List.length_cons, List.length_append, List.length_nil] at hlen
    have hl : (w.bodies body).index ≠ last := by omega
    have hxs := hsl x (by simp)
    obtain ⟨w1, hp1, s1, _, s3, s4, s5, s6, s7, s8, s9, s10, _, _⟩ :=
      fast_send_step high fuel body epoch last k w hp h
        (by rw [hnext]; exact hxs.1) (by rw [hnext]; exact hxs.2) hl
    rw [hnext] at s7 s8 s9 s10
    have hsame : ∀ y ∈ pre ++ [z], w1.cowns y = w.cowns y := fun y hy =>
      s10 y (hdist y hy).1 (hdist y hy).2
    obtain ⟨v, e1, e2, e3, e4, e5, e6, e7, e8⟩ := ih w1 hp1 k
      (by rw [s3]; exact hnd)
      (by rw [s3, s4]; exact hrest)
      (fun y hy => by
        rw [hsame y hy]
        exact hsl y (List.mem_cons_of_mem _ hy))
      (by rw [s3]; exact hlast)
      (by simp only [List.length_cons] at hn; omega)
    have hxpre : x ∉ pre := fun hm => (hdist x (List.mem_append_left _ hm)).1 rfl
    have hxz : x ≠ z := fun e => (hdist z (by simp)).1 e.symm
    refine ⟨v, by rw [s1]; exact e1, ?_, by rw [e3, s3], ?_, e5, ?_, ?_, ?_⟩
    · rw [e2, s4]
      simp only [List.length_cons]
      omega
    · rw [e4, s5]
      simp only [List.length_cons]
      rw [Nat.add_assoc, Nat.add_comm 1]
    · intro y hy
      rcases List.mem_cons.mp hy with hyx | hyp
      · subst hyx
        rw [e8 y hxpre hxz]
        exact ⟨s7, s8⟩
      · exact e6 y hyp
    · intro y
      rw [e7 y]
      simp only [schedule_count, s6]
    · intro y hy hyz
      have hyx : y ≠ x := fun e => hy (e ▸ List.mem_cons_self _ _)
      have hyp : y ∉ pre := fun e => hy (List.mem_cons_of_mem _ e)
      rw [e8 y hyp hyz, s9 y hyx]

/-- C15, as the code has it. `fast_send` on a body with pairwise distinct
participants and `index` below `count`, where a sleeping queue is empty.

Stop: let `pre` be the sleeping participants from position `index` on, `c` the
first participant whose queue is not sleeping and `post` the participants after
it.  There is a world `v` with `index` advanced by the length of `pre`, the new
node appended to the queue of `c`, every cown of `pre` awake with an empty
queue, no schedule recorded, the backpressure word of `c` as before, and the
queue, status word and backpressure word of every cown of `post` as before;
the cowns of `post` are exactly as before
when the reference handed over with the message is not the last one on `c`
(its strong count is above 1).
High-priority mode is on exactly when `index` was 0 and some participant had
the `High` bit, or the cown acquired last before the call (`cowns[index - 1]`)
had it, or a cown of `pre` had it.  With the mode off the call returns `v`.
With the mode on the call is `backpressure_unblock(c)` in `v`: when the blocker
chain `l` of `c` in `v` is within the bound on the walk, the call returns,
every cown of `l` is `High` afterwards, every cown off `l` is as in `v`, and
exactly the cowns of `l` that were `Low` are woken once and scheduled once.

All asleep: when every participant from `index` on is sleeping, the call
returns with `index = count - 1`, the new node alone in the queue of the last
participant `z`, which is awake and has been scheduled exactly once, no other
cown scheduled, and every earlier cown awake with an empty queue.

In every iteration on a sleeping cown the dequeue returns exactly the node
that the iteration has just sent. -/
theorem fast_send_contract (high : Priority → Bool) (fuel : Nat) (w : World) (body : BodyPtr)
    (epoch : EpochMark) (hnd : (w.bodies body).cowns.Nodup)
    (hidx : (w.bodies body).index < (w.bodies body).count)
    (hcnt : (w.bodies body).count < 2 ^ 64) :
    (∀ pre c post,
      (w.bodies body).cowns.drop (w.bodies body).index = pre ++ c :: post →
      (∀ x ∈ pre, (w.cowns x).queue.sleeping = true ∧ (w.cowns x).queue.msgs = []) →
      (w.cowns c).queue.sleeping = false →
      ∃ v,
        fast_send high fuel w body epoch =
          (if fast_send_mode high w body pre = true then
            backpressure_unblock fuel v (some c) else ⟨v, true⟩) ∧
        (v.bodies body).index = (w.bodies body).index + pre.length ∧
        (v.cowns c).queue.msgs =
          (w.cowns c).queue.msgs ++ [⟨w.next_addr + pre.length, some body, epoch⟩] ∧
        (v.cowns c).bp_state = (w.cowns c).bp_state ∧
        (∀ x ∈ pre, (v.cowns x).queue.msgs = [] ∧ (v.cowns x).queue.sleeping = false) ∧
        (∀ x ∈ post, (v.cowns x).queue = (w.cowns x).queue ∧
          (v.cowns x).status = (w.cowns x).status ∧
          (v.cowns x).bp_state = (w.cowns x).bp_state) ∧
        (1 < (w.cowns c).rc → ∀ x ∈ post, v.cowns x = w.cowns x) ∧
        (∀ y, schedule_count v y = schedule_count w y) ∧
        (∀ y, priority v y = priority w y) ∧
        (fast_send_mode high w body pre = true →
          ∀ l, BlockerChain v (some c) l → l.length ≤ fuel →
            (fast_send high fuel w body epoch).returned = true ∧
            (∀ x ∈ l, priority (fast_send high fuel w body epoch).world x = Priority.High) ∧
            (∀ x, x ∉ l → (fast_send high fuel w body epoch).world.cowns x = v.cowns x) ∧
            (∀ x, wake_count (fast_send high fuel w body epoch).world x =
              wake_count v x + if x ∈ l ∧ priority w x = Priority.Low then 1 else 0) ∧
            (∀ x, schedule_count (fast_send high fuel w body epoch).world x =
              schedule_count w x + if x ∈ l ∧ priority w x = Priority.Low then 1 else 0))) ∧
    (∀ pre z,
      (w.bodies body).cowns.drop (w.bodies body).index = pre ++ [z] →
      (∀ x ∈ pre ++ [z], (w.cowns x).queue.sleeping = true ∧ (w.cowns x).queue.msgs = []) →
      ∃ v,
        fast_send high fuel w body epoch = ⟨v, true⟩ ∧
        (v.bodies body).index = (w.bodies body).count - 1 ∧
        (v.cowns z).queue.msgs = [⟨w.next_addr + pre.length, some body, epoch⟩] ∧
        (v.cowns z).queue.sleeping = false ∧
        (∀ x ∈ pre, (v.cowns x).queue.msgs = [] ∧ (v.cowns x).queue.sleeping = false) ∧
        (∀ y, schedule_count v y = schedule_count w y + if y = z then 1 else 0)) ∧
    (∀ (u : World) (hp : Bool) (h : (u.bodies body).index < (u.bodies body).cowns.length),
      (u.cowns (fast_send_next u body h)).queue.sleeping = true →
      (u.cowns (fast_send_next u body h)).queue.msgs = [] →
      (queue_dequeue (fast_send_sent high u body epoch hp h).1 (fast_send_next u body h)).2 =
        some ⟨u.next_addr, some body, epoch⟩) := by
  unfold MultiMessageBody.count at hidx hcnt ⊢
  have hlast : ((w.bodies body).count + 2 ^ 64 - 1) % 2 ^ 64 =
      (w.bodies body).cowns.length - 1 := by
    unfold MultiMessageBody.count
    omega
  refine ⟨?_, ?_, ?_⟩
  · intro pre c post hdrop hsl hc
    have hlen := congrArg List.length hdrop
    simp only [List.length_drop, List.length_cons, List.length_append] at hlen
    have hdist : ∀ x ∈ post, x ∉ pre ∧ x ≠ c := by
      intro x hx
      have hnd2 : (pre ++ c :: post).Nodup := by
        rw [← hdrop]
        exact (List.drop_sublist _ _).nodup hnd
      rw [List.nodup_append] at hnd2
      obtain ⟨_, h2, h3⟩ := hnd2
      refine ⟨fun hp => h3 hp (List.mem_cons_of_mem _ hx), ?_⟩
      intro e
      rw [e] at hx
      exact (List.nodup_cons.mp h2).1 hx
    obtain ⟨v, hpf, e1, e2, _, e4, e5, e6, e7, e8, e9, e10, e11, e12⟩ :=
      fast_send_loop_stop high fuel body epoch (((w.bodies body).count + 2 ^ 64 - 1) % 2 ^ 64)
        c post pre w
        (if (w.bodies body).index = 0 then
          (w.bodies body).cowns.any (fun c => high (priority w c)) else false)
        ((w.bodies body).count - (w.bodies body).index) hnd hdrop hsl hc hlast
        (by unfold MultiMessageBody.count; omega)
    have hmode : hpf = fast_send_mode high w body pre := e10
    have hfs : fast_send high fuel w body epoch =
        (if fast_send_mode high w body pre = true then
          backpressure_unblock fuel v (some c) else ⟨v, true⟩) := by
      rw [← hmode]
      exact e1
    refine ⟨v, hfs, e2, e4, e12, e5, ?_, e6, e7, e9, ?_⟩
    · intro x hx
      exact ⟨e8 x (hdist x hx).1 (hdist x hx).2, (e11 x hx).1, (e11 x hx).2⟩
    · intro hm l hl hlf
      rw [hfs, if_pos hm]
      obtain ⟨h1, h2, _, h4, _, h6⟩ := backpressure_unblock_walk l v (some c) fuel hl hlf
      have hlow : ∀ x, (x ∈ l ∧ priority v x = Priority.Low) ↔
          (x ∈ l ∧ priority w x = Priority.Low) := fun x => by rw [e9 x]
      refine ⟨h1, h2, h4, ?_, ?_⟩
      · intro x
        simp only [wake_count, h6, List.filter_append, List.length_append,
          raise_events_wakes v l hl.nodup x, hlow x]
      · intro x
        rw [← e7 x]
        simp only [schedule_count, h6, List.filter_append, List.length_append,
          raise_events_schedules v l hl.nodup x, hlow x]
  · intro pre z hdrop hsl
    have hlen := congrArg List.length hdrop
    simp only [List.length_drop, List.length_cons, List.length_append, List.length_nil] at hlen
    obtain ⟨v, e1, e2, _, e4, e5, e6, e7, _⟩ :=
      fast_send_loop_all high fuel body epoch (((w.bodies body).count + 2 ^ 64 - 1) % 2 ^ 64)
        z pre w
        (if (w.bodies body).index = 0 then
          (w.bodies body).cowns.any (fun c => high (priority w c)) else false)
        ((w.bodies body).count - (w.bodies body).index) hnd hdrop hsl hlast
        (by unfold MultiMessageBody.count; omega)
    exact ⟨v, e1, by rw [e2]; omega, e4, e5, e6, e7⟩
  · intro u hp h hs hm
    obtain ⟨_, _, _, s2, _⟩ := fast_send_step high fuel body epoch
      ((u.bodies body).index + 1) 0 u hp h hs hm (by omega)
    exact s2

/-- C15 as stated fails: in `World.posting` the participants 1, 2 are
distinct, `index` is 0 and the queue of cown 1 is not sleeping, so the fast path
stops at position 0; but cown 2 is `High`, so the stop runs
`backpressure_unblock` on the muted cown 1, which is scheduled. -/
theorem fast_send_schedules_unmuted :
    (World.posting.bodies 0).cowns = [1, 2] ∧
    (World.posting.bodies 0).index = 0 ∧
    (World.posting.cowns 1).queue.sleeping = false ∧
    ((fast_send high_bit 8 World.posting 0 EpochMark.EPOCH_A).world.bodies 0).index = 0 ∧
    schedule_count World.posting 1 = 0 ∧
    schedule_count (fast_send high_bit 8 World.posting 0 EpochMark.EPOCH_A).world 1 = 1 := by
  decide

/-! ## C21: token circulation -/

theorem check_message_token_snd (fuel : Nat) (w : World) (c : CownPtr)
    (curr : Option BodyPtr) : (check_message_token fuel w c curr).2 = curr.isNone := by
  unfold check_message_token
  cases curr with
  | none =>
    simp only
    split_ifs <;> rfl
  | some b =>
    simp only
    split_ifs <;> rfl

theorem surfaced_arrive (fuel : Nat) (c : CownPtr) (transfer : TransferOwnership)
    (try_fast : TryFastSend) (m : MultiMessage) (rest : List QueueOp) (w : World) :
    surfaced fuel c (QueueOp.arrive transfer try_fast m :: rest) w =
      surfaced fuel c rest (send transfer try_fast w c m).1 := by
  simp [surfaced, queue_op, queue_op_surfaced]

theorem surfaced_process_empty (fuel : Nat) (c : CownPtr) (rest : List QueueOp) (w : World)
    (h : (w.cowns c).queue.msgs = []) :
    surfaced fuel c (QueueOp.process :: rest) w =
      surfaced fuel c rest (queue_dequeue_notify w c).1 := by
  have h3 := (queue_dequeue_notify_fields w c).2.2.1
  rw [h] at h3
  simp [surfaced, queue_op, queue_op_surfaced, h3]

theorem surfaced_process_body (fuel : Nat) (c : CownPtr) (rest : List QueueOp) (w : World)
    (m : MultiMessage) (tl : List MultiMessage) (b : BodyPtr)
    (h : (w.cowns c).queue.msgs = m :: tl) (hb : m.body = some b) :
    surfaced fuel c (QueueOp.process :: rest) w =
      (surfaced fuel c rest
        (check_message_token fuel (queue_dequeue_notify w c).1 c (some b)).1.world).map
        (fun l => false :: l) := by
  have h3 := (queue_dequeue_notify_fields w c).2.2.1
  rw [h] at h3
  simp [surfaced, queue_op, queue_op_surfaced, h3, hb, check_message_token_snd]

theorem surfaced_process_token (fuel : Nat) (c : CownPtr) (rest : List QueueOp) (w : World)
    (m : MultiMessage) (tl : List MultiMessage)
    (h : (w.cowns c).queue.msgs = m :: tl) (hb : m.body = none)
    (ht : (w.cowns c).status.has_token = true) :
    surfaced fuel c (QueueOp.process :: rest) w =
      (surfaced fuel c rest
        (check_message_token fuel (queue_dequeue_notify w c).1 c none).1.world).map
        (fun l => true :: l) := by
  obtain ⟨h1, _, h3, _⟩ := queue_dequeue_notify_fields w c
  rw [h] at h3
  simp [surfaced, queue_op, queue_op_surfaced, h3, hb, h1, ht, check_message_token_snd]

theorem surfaced_arrivals (fuel : Nat) (c : CownPtr) (ops : List QueueOp) :
    ∀ w : World, ops.countP QueueOp.dequeues = 0 → surfaced fuel c ops w = some [] := by
  induction ops with
  | nil =>
    intro w _
    rfl
  | cons op rest ih =>
    intro w h
    cases op with
    | arrive transfer try_fast m =>
      rw [surfaced_arrive]
      exact ih _ (by simpa [List.countP_cons, QueueOp.dequeues] using h)
    | process =>
      simp [List.countP_cons, QueueOp.dequeues] at h

theorem surfaced_until_token (fuel : Nat) (c : CownPtr) (ops : List QueueOp) :
    ∀ (w : World) (pre post : List MultiMessage) (tok : MultiMessage),
      (w.cowns c).queue.msgs = pre ++ tok :: post → tok.body = none →
      (∀ m ∈ pre, m.body ≠ none) → (w.cowns c).status.has_token = true →
      ops.countP QueueOp.dequeues = pre.length + 1 →
      surfaced fuel c ops w = some (List.replicate pre.length false ++ [true]) := by
  induction ops with
  | nil =>
    intro w pre post tok _ _ _ _ h
    simp at h
  | cons op rest ih =>
    intro w pre post tok hq htok hpre ht hn
    cases op with
    | arrive transfer try_fast m =>
      rw [surfaced_arrive]
      have hs := send_msgs_status transfer try_fast w c m
      refine ih _ pre (post ++ [m]) tok ?_ htok hpre ?_ ?_
      · rw [hs.1, hq]
        simp
      · rw [hs.2]
        exact ht
      · simpa [List.countP_cons, QueueOp.dequeues] using hn
    | process =>
      have hn2 : rest.countP QueueOp.dequeues = pre.length := by
        simpa [List.countP_cons, QueueOp.dequeues] using hn
      obtain ⟨h1, h2, _, _⟩ := queue_dequeue_notify_fields w c
      cases pre with
      | nil =>
        rw [List.nil_append] at hq
        rw [surfaced_process_token fuel c rest w tok post hq htok ht,
          surfaced_arrivals fuel c rest _ hn2]
        rfl
      | cons p pre2 =>
        rw [List.cons_append] at hq
        obtain ⟨b, hb⟩ := Option.ne_none_iff_exists'.mp (hpre p (List.mem_cons_self _ _))
        have hc := check_message_token_body fuel (queue_dequeue_notify w c).1 c b
        have ht2 : ((queue_dequeue_notify w c).1.cowns c).status.has_token = true := by
          rw [h1]
          exact ht
        rw [surfaced_process_body fuel c rest w p (pre2 ++ tok :: post) b hq hb,
          ih _ pre2 post tok (by rw [hc.2.1 ht2, h2, hq]; rfl) htok
            (fun m hm => hpre m (List.mem_cons_of_mem _ hm)) hc.1
            (by simpa using hn2)]
        simp [List.replicate_succ]

theorem surfaced_cycle (fuel : Nat) (c : CownPtr) (ops : List QueueOp) (w : World)
    (m : MultiMessage) (rest : List MultiMessage)
    (hflag : (w.cowns c).status.has_token = false)
    (hq : (w.cowns c).queue.msgs = m :: rest)
    (hbody : ∀ x ∈ m :: rest, x.body ≠ none)
    (hn : ops.countP QueueOp.dequeues = rest.length + 1) :
    surfaced fuel c (QueueOp.process :: ops) w =
      some (List.replicate (rest.length + 1) false ++ [true]) := by
  obtain ⟨h1, h2, _, h4⟩ := queue_dequeue_notify_fields w c
  obtain ⟨b, hb⟩ := Option.ne_none_iff_exists'.mp (hbody m (List.mem_cons_self _ _))
  have hc := check_message_token_body fuel (queue_dequeue_notify w c).1 c b
  have hf2 : ((queue_dequeue_notify w c).1.cowns c).status.has_token = false := by
    rw [h1]
    exact hflag
  rw [surfaced_process_body fuel c ops w m rest b hq hb,
    surfaced_until_token fuel c ops _ rest [] ⟨(queue_dequeue_notify w c).1.next_addr, none,
      EpochMark.EPOCH_NONE⟩ (by rw [hc.2.2 hf2, h2, hq]; rfl) rfl
      (fun x hx => hbody x (List.mem_cons_of_mem _ hx)) hc.1 hn]
  simp [List.replicate_succ]

theorem check_message_token_load (fuel : Nat) (w : World) (c : CownPtr) (body : BodyPtr) :
    1 ≤ ((check_message_token fuel w c (some body)).1.world.cowns c).status.current_load ∧
    ((check_message_token fuel w c (some body)).1.world.cowns c).status.current_load ≤ 255 := by
  unfold check_message_token
  simp only
  split_ifs <;>
    simp only [backpressure_unblock_msgs_status] <;>
    simp [set_cown_cowns, Status.set_has_token, Status.has_token, Status.reset_load,
      Status.inc_load, Status.current_load]

theorem token_gaps_from_replicate (n : Nat) :
    ∀ s : Option Nat, token_gaps_from s (List.replicate n false ++ [true]) =
      match s with
      | none => []
      | some k => [k + n] := by
  induction n with
  | zero =>
    intro s
    cases s <;> simp [token_gaps_from]
  | succ n ih =>
    intro s
    rw [List.replicate_succ, List.cons_append]
    cases s with
    | none =>
      rw [token_gaps_from, Option.map_none', ih]
    | some k =>
      rw [token_gaps_from, Option.map_some', ih]
      simp only
      congr 1
      omega

theorem token_gaps_from_pos (fuel : Nat) (c : CownPtr) (ops : List QueueOp) :
    ∀ (w : World) (s : Option Nat), token_invariant w c →
      (∀ op ∈ ops, op.carries_body = true) →
      (∀ n, s = some n → (w.cowns c).status.has_token = true → 1 ≤ n) →
      ∃ l, surfaced fuel c ops w = some l ∧ ∀ g ∈ token_gaps_from s l, 1 ≤ g := by
  induction ops with
  | nil =>
    intro w s _ _ _
    exact ⟨[], rfl, by simp [token_gaps_from]⟩
  | cons op rest ih =>
    intro w s hinv hops hs
    have hrest : ∀ o ∈ rest, o.carries_body = true :=
      fun o ho => hops o (List.mem_cons_of_mem _ ho)
    obtain ⟨v, hv, hvi⟩ := queue_op_invariant fuel c w op (hops op (List.mem_cons_self _ _)) hinv
    cases op with
    | arrive transfer try_fast m =>
      rw [surfaced_arrive]
      have hst := (send_msgs_status transfer try_fast w c m).2
      have hv2 : v = (send transfer try_fast w c m).1 := by
        simp [queue_op] at hv
        exact hv.symm
      rw [← hv2]
      exact ih v s hvi hrest (fun n hn ht => hs n hn (by rw [hv2, hst] at ht; exact ht))
    | process =>
      obtain ⟨h1, h2, h3, _⟩ := queue_dequeue_notify_fields w c
      cases hq : (w.cowns c).queue.msgs with
      | nil =>
        rw [surfaced_process_empty fuel c rest w hq]
        have hv2 : v = (queue_dequeue_notify w c).1 := by
          rw [hq] at h3
          simp [queue_op, h3] at hv
          exact hv.symm
        rw [← hv2]
        exact ih v s hvi hrest (fun n hn ht => hs n hn (by rw [hv2, h1] at ht; exact ht))
      | cons m tl =>
        cases hb : m.body with
        | some b =>
          rw [surfaced_process_body fuel c rest w m tl b hq hb]
          have hv2 : v = (check_message_token fuel (queue_dequeue_notify w c).1 c
              (some b)).1.world := by
            rw [hq] at h3
            simp [queue_op, h3, hb] at hv
            exact hv.symm
          rw [← hv2]
          obtain ⟨l, hl, hg⟩ := ih v (s.map (fun n => n + 1)) hvi hrest (by
            intro n hn _
            cases s with
            | none => simp at hn
            | some k =>
              simp at hn
              omega)
          refine ⟨false :: l, by rw [hl]; rfl, ?_⟩
          intro g hgm
          rw [token_gaps_from] at hgm
          exact hg g hgm
        | none =>
          have ht : (w.cowns c).status.has_token = true := by
            by_contra hneg
            rw [hq] at h3
            simp [queue_op, h3, hb, h1, hneg] at hv
          rw [surfaced_process_token fuel c rest w m tl hq hb ht]
          have hv2 : v = (check_message_token fuel (queue_dequeue_notify w c).1 c
              none).1.world := by
            rw [hq] at h3
            simp [queue_op, h3, hb, h1, ht] at hv
            exact hv.symm
          rw [← hv2]
          have hvt : (v.cowns c).status.has_token = false := by
            rw [hv2]
            exact (check_message_token_null fuel _ c).2
          obtain ⟨l, hl, hg⟩ := ih v (some 0) hvi hrest (by
            intro n _ htv
            rw [hvt] at htv
            cases htv)
          refine ⟨true :: l, by rw [hl]; rfl, ?_⟩
          intro g hgm
          cases s with
          | none =>
            rw [token_gaps_from] at hgm
            exact hg g hgm
          | some k =>
            rw [token_gaps_from] at hgm
            rcases List.mem_cons.mp hgm with h | h
            · rw [h]
              exact hs k rfl ht
            · exact hg g h

theorem surfaced_single (fuel : Nat) (c : CownPtr) (ops : List QueueOp) (w : World)
    (transfer : TransferOwnership) (try_fast : TryFastSend) (m : MultiMessage) (b : BodyPtr)
    (hq : (w.cowns c).queue.msgs = []) (hf : (w.cowns c).status.has_token = false)
    (hb : m.body = some b) :
    ∃ v, surfaced fuel c
        (QueueOp.arrive transfer try_fast m :: QueueOp.process :: QueueOp.process :: ops) w =
        (surfaced fuel c ops v).map (fun l => false :: true :: l) ∧
      (v.cowns c).queue.msgs = [] ∧ (v.cowns c).status.has_token = false := by
  have hs := send_msgs_status transfer try_fast w c m
  rw [hq, List.nil_append] at hs
  obtain ⟨a1, a2, _, _⟩ := queue_dequeue_notify_fields (send transfer try_fast w c m).1 c
  have hc := check_message_token_body fuel
    (queue_dequeue_notify (send transfer try_fast w c m).1 c).1 c b
  have q2 := hc.2.2 (by rw [a1, hs.2]; exact hf)
  rw [a2, hs.1] at q2
  obtain ⟨b1, b2, _, _⟩ := queue_dequeue_notify_fields
    (check_message_token fuel
      (queue_dequeue_notify (send transfer try_fast w c m).1 c).1 c (some b)).1.world c
  have hn := check_message_token_null fuel
    (queue_dequeue_notify (check_message_token fuel
      (queue_dequeue_notify (send transfer try_fast w c m).1 c).1 c (some b)).1.world c).1 c
  refine ⟨(check_message_token fuel
    (queue_dequeue_notify (check_message_token fuel
      (queue_dequeue_notify (send transfer try_fast w c m).1 c).1 c (some b)).1.world c).1 c
      none).1.world, ?_, ?_, hn.2⟩
  · rw [surfaced_arrive, surfaced_process_body fuel c _ _ m [] b hs.1 hb,
      surfaced_process_token fuel c _ _ _ [] q2 rfl hc.1, Option.map_map]
    rfl
  · rw [hn.1, b2, q2]
    rfl

theorem surfaced_arrivals_append (fuel : Nat) (c : CownPtr) (ops : List QueueOp) (n : Nat) :
    ∀ (a : Nat) (w : World), ∃ (v : World) (q : List MultiMessage),
      surfaced fuel c (QueueOp.arrivals n a ++ ops) w = surfaced fuel c ops v ∧
      (v.cowns c).queue.msgs = (w.cowns c).queue.msgs ++ q ∧ q.length = n ∧
      (∀ m ∈ q, m.body ≠ none) ∧ (v.cowns c).status = (w.cowns c).status := by
  induction n with
  | zero =>
    intro a w
    exact ⟨w, [], rfl, by simp, rfl, by simp, rfl⟩
  | succ n ih =>
    intro a w
    have hs := send_msgs_status TransferOwnership.NoTransfer TryFastSend.NoTryFast w c
      ⟨a, some 0, EpochMark.EPOCH_A⟩
    obtain ⟨v, q, h1, h2, h3, h4, h5⟩ := ih (a + 1)
      (send TransferOwnership.NoTransfer TryFastSend.NoTryFast w c
        ⟨a, some 0, EpochMark.EPOCH_A⟩).1
    refine ⟨v, ⟨a, some 0, EpochMark.EPOCH_A⟩ :: q, ?_, ?_, by simp [h3], ?_, by rw [h5, hs.2]⟩
    · rw [QueueOp.arrivals, List.cons_append, surfaced_arrive]
      exact h1
    · rw [h2, hs.1]
      simp
    · intro m hm
      rcases List.mem_cons.mp hm with h | h
      · rw [h]
        simp
      · exact h4 m h

theorem surfaced_burst (fuel k : Nat) (hk : 0 < k) :
    surfaced fuel 1 (QueueOp.burst k) World.fresh =
      some (false :: true :: (List.replicate k false ++ [true])) := by
  obtain ⟨n, rfl⟩ : ∃ n, k = n + 1 := ⟨k - 1, by omega⟩
  obtain ⟨w3, e3, q3, t3⟩ := surfaced_single fuel 1
    (QueueOp.arrivals (n + 1) 1001 ++ List.replicate (n + 1 + 1) QueueOp.process) World.fresh
    TransferOwnership.NoTransfer TryFastSend.NoTryFast ⟨1000, some 0, EpochMark.EPOCH_A⟩ 0
    rfl rfl rfl
  obtain ⟨v, q, h1, h2, h3, h4, h5⟩ := surfaced_arrivals_append fuel 1
    (List.replicate (n + 1 + 1) QueueOp.process) (n + 1) 1001 w3
  rw [q3, List.nil_append] at h2
  have e : QueueOp.burst (n + 1) =
      QueueOp.arrive TransferOwnership.NoTransfer TryFastSend.NoTryFast
        ⟨1000, some 0, EpochMark.EPOCH_A⟩ :: QueueOp.process :: QueueOp.process ::
        (QueueOp.arrivals (n + 1) 1001 ++ List.replicate (n + 1 + 1) QueueOp.process) := rfl
  rw [e, e3, h1]
  cases q with
  | nil => simp at h3
  | cons m rest =>
    have hlen : rest.length = n := by simpa using h3
    rw [List.replicate_succ, surfaced_cycle fuel 1 _ v m rest (by rw [h5]; exact t3) h2 h4
      (by
        rw [hlen, List.countP_replicate]
        simp [QueueOp.dequeues]), hlen]
    rfl

theorem token_count_zero (q : MPSCQ) (h : token_count q = 0) : ∀ x ∈ q.msgs, x.body ≠ none := by
  intro x hx hb
  unfold token_count at h
  have hnil := List.length_eq_zero.mp h
  have hmem : x ∈ q.msgs.filter (fun m => decide (m.body = none)) :=
    List.mem_filter.mpr ⟨hx, by simp [hb]⟩
  rw [hnil] at hmem
  cases hmem

theorem token_gaps_after_first (l : List Bool) :
    token_gaps (false :: true :: l) = token_gaps_from (some 0) l := rfl

/-- C21, as the code has it. Token circulation on a cown `c` whose has-token
flag is clear and whose queue holds no token, under any sequence of queue
operations (messages arriving from producers, and the run loop dequeuing the
oldest node and passing it to `check_message_token`).

Cycle: when the run loop dequeues the message `m` with the messages `rest`
queued behind it, the token is enqueued behind `rest`; whatever arrives
meanwhile, the `rest.length + 2` dequeues from this one on surface exactly
`rest.length + 1` messages and then the token.

Gaps: every sequence runs through, and at least one message surfaces between
any two consecutive token observations.

No bound: for every `n`, when `n + 1` messages are sent to a fresh cown
between two of its runs, exactly `n + 1` messages surface between two
consecutive token observations.

Load: the number that 255 bounds is the load counter of the status word, which
is between 1 and 255 after every message. -/
theorem token_circulation (fuel : Nat) (c : CownPtr) (w : World) (ops : List QueueOp)
    (hflag : (w.cowns c).status.has_token = false)
    (hqueue : token_count (w.cowns c).queue = 0)
    (hops : ∀ op ∈ ops, op.carries_body = true) :
    (∀ m rest, (w.cowns c).queue.msgs = m :: rest →
      ops.countP QueueOp.dequeues = rest.length + 1 →
      surfaced fuel c (QueueOp.process :: ops) w =
        some (List.replicate (rest.length + 1) false ++ [true])) ∧
    (∃ l, surfaced fuel c ops w = some l ∧ ∀ g ∈ token_gaps l, 1 ≤ g) ∧
    (∀ n, (surfaced fuel 1 (QueueOp.burst (n + 1)) World.fresh).map token_gaps =
      some [n + 1]) ∧
    (∀ (v : World) (body : BodyPtr),
      1 ≤ ((check_message_token fuel v c (some body)).1.world.cowns c).status.current_load ∧
      ((check_message_token fuel v c (some body)).1.world.cowns c).status.current_load ≤
        255) := by
  refine ⟨?_, ?_, ?_, fun v body => check_message_token_load fuel v c body⟩
  · intro m rest hq hn
    have hbody := token_count_zero _ hqueue
    rw [hq] at hbody
    exact surfaced_cycle fuel c ops w m rest hflag hq hbody hn
  · have hinv : token_invariant w c := by
      unfold token_invariant
      rw [hqueue, hflag]
      simp
    exact token_gaps_from_pos fuel c ops w none hinv hops (fun n hn => by cases hn)
  · intro n
    rw [surfaced_burst fuel (n + 1) (by omega)]
    rw [Option.map_some', token_gaps_after_first, token_gaps_from_replicate]
    simp

/-- C21 as stated fails.  On a fresh cown 1: one message arrives and is
processed, its token is processed (first token observation), 256 messages
arrive while the cown does not run, and the cown then dequeues 257 times.  The
first of these dequeues enqueues the token behind the 255 messages still
queued, so 256 messages surface before the second token observation. -/
theorem token_circulation_gap_256 :
    surfaced 0 1 (QueueOp.burst 256) World.fresh =
      some (false :: true :: (List.replicate 256 false ++ [true])) ∧
    token_gaps (false :: true :: (List.replicate 256 false ++ [true])) = [256] ∧
    ¬ 256 ≤ 255 := by
  refine ⟨surfaced_burst 0 256 (by decide), ?_, by decide⟩
  rw [token_gaps_after_first, token_gaps_from_replicate]

/-! ## The theorems above at concrete worlds -/

/-- C1 at a running cown with two strong references: a transferring send
takes one of them. -/
theorem send_contract_witness :
    ((send TransferOwnership.YesTransfer TryFastSend.YesTryFast
        (World.fresh.set_cown 1 Cown.running) 1 ⟨7, none, EpochMark.EPOCH_A⟩).1.cowns 1).rc + 1 =
      ((World.fresh.set_cown 1 Cown.running).cowns 1).rc :=
  (send_contract TransferOwnership.YesTransfer TryFastSend.YesTryFast
    (World.fresh.set_cown 1 Cown.running) 1 ⟨7, none, EpochMark.EPOCH_A⟩).2.2.2.2.1
    (by decide) rfl (by decide)

/-- C2 at a `High` cown blocked on cown 2: the request for `Normal` without
`exact` changes nothing. -/
theorem backpressure_transition_normal_witness :
    (backpressure_transition (World.fresh.set_cown 1 (Cown.with_token Priority.High (some 2)))
        1 Priority.Normal false).1 =
      World.fresh.set_cown 1 (Cown.with_token Priority.High (some 2)) ∧
    (backpressure_transition (World.fresh.set_cown 1 (Cown.with_token Priority.High (some 2)))
        1 Priority.Normal false).2 =
      priority (World.fresh.set_cown 1 (Cown.with_token Priority.High (some 2))) 1 :=
  (backpressure_transition_normal
    (World.fresh.set_cown 1 (Cown.with_token Priority.High (some 2))) 1 false).2 rfl (by decide)

/-- C5 at a muted cown: the transition to `Normal` records one wake and one
schedule. -/
theorem backpressure_transition_schedule_on_wake_witness :
    (backpressure_transition (World.fresh.set_cown 1 (Cown.muted none))
        1 Priority.Normal false).1.trace =
      [Event.wake 1, Event.schedule_fifo 1] :=
  ((backpressure_transition_schedule_on_wake (World.fresh.set_cown 1 (Cown.muted none))
    1 Priority.Normal false).1 (by decide) (by decide)).1

/-- C4 at a muted cown: token processing leaves the priority `Low`. -/
theorem backpressure_transition_maybehigh_witness :
    priority (check_message_token 8 (World.fresh.set_cown 1 (Cown.muted none)) 1 none).1.world 1 =
      priority (World.fresh.set_cown 1 (Cown.muted none)) 1 :=
  (backpressure_transition_maybehigh (World.fresh.set_cown 1 (Cown.muted none)) 1 false).2.2.2
    8 (by decide) (Or.inl (by decide))

/-- C6 at a `High` cown with a token in flight. -/
theorem check_message_token_high_witness :
    (check_message_token 8 (World.fresh.set_cown 1 (Cown.with_token Priority.High (some 2)))
      1 none).2 = true ∧
    priority (check_message_token 8
      (World.fresh.set_cown 1 (Cown.with_token Priority.High (some 2))) 1 none).1.world 1 =
      Priority.MaybeHigh :=
  have h := check_message_token_high 8
    (World.fresh.set_cown 1 (Cown.with_token Priority.High (some 2))) 1
    (by decide) (by decide) (by decide)
  ⟨h.1, h.2.2.2.2.2.1⟩

/-- C8 with sender 1 and receivers 4, 3, 2: cown 4 is `Normal`, so the muted
cown 3 becomes the mutor. -/
theorem backpressure_scan_contract_witness :
    ∃ v, backpressure_scan World.blocked ⟨0, [1], 0⟩ ⟨0, [4, 3, 2], 0⟩ = some v ∧
      v.sched = some ⟨some 3, none, false, EpochMark.EPOCH_A⟩ ∧
      (v.cowns 3).weak_count = (World.blocked.cowns 3).weak_count + 1 := by
  obtain ⟨v, hv, _, h2⟩ := backpressure_scan_contract World.blocked
    ⟨none, none, false, EpochMark.EPOCH_A⟩ ⟨0, [1], 0⟩ ⟨0, [4, 3, 2], 0⟩ rfl
  have h3 := (h2 rfl (by decide)).1 3 (by decide)
  exact ⟨v, hv, h3.1, h3.2.1⟩

/-- C9 on the chain 1, 2: the muted cown 2 is raised, woken and scheduled. -/
theorem backpressure_unblock_chain_witness :
    (backpressure_unblock 2 World.blocked (some 1)).returned = true ∧
    priority (backpressure_unblock 2 World.blocked (some 1)).world 2 = Priority.High ∧
    (backpressure_unblock 2 World.blocked (some 1)).world.trace =
      [Event.wake 2, Event.schedule_fifo 2] :=
  have h := backpressure_unblock_chain World.blocked 1 [1, 2]
    (BlockerChain.step 1 [2] (BlockerChain.step 2 [] BlockerChain.null)) 2 (by decide)
  ⟨h.1, h.2.1 2 (by decide), h.2.2.2.2.1⟩

/-- C11 for the arrays `[3, 1, 2]` and `[2, 9, 1]` and the shared cowns 1
and 2. -/
theorem schedule_behaviour_same_order_witness :
    occurs_before ((schedule_behaviour high_bit 8 TransferOwnership.NoTransfer World.fresh
        [3, 1, 2] 0).world.bodies World.fresh.next_addr).cowns 1 2 ↔
      occurs_before ((schedule_behaviour high_bit 8 TransferOwnership.NoTransfer World.fresh
        [2, 9, 1] 0).world.bodies World.fresh.next_addr).cowns 1 2 :=
  (schedule_behaviour_same_order high_bit high_bit 8 8 TransferOwnership.NoTransfer
    TransferOwnership.NoTransfer World.fresh World.fresh [3, 1, 2] [2, 9, 1] 0 0 1 2
    (by decide) (by decide) (by decide) (by decide) (by decide)).1

/-- C12 where the data of cown 1 holds the only reference to cown 2: the last
`release` of cown 1 collects both cowns, takes the strong count of cown 2 to
zero and releases the weak count of each of them once. -/
theorem release_contract_witness :
    ((release World.owning 1).cowns 1).collected = true ∧
    ((release World.owning 1).cowns 2).collected = true ∧
    ((release World.owning 1).cowns 2).rc = 0 ∧
    ((release World.owning 1).cowns 1).weak_count + 1 = (World.owning.cowns 1).weak_count ∧
    ((release World.owning 1).cowns 2).weak_count + 1 = (World.owning.cowns 2).weak_count ∧
    ((release World.owning 1).cowns 3).weak_count = (World.owning.cowns 3).weak_count ∧
    WeakOwned (release World.owning 1) := by
  have h := release_contract World.owning 1 (by decide) (by decide)
  obtain ⟨_, _, _, _, hcol⟩ := h.2.2.2.2.2.1 rfl rfl rfl rfl rfl
  obtain ⟨_, hW, _, hweak, _, _⟩ :=
    h.2.2.2.2.2.2 owning_strong_counted owning_weak_owned rfl (by decide)
  have h1 := hweak 1
  have h2 := hweak 2
  have h3 := hweak 3
  have e1 : ((release World.owning 1).cowns 1).rc = 0 := by decide
  have e2 : ((release World.owning 1).cowns 2).rc = 0 := by decide
  have e3 : ((release World.owning 1).cowns 3).rc = 1 := by decide
  rw [if_pos ⟨by decide, e1⟩] at h1
  rw [if_pos ⟨by decide, e2⟩] at h2
  rw [if_neg (by rw [e3]; decide)] at h3
  exact ⟨hcol, by decide, e2, h1, h2, h3, hW⟩

/-- C13 at a fresh cown, whose mark is `EPOCH_A`, swept in epoch `EPOCH_B`. -/
theorem try_collect_cases_witness :
    (try_collect World.fresh 1 EpochMark.EPOCH_B).2 = true ∧
    is_collected (try_collect World.fresh 1 EpochMark.EPOCH_B).1 1 = true :=
  have h := (try_collect_cases World.fresh 1 EpochMark.EPOCH_B).2.2 (by decide) (by decide)
  ⟨h.1, h.2.1⟩

/-- C15 in `World.posting`, where the fast path stops at cown 1, which is
awake and muted: cown 2 has the `High` bit, so the mode is on, and the stop
raises cown 1 to `High` and schedules it once.  And in `World.asleep`, where
both participants are asleep: the message ends on the last one, cown 2, which
is scheduled once. -/
theorem fast_send_contract_witness :
    ((fast_send high_bit 8 World.posting 0 EpochMark.EPOCH_A).returned = true ∧
      priority (fast_send high_bit 8 World.posting 0 EpochMark.EPOCH_A).world 1 =
        Priority.High ∧
      schedule_count (fast_send high_bit 8 World.posting 0 EpochMark.EPOCH_A).world 1 =
        schedule_count World.posting 1 + 1) ∧
    ∃ u, fast_send high_bit 8 World.asleep 0 EpochMark.EPOCH_A = ⟨u, true⟩ ∧
      (u.bodies 0).index = 1 ∧
      (u.cowns 2).queue.msgs = [⟨1, some 0, EpochMark.EPOCH_A⟩] ∧
      schedule_count u 2 = 1 := by
  obtain ⟨v, _, _, _, hbp, _, _, _, _, _, hup⟩ :=
    (fast_send_contract high_bit 8 World.posting 0 EpochMark.EPOCH_A (by decide) (by decide)
      (by decide)).1 [] 1 [2] rfl (by decide) (by decide)
  have hchain : BlockerChain v (some 1) [1] :=
    BlockerChain.step 1 [] (by
      have hb : blocker v 1 = none := congrArg BpState.blocker hbp
      rw [hb]
      exact BlockerChain.null)
  obtain ⟨h1, h2, _, _, h5⟩ := hup (by decide) [1] hchain (by decide)
  obtain ⟨u, g1, g2, g3, _, _, g6⟩ :=
    (fast_send_contract high_bit 8 World.asleep 0 EpochMark.EPOCH_A (by decide) (by decide)
      (by decide)).2.1 [1] 2 rfl (by decide)
  exact ⟨⟨h1, h2 1 (by simp), by simpa using h5 1⟩, u, g1, g2, g3, g6 2⟩

/-- C16 in `World.asleep`, where no blocker is set and the participants 1, 2
are strictly increasing. -/
theorem blockers_ascend_witness :
    BlockersAscend (fast_send high_bit 8 World.asleep 0 EpochMark.EPOCH_A).world :=
  (blockers_ascend Externals.sample 8 World.asleep 0 EpochMark.EPOCH_A (by decide)).2.1
    (fun _ _ h => by cases h)

/-- C17 in `World.asleep` for the message at `index = 0` of two
participants. -/
theorem run_step_contract_witness :
    ∃ o, (∀ g, run_step { Externals.sample with behaviour := g } 8 World.asleep
          ⟨7, some 0, EpochMark.EPOCH_A⟩ = some (o, false)) ∧
      (World.asleep.bodies 0).index < (o.world.bodies 0).index ∧ o.returned = true := by
  obtain ⟨o, h1, _, h3, h4⟩ := (run_step_contract Externals.sample 8 World.asleep
    ⟨7, some 0, EpochMark.EPOCH_A⟩ 0 ⟨none, none, false, EpochMark.EPOCH_A⟩ rfl rfl
    (by decide) (by decide)).2 (by decide)
  exact ⟨o, h1, h3, h4 8 (fun c b h => by cases h) (by decide) (fun c b h => by cases h)
    (by decide) (le_refl 8)⟩

/-- C18 at a running cown with an empty queue and no producer racing. -/
theorem run_empty_queue_witness :
    ∃ v, run Externals.sample 8 [] (World.fresh.set_cown 1 Cown.running) 1 =
        some (⟨v, true⟩, false) ∧
      (v.cowns 1).queue.sleeping = true ∧
      (v.cowns 1).rc + 1 = ((World.fresh.set_cown 1 Cown.running).cowns 1).rc := by
  obtain ⟨v, h1, h2, _, _, h5⟩ := (run_empty_queue Externals.sample 8 []
    (World.fresh.set_cown 1 Cown.running) 1 (by decide) rfl rfl rfl (by decide)).2.1
    (by decide)
  exact ⟨v, h1, h2, h5⟩

/-- C19 at a fresh cown, whose total load is 0. -/
theorem run_batch_limit_witness :
    batch_limit (Externals.sample.total_load (World.fresh.cowns 1).status) =
      100 + (Externals.sample.total_load (World.fresh.cowns 1).status >>> 3) :=
  (run_batch_limit Externals.sample 8 [] World.fresh 1).2.2.2 (by decide)

/-- C20 at a fresh cown: a message arrives, is processed (which queues the
token), and the token is processed. -/
theorem token_uniqueness_witness :
    ∃ v, queue_ops 8 1
        [QueueOp.arrive TransferOwnership.NoTransfer TryFastSend.NoTryFast
          ⟨5, some 0, EpochMark.EPOCH_A⟩, QueueOp.process, QueueOp.process] World.asleep =
        some v ∧
      token_count (v.cowns 1).queue ≤ 1 := by
  obtain ⟨v, h1, h2, _⟩ := token_uniqueness 8 1
    [QueueOp.arrive TransferOwnership.NoTransfer TryFastSend.NoTryFast
      ⟨5, some 0, EpochMark.EPOCH_A⟩, QueueOp.process, QueueOp.process] World.asleep
    rfl rfl (by decide)
  exact ⟨v, h1, h2⟩

/-- C21 at cown 1 of `World.queued`, with two messages queued: three dequeues
surface the two messages and then the token. -/
theorem token_circulation_witness :
    surfaced 0 1 [QueueOp.process, QueueOp.process, QueueOp.process] World.queued =
      some [false, false, true] :=
  (token_circulation 0 1 World.queued [QueueOp.process, QueueOp.process] (by decide)
    (by decide) (by decide)).1 ⟨10, some 0, EpochMark.EPOCH_A⟩
    [⟨11, some 0, EpochMark.EPOCH_A⟩] rfl (by decide)

end Verona
